import Mathlib

/-!
# Contiguous frame pool (`MP2_Sources/cont_frame_pool.C`)

A shallow embedding of `ContFramePool`: the 2-bit packed frame states, the
constructor, `get_frames`, `mark_inaccessible`, `release_frames` and
`needed_info_frames`.

Modelling conventions.

* The bitmap is the memory seen through the `bitmap` pointer: a function from
  byte offset to byte value.  Nothing in the source bounds the offsets it
  reads, so the function is total; the bytes that lie behind the pool's own
  entries are whatever the memory held when the pool was constructed.
* `unsigned char` arithmetic is truncated with `% 256`.
* Frame numbers and frame counts are `Nat`.  On the 32-bit target they stay
  far below `2 ^ 32`, so sums are written without wrap-around; the unsigned
  decrement and the unsigned difference, which can wrap, are `dec32` and
  `sub32`.
* A `for` loop `for (i = lo; i < hi; i++) body` is `forLoop lo hi body`.
* The registry (`head` / `next`) is the list of pools in insertion order.
-/

/-- The three frame states of `ContFramePool::FrameState`. -/
inductive FrameState where
  | Free
  | Used
  | HoS
  deriving DecidableEq, Repr

/-- The frame pool object: its scalar members and the memory behind `bitmap`. -/
structure ContFramePool where
  base_frame_no : Nat
  nframes : Nat
  nFreeFrames : Nat
  info_frame_no : Nat
  bitmap : Nat → Nat

/-- Unsigned 32-bit decrement `x--`. -/
def dec32 (x : Nat) : Nat := if x = 0 then 4294967295 else x - 1

/-- Unsigned 32-bit difference `x - y`. -/
def sub32 (x y : Nat) : Nat := if y ≤ x then x - y else x + 4294967296 - y

/-- Unsigned 32-bit sum `x + y`. -/
def add32 (x y : Nat) : Nat := (x + y) % 4294967296

/-- Iterations of a counting loop: `fuel` iterations starting at index `i`. -/
def forLoopAux {σ : Type} (body : Nat → σ → σ) : Nat → Nat → σ → σ
  | 0, _, s => s
  | fuel + 1, i, s => forLoopAux body fuel (i + 1) (body i s)

/-- The loop `for (i = lo; i < hi; i++) s = body i s`. -/
def forLoop {σ : Type} (lo hi : Nat) (body : Nat → σ → σ) (s : σ) : σ :=
  forLoopAux body (hi - lo) lo s

namespace ContFramePool

/-- Source `ContFramePool::get_state`: decode the two bits of a frame. -/
def get_state (p : ContFramePool) (_frame_no : Nat) : FrameState :=
  let bitmap_index := _frame_no / 4
  let mask := 3
  let frameBits := (p.bitmap bitmap_index >>> ((_frame_no % 4) * 2)) % 256
  if frameBits &&& mask = 0 then FrameState.Free
  else if frameBits &&& mask = 1 then FrameState.Used
  else if frameBits &&& mask = 3 then FrameState.HoS
  else FrameState.Used

/-- Source `ContFramePool::set_state`: force the two bits to `11`, then clear
the bits the requested state does not have. -/
def set_state (p : ContFramePool) (_frame_no : Nat) (_state : FrameState) : ContFramePool :=
  let bitmap_index := _frame_no / 4
  let mask := (3 <<< ((_frame_no % 4) * 2)) % 256
  let b1 := (p.bitmap bitmap_index ||| mask) % 256
  let b2 :=
    match _state with
    | FrameState.Free => (b1 ^^^ mask) % 256
    | FrameState.Used => (b1 ^^^ ((2 <<< ((_frame_no % 4) * 2)) % 256)) % 256
    | FrameState.HoS => b1
  { p with bitmap := fun i => if i = bitmap_index then b2 else p.bitmap i }

/-- Source `ContFramePool::needed_info_frames`. -/
def needed_info_frames (_n_frames : Nat) : Nat :=
  _n_frames / 16384 + (if _n_frames % 16384 > 0 then 1 else 0)

/-- Source constructor `ContFramePool::ContFramePool`, without the registry
insertion (see `register`).  `mem` is the content of the memory the `bitmap`
pointer is set to. -/
def construct (_base_frame_no _n_frames _info_frame_no : Nat) (mem : Nat → Nat) :
    ContFramePool :=
  let p0 : ContFramePool :=
    { base_frame_no := _base_frame_no
      nframes := _n_frames
      nFreeFrames := _n_frames
      info_frame_no := _info_frame_no
      bitmap := mem }
  let p1 := forLoop 0 _n_frames (fun fno q => q.set_state fno FrameState.Free) p0
  let info_frames_needed := needed_info_frames _n_frames
  if _info_frame_no = 0 then
    let p2 := p1.set_state 0 FrameState.HoS
    let p3 := { p2 with nFreeFrames := dec32 p2.nFreeFrames }
    forLoop 1 info_frames_needed
      (fun fno q =>
        let q1 := q.set_state fno FrameState.Used
        { q1 with nFreeFrames := dec32 q1.nFreeFrames })
      p3
  else p1

/-- The tail of the constructor: the new pool is appended to the registry. -/
def register (pools : List ContFramePool) (p : ContFramePool) : List ContFramePool :=
  pools ++ [p]

/-- The search loop of `get_frames`, from index `i` with the loop variables
`frame_no` and `count`; `fuel` is the number of indices left below `nframes`.
The result is `some frame_no` when the loop leaves with `found = 1`. -/
def scan (p : ContFramePool) (_n_frames : Nat) : Nat → Nat → Nat → Nat → Option Nat
  | 0, _, _, _ => none
  | fuel + 1, i, frame_no, count =>
    if p.get_state i = FrameState.Free then
      if count + 1 = _n_frames then some frame_no
      else scan p _n_frames fuel (i + 1) frame_no (count + 1)
    else scan p _n_frames fuel (i + 1) (i + 1) 0

/-- The whole search loop of `get_frames`: `for (i = 0; i < nframes; i++)`. -/
def find_run (p : ContFramePool) (_n_frames : Nat) : Option Nat :=
  scan p _n_frames p.nframes 0 0 0

/-- Source `ContFramePool::get_frames`: the returned number and the pool after
the call. -/
def get_frames (p : ContFramePool) (_n_frames : Nat) : Nat × ContFramePool :=
  if p.nFreeFrames < _n_frames then (0, p)
  else
    match p.find_run _n_frames with
    | some frame_no =>
      let p1 := p.set_state frame_no FrameState.HoS
      let p2 := forLoop (frame_no + 1) (frame_no + _n_frames)
        (fun i q => q.set_state i FrameState.Used) p1
      (frame_no + p.base_frame_no, { p2 with nFreeFrames := p2.nFreeFrames - _n_frames })
    | none => (0, p)

/-- Source `ContFramePool::mark_inaccessible`.  The index
`_base_frame_no - base_frame_no + i` is an `unsigned long`: difference and
sum wrap modulo `2 ^ 32`, so for a frame below the pool's base the index
comes back around to the pool's first entries. -/
def mark_inaccessible (p : ContFramePool) (_base_frame_no _n_frames : Nat) : ContFramePool :=
  let p1 := p.set_state (sub32 _base_frame_no p.base_frame_no) FrameState.HoS
  let p2 := { p1 with nFreeFrames := dec32 p1.nFreeFrames }
  forLoop 1 _n_frames
    (fun i q =>
      let q1 := q.set_state (add32 (sub32 _base_frame_no q.base_frame_no) i) FrameState.Used
      { q1 with nFreeFrames := dec32 q1.nFreeFrames })
    p2

/-- The `while` loop of `release_frames`:
`while (index < base_frame_no + nframes && get_state(index) == Used)`.
`fuel` bounds the iterations; `release_in_pool` passes the distance from
`index` to the loop bound, which the loop cannot exceed. -/
def release_walk : Nat → Nat → ContFramePool → ContFramePool
  | 0, _, q => q
  | fuel + 1, index, q =>
    if index < q.base_frame_no + q.nframes ∧ q.get_state index = FrameState.Used then
      let q1 := q.set_state index FrameState.Free
      release_walk fuel (index + 1) { q1 with nFreeFrames := q1.nFreeFrames + 1 }
    else q

/-- The part of `release_frames` that runs on the pool found in the registry
(source lines 283 to 295). -/
def release_in_pool (curr_pool : ContFramePool) (_first_frame_no : Nat) : ContFramePool :=
  if curr_pool.get_state (_first_frame_no - curr_pool.base_frame_no) ≠ FrameState.HoS then
    curr_pool
  else
    let q1 := curr_pool.set_state (_first_frame_no - curr_pool.base_frame_no) FrameState.Free
    let q2 := { q1 with nFreeFrames := q1.nFreeFrames + 1 }
    let index := _first_frame_no - curr_pool.base_frame_no + 1
    release_walk (q2.base_frame_no + q2.nframes - index) index q2

/-- Source `ContFramePool::release_frames` (static): walk the registry to the
first pool whose range holds the frame, then release in that pool.  With no
such pool the source dereferences a null pointer: `none`. -/
def release_frames : List ContFramePool → Nat → Option (List ContFramePool)
  | [], _ => none
  | curr_pool :: rest, _first_frame_no =>
    if _first_frame_no ≥ curr_pool.base_frame_no ∧
        _first_frame_no < curr_pool.base_frame_no + curr_pool.nframes then
      some (curr_pool.release_in_pool _first_frame_no :: rest)
    else
      (release_frames rest _first_frame_no).map (fun r => curr_pool :: r)

end ContFramePool

/-! ## The packed two-bit store -/

/-- The state `get_state` decodes from byte `b` at position `j` of the byte. -/
def fieldOf (b j : Nat) : FrameState :=
  let frameBits := (b >>> (j * 2)) % 256
  if frameBits &&& 3 = 0 then FrameState.Free
  else if frameBits &&& 3 = 1 then FrameState.Used
  else if frameBits &&& 3 = 3 then FrameState.HoS
  else FrameState.Used

/-- The byte `set_state` stores in place of `b` for position `j`. -/
def withField (b j : Nat) (s : FrameState) : Nat :=
  let mask := (3 <<< (j * 2)) % 256
  let b1 := (b ||| mask) % 256
  match s with
  | FrameState.Free => (b1 ^^^ mask) % 256
  | FrameState.Used => (b1 ^^^ ((2 <<< (j * 2)) % 256)) % 256
  | FrameState.HoS => b1

namespace ContFramePool

/-- What a pool `q` looks like after frames `lo .. hi - 1` of `p` were set to
`st` and the free counter went from `p.nFreeFrames` to `c`. -/
structure RangeSet (p q : ContFramePool) (lo hi : Nat) (st : FrameState) (c : Nat) : Prop where
  base : q.base_frame_no = p.base_frame_no
  nframes : q.nframes = p.nframes
  info : q.info_frame_no = p.info_frame_no
  nFree : q.nFreeFrames = c
  inside : ∀ g, lo ≤ g → g < hi → q.get_state g = st
  outside : ∀ g, (g < lo ∨ hi ≤ g) → q.get_state g = p.get_state g

end ContFramePool

/-! ## Predicates the statements use -/

namespace ContFramePool

/-- Frames `k .. k + n - 1` are all `Free`. -/
def RunFree (p : ContFramePool) (k n : Nat) : Prop :=
  ∀ j, j < n → p.get_state (k + j) = FrameState.Free

/-- The number of the pool's `nframes` frames whose state is `Free`. -/
def countFree (p : ContFramePool) : Nat :=
  ((List.range p.nframes).filter (fun i => decide (p.get_state i = FrameState.Free))).length

/-- The pool states `get_frames` and `release_frames` can lead to from a
constructed pool with at least one frame.  A release names a frame inside
the pool, which is what makes the registry walk stop at this pool. -/
inductive Reachable : ContFramePool → Prop where
  | construct (base n info : Nat) (mem : Nat → Nat) (hn : 1 ≤ n) :
      Reachable (construct base n info mem)
  | get_frames (p : ContFramePool) (n : Nat) (hp : Reachable p) :
      Reachable (p.get_frames n).2
  | release_frames (p : ContFramePool) (f : Nat) (hp : Reachable p)
      (hlo : p.base_frame_no ≤ f) (hhi : f < p.base_frame_no + p.nframes) :
      Reachable (p.release_in_pool f)

/-- What claim C1 promises of `get_frames(n)`: it returns `base_frame_no + k`
for a run `k .. k + n - 1` that was `Free`, marks the run `HoS` then `Used`,
leaves the other frames alone and takes `n` off the free counter. -/
def GetFramesContract (p : ContFramePool) (n : Nat) : Prop :=
  ∃ k, (p.get_frames n).1 = p.base_frame_no + k ∧
    k + n ≤ p.nframes ∧
    RunFree p k n ∧
    (p.get_frames n).2.get_state k = FrameState.HoS ∧
    (∀ j, 0 < j → j < n → (p.get_frames n).2.get_state (k + j) = FrameState.Used) ∧
    (∀ g, (g < k ∨ k + n ≤ g) → (p.get_frames n).2.get_state g = p.get_state g) ∧
    (p.get_frames n).2.nFreeFrames + n = p.nFreeFrames

/-- Frames `a .. b - 1` form a maximal run of consecutive non-`Free` frames of
the pool. -/
def MaximalRun (p : ContFramePool) (a b : Nat) : Prop :=
  a < b ∧ b ≤ p.nframes ∧
    (∀ i, a ≤ i → i < b → p.get_state i ≠ FrameState.Free) ∧
    (a = 0 ∨ p.get_state (a - 1) = FrameState.Free) ∧
    (b = p.nframes ∨ p.get_state b = FrameState.Free)

/-- No `Used` frame of the pool is an orphan: it is not frame 0 and the frame
before it is not `Free`. -/
def NoOrphan (p : ContFramePool) : Prop :=
  ∀ i, i < p.nframes → p.get_state i = FrameState.Used →
    0 < i ∧ p.get_state (i - 1) ≠ FrameState.Free

/-- Memory that holds zero everywhere. -/
def zeroMem : Nat → Nat := fun _ => 0

/-- Memory that holds the byte `0x55` everywhere: four `01` entries a byte. -/
def staleMem : Nat → Nat := fun _ => 85

/-- The shape claim C10 gives every maximal run `a .. b - 1`: its first frame
is `HoS` and every other frame is `Used`. -/
def HeadThenUsed (p : ContFramePool) (a b : Nat) : Prop :=
  p.get_state a = FrameState.HoS ∧ ∀ i, a < i → i < b → p.get_state i = FrameState.Used

/-- A three-frame pool after two single-frame allocations and the release of
the first: its frames are `Free`, `HoS`, `Free`. -/
def fragmentedPool : ContFramePool :=
  ((((construct 8 3 1 zeroMem).get_frames 1).2.get_frames 1).2).release_in_pool 8

/-- A two-frame pool after two single-frame allocations: both frames `HoS`. -/
def adjacentPool : ContFramePool :=
  (((construct 8 2 1 zeroMem).get_frames 1).2.get_frames 1).2

/-- A two-frame pool at base frame 4 whose info frame held `0x55` bytes. -/
def stalePool : ContFramePool := construct 4 2 1 staleMem

/-- The end-to-end run of claim C7 as it is written, for a pool of `nf` frames
at base frame 100 that keeps its info in its own first frame. -/
def ScenarioAsStated (nf : Nat) (mem : Nat → Nat) : Prop :=
  (construct 100 nf 0 mem).nFreeFrames = 199 ∧
  ((construct 100 nf 0 mem).get_frames 50).1 = 100 ∧
  ((construct 100 nf 0 mem).get_frames 50).2.nFreeFrames = 149 ∧
  (((construct 100 nf 0 mem).get_frames 50).2.release_in_pool 100).nFreeFrames = 199 ∧
  RunFree (((construct 100 nf 0 mem).get_frames 50).2.release_in_pool 100) 0 50 ∧
  ((((construct 100 nf 0 mem).get_frames 50).2.release_in_pool 100).get_frames 199).1 = 100

end ContFramePool

namespace ContFramePool

/-- What claim C11 promises of `mark_inaccessible(b, n)`: frame
`b - base_frame_no` becomes `HoS`, the `n - 1` frames after it `Used`, every
other frame keeps its state and the free counter goes down by exactly `n`. -/
def MarkContract (p : ContFramePool) (b n : Nat) : Prop :=
  (p.mark_inaccessible b n).get_state (b - p.base_frame_no) = FrameState.HoS ∧
  (∀ j, 1 ≤ j → j < n →
    (p.mark_inaccessible b n).get_state (b - p.base_frame_no + j) = FrameState.Used) ∧
  (∀ g, (g < b - p.base_frame_no ∨ b - p.base_frame_no + n ≤ g) →
    (p.mark_inaccessible b n).get_state g = p.get_state g) ∧
  (p.mark_inaccessible b n).nFreeFrames + n = p.nFreeFrames

/-- A one-frame pool at base frame 8 after its only frame was allocated: the
free counter is 0. -/
def fullPool : ContFramePool := ((construct 8 1 1 zeroMem).get_frames 1).2

end ContFramePool

/-! ## Virtual-memory pool (`MP4_Sources/vm_pool.C`)

Addresses and sizes are `unsigned long`, 32 bits wide on the target; sums,
products and differences of addresses are taken modulo `2 ^ 32` (`add32`,
`mul32`, `sub32`).  The region array is the memory behind the `region_array`
pointer, a function from index to record; the records behind the pool's
`num_of_region` entries are whatever that memory holds.
-/

/-- Unsigned 32-bit product. -/
def mul32 (x y : Nat) : Nat := (x * y) % 4294967296

/-- The constant `Machine::PAGE_SIZE` (`PAGE_SIZE` in `page_table.C`). -/
def PAGE_SIZE : Nat := 4096

/-- The record type of the region array: `start_address` and `size`. -/
structure Region where
  start_address : Nat
  size : Nat
  deriving DecidableEq, Repr

/-- The page table object: its only member is the `page_directory` pointer. -/
structure PageTable where
  page_directory : Nat
  deriving DecidableEq, Repr

/-- The virtual-memory pool object.  The `frame_pool` pointer is stored by the
constructor and never read; it is left out. -/
structure VMPool where
  base_address : Nat
  size : Nat
  page_table : PageTable
  num_of_region : Nat
  region_array : Nat → Region

/-- The assignment `region_array[i] = r`. -/
def set_region (ra : Nat → Region) (i : Nat) (r : Region) : Nat → Region :=
  fun j => if j = i then r else ra j

namespace VMPool

/-- Source constructor `VMPool::VMPool`, without the registration with the
page table.  `mem` is the content of the page the region array is placed
on. -/
def construct (_base_address _size : Nat) (_page_table : PageTable) (mem : Nat → Region) :
    VMPool :=
  { base_address := _base_address
    size := _size
    page_table := _page_table
    num_of_region := 0
    region_array := mem }

/-- Source `VMPool::is_legitimate`. -/
def is_legitimate (vm : VMPool) (_address : Nat) : Bool :=
  if _address ≥ vm.base_address ∧ _address < add32 vm.base_address vm.size then true
  else false

/-- The gap search of `allocate`: `for (i = 1; i < num_of_region; i++)` from
index `i` with `fuel` indices left; `some i` when the loop breaks at `i`. -/
def gap_scan (vm : VMPool) (frames : Nat) : Nat → Nat → Option Nat
  | 0, _ => none
  | fuel + 1, i =>
    if sub32 (vm.region_array i).start_address
        (add32 (vm.region_array (i - 1)).start_address (vm.region_array (i - 1)).size) >
        mul32 frames PAGE_SIZE then some i
    else gap_scan vm frames fuel (i + 1)

/-- Source `VMPool::allocate`: the returned address and the pool after the
call. -/
def allocate (vm : VMPool) (_size : Nat) : Nat × VMPool :=
  let frames0 := _size / PAGE_SIZE
  let frames := if _size % PAGE_SIZE ≠ 0 then add32 frames0 1 else frames0
  if vm.num_of_region = 0 then
    if add32 (add32 vm.base_address PAGE_SIZE) (mul32 frames PAGE_SIZE) >
        add32 vm.base_address vm.size then (0, vm)
    else
      let ra1 := set_region vm.region_array 0
        { vm.region_array 0 with start_address := add32 vm.base_address PAGE_SIZE }
      let ra2 := set_region ra1 0 { ra1 0 with size := mul32 frames PAGE_SIZE }
      ((ra2 vm.num_of_region).start_address,
        { vm with region_array := ra2, num_of_region := vm.num_of_region + 1 })
  else
    let curr :=
      match gap_scan vm frames (vm.num_of_region - 1) 1 with
      | some i => i
      | none => vm.num_of_region
    if curr = vm.num_of_region ∧
        add32 (add32 (vm.region_array (vm.num_of_region - 1)).start_address
          (vm.region_array (vm.num_of_region - 1)).size) (mul32 frames PAGE_SIZE) >
        add32 vm.base_address vm.size then (0, vm)
    else
      let ra0 := forLoop curr vm.num_of_region
        (fun i ra => set_region ra (i + 1) (ra i)) vm.region_array
      let ra1 := set_region ra0 curr
        { ra0 curr with
          start_address := add32 (ra0 (curr - 1)).start_address (ra0 (curr - 1)).size }
      let ra2 := set_region ra1 curr { ra1 curr with size := mul32 frames PAGE_SIZE }
      ((ra2 curr).start_address,
        { vm with region_array := ra2, num_of_region := vm.num_of_region + 1 })

/-- The search loop of `release`: `for (i = 0; i < num_of_region; i++)` from
index `i`; `some i` when the loop breaks at `i`. -/
def find_region (vm : VMPool) (_start_address : Nat) : Nat → Nat → Option Nat
  | 0, _ => none
  | fuel + 1, i =>
    if (vm.region_array i).start_address = _start_address then some i
    else find_region vm _start_address fuel (i + 1)

/-- The addresses claim C24 names for the calls of `PageTable::free_page`
in `release`, in ascending order: one for every whole page of the first
region that starts at the address, none when no region starts there. -/
def release_pages (vm : VMPool) (_start_address : Nat) : List Nat :=
  match find_region vm _start_address vm.num_of_region 0 with
  | none => []
  | some region_number =>
    (List.range ((vm.region_array region_number).size / PAGE_SIZE)).map
      (fun i => add32 (vm.region_array region_number).start_address (mul32 i PAGE_SIZE))

/-- The part of `VMPool::release` that acts on the pool object (source lines
99 to 108 and 114 to 117, without the `free_page` loop in between): the
search for the region and the left shift of the regions behind it.  It is
the pool a `release` call leaves when every `free_page` call returned; the
whole function is `release`. -/
def release_regions (vm : VMPool) (_start_address : Nat) : VMPool :=
  match find_region vm _start_address vm.num_of_region 0 with
  | none => vm
  | some region_number =>
    let ra := forLoop region_number vm.num_of_region
      (fun i ra => set_region ra i (ra (i + 1))) vm.region_array
    { vm with region_array := ra, num_of_region := vm.num_of_region - 1 }

/-- One pool state leads to another by `allocate` calls and by `release`
calls that returned: such a `release` call leaves the pool
`release_regions`. -/
inductive Evolves : VMPool → VMPool → Prop where
  | refl (vm : VMPool) : Evolves vm vm
  | allocate (vm0 vm : VMPool) (_size : Nat) (h : Evolves vm0 vm) :
      Evolves vm0 (vm.allocate _size).2
  | release (vm0 vm : VMPool) (_start_address : Nat) (h : Evolves vm0 vm) :
      Evolves vm0 (vm.release_regions _start_address)

/-- The pool states `allocate` and `release` lead to from a constructed
pool. -/
def Reachable (vm : VMPool) : Prop :=
  ∃ base size pt mem, Evolves (construct base size pt mem) vm

/-- What claim C19 promises of `allocate(s)` on a pool without regions, `r`
being the page-rounded size. -/
def FirstAllocContract (vm : VMPool) (s r : Nat) : Prop :=
  (vm.allocate s).1 = vm.base_address + 4096 ∧
  (vm.allocate s).2.num_of_region = 1 ∧
  (vm.allocate s).2.region_array 0 =
    { start_address := vm.base_address + 4096, size := r }

/-- The region array invariant of claim C20: the regions are in ascending
order without overlap, behind the pool's first page and inside the pool. -/
def RegionInvariant (vm : VMPool) : Prop :=
  (∀ i j, i < j → j < vm.num_of_region →
    (vm.region_array i).start_address + (vm.region_array i).size ≤
      (vm.region_array j).start_address) ∧
  (∀ i, i < vm.num_of_region →
    vm.base_address + 4096 ≤ (vm.region_array i).start_address ∧
    (vm.region_array i).start_address + (vm.region_array i).size ≤
      vm.base_address + vm.size)

/-- Region memory that holds zero records. -/
def zeroRegions : Nat → Region := fun _ => { start_address := 0, size := 0 }

/-- A pool over the top gigabyte of the address space: `base_address + size`
is `2 ^ 32`. -/
def topPool : VMPool := construct 3221225472 1073741824 { page_directory := 0 } zeroRegions

/-- A pool over 256 MB at 512 MB without regions. -/
def emptyPool : VMPool := construct 536870912 268435456 { page_directory := 0 } zeroRegions

/-- The pool `emptyPool` after allocations of one, two, one and one page. -/
def fourRegionPool : VMPool :=
  ((((emptyPool.allocate 4096).2.allocate 8192).2.allocate 4096).2.allocate 4096).2

/-- The pool `fourRegionPool` after the release of its second region. -/
def gapPool : VMPool := fourRegionPool.release_regions 536879104

end VMPool

/-! ## Page table (`MP4_Sources/page_table.C`)

The page directory and the page tables live in physical memory, modelled as a
function from the physical byte address of a 32-bit word to the word.  A
pointer dereference goes through `translate`, the two-level translation of
the hardware (no translation while the paging bit of `cr0` is clear); an
access the hardware cannot translate ends the operation with `page_fault`.
The statics of `PageTable` and the registers `cr0` and `cr3` are the fields of
`System`; the two frame pool pointers are positions in the frame pool
registry, a position behind the registry standing for the null pointer.
Entry `i` of an `unsigned long` array at address `b` is the word at
`b + 4 * i`.
-/

/-- The ways an operation ends other than by returning. -/
inductive Stop where
  | assert_failed
  | page_fault (address : Nat)
  | null_pointer
  deriving DecidableEq, Repr

/-- The statics of `PageTable`, the frame pool registry and the machine state
the page table code reads and writes. -/
structure System where
  mem : Nat → Nat
  cr0 : Nat
  cr3 : Nat
  current_page_table : Option PageTable
  paging_enabled : Nat
  kernel_mem_pool : Nat
  process_mem_pool : Nat
  shared_size : Nat
  frame_pools : List ContFramePool
  vm_pool_head : List VMPool

namespace System

/-- The hardware's two-level address translation (not part of the sources):
with the paging bit (bit 31 of `cr0`) set, the directory entry at index
`la / 2 ^ 22` of the directory at `cr3` and the table entry at index
`la / 2 ^ 12 % 1024` of the table it points to must both have the present
bit (bit 0) set; the physical address is the page frame of the table entry
plus the low 12 bits of `la`. -/
def translate (s : System) (la : Nat) : Except Stop Nat :=
  if s.cr0.testBit 31 = false then Except.ok la
  else
    let pde := s.mem (s.cr3 / 4096 * 4096 + 4 * (la / 4194304))
    if pde % 2 = 0 then Except.error (Stop.page_fault la)
    else
      let pte := s.mem (pde / 4096 * 4096 + 4 * (la / 4096 % 1024))
      if pte % 2 = 0 then Except.error (Stop.page_fault la)
      else Except.ok (pte / 4096 * 4096 + la % 4096)

/-- The system with the word at physical address `pa` set to `v`. -/
def set_word (s : System) (pa v : Nat) : System :=
  { s with mem := fun a => if a = pa then v else s.mem a }

/-- The system `s` runs with paging enabled on the page directory at the
page-aligned physical address `D`, whose last entry maps the directory onto
itself. -/
def SelfMapped (s : System) (D : Nat) : Prop :=
  s.cr0.testBit 31 = true ∧ s.cr3 = D ∧ D % 4096 = 0 ∧ s.mem (D + 4 * 1023) = D ||| 3

/-- Reading the word a pointer `la` points to. -/
def load_word (s : System) (la : Nat) : Except Stop Nat :=
  match s.translate la with
  | Except.ok pa => Except.ok (s.mem pa)
  | Except.error e => Except.error e

/-- Writing `v` to the word a pointer `la` points to. -/
def store_word (s : System) (la v : Nat) : Except Stop System :=
  match s.translate la with
  | Except.ok pa => Except.ok (s.set_word pa v)
  | Except.error e => Except.error e

/-- The call `process_mem_pool->get_frames(n)`: the returned frame number and
the system with the pool updated in the registry. -/
def process_get_frames (s : System) (n : Nat) : Except Stop (Nat × System) :=
  match s.frame_pools.get? s.process_mem_pool with
  | none => Except.error Stop.null_pointer
  | some p =>
    Except.ok ((p.get_frames n).1,
      { s with frame_pools := s.frame_pools.set s.process_mem_pool (p.get_frames n).2 })

/-- Source `PageTable::init_paging`. -/
def init_paging (s : System) (_kernel_mem_pool _process_mem_pool _shared_size : Nat) :
    System :=
  { s with
    kernel_mem_pool := _kernel_mem_pool
    process_mem_pool := _process_mem_pool
    shared_size := _shared_size }

/-- Source constructor `PageTable::PageTable`: the new object and the system
after the call. -/
def construct (s : System) : Except Stop (PageTable × System) :=
  match s.process_get_frames 1 with
  | Except.error e => Except.error e
  | Except.ok (d, s1) =>
    let page_directory := d * PAGE_SIZE
    match s1.process_get_frames 1 with
    | Except.error e => Except.error e
    | Except.ok (t, s2) =>
      let page_table := t * PAGE_SIZE
      let r3 := forLoop 0 1024
        (fun i r =>
          match r with
          | Except.error e => Except.error e
          | Except.ok (st, address) =>
            match store_word st (page_table + 4 * i) (address ||| 3) with
            | Except.error e => Except.error e
            | Except.ok st1 => Except.ok (st1, address + PAGE_SIZE))
        (Except.ok (s2, 0))
      match r3 with
      | Except.error e => Except.error e
      | Except.ok (s3, _) =>
        match store_word s3 (page_directory + 4 * 0) page_table with
        | Except.error e => Except.error e
        | Except.ok s4 =>
          match load_word s4 (page_directory + 4 * 0) with
          | Except.error e => Except.error e
          | Except.ok e0 =>
            match store_word s4 (page_directory + 4 * 0) (e0 ||| 3) with
            | Except.error e => Except.error e
            | Except.ok s5 =>
              let r6 := forLoop 1 1023
                (fun i r =>
                  match r with
                  | Except.error e => Except.error e
                  | Except.ok st => store_word st (page_directory + 4 * i) (0 ||| 2))
                (Except.ok s5)
              match r6 with
              | Except.error e => Except.error e
              | Except.ok s6 =>
                match store_word s6 (page_directory + 4 * 1023) (page_directory ||| 3) with
                | Except.error e => Except.error e
                | Except.ok s7 =>
                  Except.ok ({ page_directory := page_directory },
                    { s7 with paging_enabled := 0 })

/-- Source `PageTable::load`. -/
def load (pt : PageTable) (s : System) : System :=
  { s with current_page_table := some pt, cr3 := pt.page_directory }

/-- Source `PageTable::enable_paging`. -/
def enable_paging (s : System) : System :=
  { s with paging_enabled := 1, cr0 := s.cr0 ||| 2147483648 }

/-- The legitimacy loop of `handle_fault`: the values of `legit` and `curr`
(the rest of the list from the node the loop stopped at) on leaving it. -/
def legit_walk : List VMPool → Nat → Nat × List VMPool
  | [], _ => (0, [])
  | curr :: rest, address =>
    if curr.is_legitimate address = true then (1, curr :: rest)
    else legit_walk rest address

/-- Source `PageTable::handle_fault`; `address` is the value read from
`cr2`. -/
def handle_fault (s : System) (address : Nat) : Except Stop System :=
  let pde_offset := address >>> 22
  let pte_offset := (address >>> 12) &&& 1023
  let logical_page_directory := 4294963200
  let logical_page_table := 4290772992 ||| (pde_offset <<< 12)
  let legit := (legit_walk s.vm_pool_head address).1
  let curr := (legit_walk s.vm_pool_head address).2
  if legit = 0 ∧ curr.isEmpty = false then Except.error Stop.assert_failed
  else
    match s.load_word (logical_page_directory + 4 * pde_offset) with
    | Except.error e => Except.error e
    | Except.ok entry =>
      let present := entry &&& 1
      if present = 0 then
        match s.process_get_frames 1 with
        | Except.error e => Except.error e
        | Except.ok (f, s1) =>
          let new_table := f * PAGE_SIZE
          match s1.store_word (logical_page_directory + 4 * pde_offset) new_table with
          | Except.error e => Except.error e
          | Except.ok s2 =>
            match s2.load_word (logical_page_directory + 4 * pde_offset) with
            | Except.error e => Except.error e
            | Except.ok e2 =>
              match s2.store_word (logical_page_directory + 4 * pde_offset) (e2 ||| 3) with
              | Except.error e => Except.error e
              | Except.ok s3 =>
                forLoop 0 1024
                  (fun i r =>
                    match r with
                    | Except.error e => Except.error e
                    | Except.ok st => store_word st (logical_page_table + 4 * i) (0 ||| 2))
                  (Except.ok s3)
      else
        match s.process_get_frames 1 with
        | Except.error e => Except.error e
        | Except.ok (f, s1) =>
          let new_page := f * PAGE_SIZE
          match s1.store_word (logical_page_table + 4 * pte_offset) new_page with
          | Except.error e => Except.error e
          | Except.ok s2 =>
            match s2.load_word (logical_page_table + 4 * pte_offset) with
            | Except.error e => Except.error e
            | Except.ok e2 => s2.store_word (logical_page_table + 4 * pte_offset) (e2 ||| 3)

/-- Source `PageTable::register_pool`: the pool is appended to the list that
starts at `vm_pool_head`. -/
def register_pool (s : System) (_vm_pool : VMPool) : System :=
  { s with vm_pool_head := s.vm_pool_head ++ [_vm_pool] }

/-- Source `PageTable::free_page`, called on the page table `pt`. -/
def free_page (pt : PageTable) (s : System) (_page_no : Nat) : Except Stop System :=
  let pde_offset := _page_no >>> 22
  let pte_offset := (_page_no >>> 12) &&& 1023
  let page_table := 4290772992 ||| (pde_offset <<< 12)
  match s.load_word (page_table + 4 * pte_offset) with
  | Except.error e => Except.error e
  | Except.ok entry =>
    if entry &&& 1 = 1 then
      match ContFramePool.release_frames s.frame_pools (entry / PAGE_SIZE) with
      | none => Except.error Stop.null_pointer
      | some pools =>
        match store_word { s with frame_pools := pools } (page_table + 4 * pte_offset) 2 with
        | Except.error e => Except.error e
        | Except.ok s2 => Except.ok (load pt s2)
    else Except.ok s

end System

namespace System

/-- System `t` differs from `s` at most in memory and in the frame pools. -/
structure SameControl (s t : System) : Prop where
  cr0 : t.cr0 = s.cr0
  cr3 : t.cr3 = s.cr3
  current : t.current_page_table = s.current_page_table
  enabled : t.paging_enabled = s.paging_enabled
  kernel : t.kernel_mem_pool = s.kernel_mem_pool
  process : t.process_mem_pool = s.process_mem_pool
  shared : t.shared_size = s.shared_size
  vm : t.vm_pool_head = s.vm_pool_head

end System

namespace System

/-- What claim C13 promises of `handle_fault(a)` when the directory entry of
`a` in the directory at `D` is not present: one frame `f` is taken from the
process pool, the directory entry becomes `f * 4096 | 3`, the 1024 entries of
the new table become 2 and every other directory entry is unchanged. -/
def NewTableContract (s : System) (D a : Nat) : Prop :=
  ∃ pool t, s.frame_pools.get? s.process_mem_pool = some pool ∧
    s.handle_fault a = Except.ok t ∧
    (∃ k, pool.find_run 1 = some k ∧ (pool.get_frames 1).1 = pool.base_frame_no + k) ∧
    (pool.get_frames 1).2.nFreeFrames + 1 = pool.nFreeFrames ∧
    t.frame_pools = s.frame_pools.set s.process_mem_pool (pool.get_frames 1).2 ∧
    t.mem (D + 4 * (a >>> 22)) = ((pool.get_frames 1).1 * 4096) ||| 3 ∧
    (∀ i, i < 1024 → t.mem ((pool.get_frames 1).1 * 4096 + 4 * i) = 2) ∧
    (∀ j, j < 1024 → j ≠ a >>> 22 → t.mem (D + 4 * j) = s.mem (D + 4 * j))

/-- What claim C14 promises of `handle_fault(a)` when the directory entry of
`a` is present: one frame `f` is taken from the process pool, the table entry
of `a` becomes `f * 4096 | 3`, and no other word of any table and no directory
entry changes. -/
def NewPageContract (s : System) (D a : Nat) : Prop :=
  ∃ pool t, s.frame_pools.get? s.process_mem_pool = some pool ∧
    s.handle_fault a = Except.ok t ∧
    (∃ k, pool.find_run 1 = some k ∧ (pool.get_frames 1).1 = pool.base_frame_no + k) ∧
    (pool.get_frames 1).2.nFreeFrames + 1 = pool.nFreeFrames ∧
    t.frame_pools = s.frame_pools.set s.process_mem_pool (pool.get_frames 1).2 ∧
    t.mem (s.mem (D + 4 * (a >>> 22)) / 4096 * 4096 + 4 * ((a >>> 12) &&& 1023)) =
      ((pool.get_frames 1).1 * 4096) ||| 3 ∧
    (∀ x, x ≠ s.mem (D + 4 * (a >>> 22)) / 4096 * 4096 + 4 * ((a >>> 12) &&& 1023) →
      t.mem x = s.mem x) ∧
    (∀ j, j < 1024 → t.mem (D + 4 * j) = s.mem (D + 4 * j))

/-- What claim C16 promises of `free_page(a)` on the page table `pt`: with the
table entry of `a` present, its frame is released, the entry becomes 2 and
`pt` is loaded; otherwise nothing changes. -/
def FreePageContract (pt : PageTable) (s : System) (D a : Nat) : Prop :=
  ((s.mem (D + 4 * (a >>> 22)) % 2 = 1 ∧
      s.mem (s.mem (D + 4 * (a >>> 22)) / 4096 * 4096 + 4 * ((a >>> 12) &&& 1023)) % 2 = 1) →
    ∃ pools, ContFramePool.release_frames s.frame_pools
        (s.mem (s.mem (D + 4 * (a >>> 22)) / 4096 * 4096 + 4 * ((a >>> 12) &&& 1023)) / 4096)
        = some pools ∧
      s.free_page pt a = Except.ok (load pt
        (({ s with frame_pools := pools } : System).set_word
          (s.mem (D + 4 * (a >>> 22)) / 4096 * 4096 + 4 * ((a >>> 12) &&& 1023)) 2))) ∧
  (¬ (s.mem (D + 4 * (a >>> 22)) % 2 = 1 ∧
      s.mem (s.mem (D + 4 * (a >>> 22)) / 4096 * 4096 + 4 * ((a >>> 12) &&& 1023)) % 2 = 1) →
    s.free_page pt a = Except.ok s)

/-- One `PageTable` operation other than the constructor, run to its
return. -/
inductive Step : System → System → Prop where
  | load (pt : PageTable) (s : System) : Step s (load pt s)
  | enable_paging (s : System) : Step s (enable_paging s)
  | handle_fault (s t : System) (a : Nat) (h : s.handle_fault a = Except.ok t) : Step s t
  | register_pool (s : System) (vm : VMPool) : Step s (register_pool s vm)
  | free_page (pt : PageTable) (s t : System) (a : Nat)
      (h : s.free_page pt a = Except.ok t) : Step s t

/-- Any number of `PageTable` operations other than the constructor. -/
inductive Steps : System → System → Prop where
  | refl (s : System) : Steps s s
  | tail (s t u : System) (h1 : Steps s t) (h2 : Step t u) : Steps s u

/-- Memory with a page directory in frame 1 and a page table in frame 2:
directory entry 0 points to the table, directory entry 1023 to the directory
itself, and the table maps pages 3, 8 and 9 to the frames 3, 8 and 9. -/
def bootMem : Nat → Nat := fun a =>
  if a = 4096 then 8195
  else if a = 8188 then 4099
  else if a = 8204 then 12291
  else if a = 8224 then 32771
  else if a = 8228 then 36867
  else 0

/-- A system on `bootMem` before paging is enabled, with `pool` as the only
frame pool and the process pool, and `vms` as the registered pools. -/
def preBoot (pool : ContFramePool) (vms : List VMPool) : System :=
  { mem := bootMem
    cr0 := 0
    cr3 := 4096
    current_page_table := some { page_directory := 4096 }
    paging_enabled := 0
    kernel_mem_pool := 1
    process_mem_pool := 0
    shared_size := 4194304
    frame_pools := [pool]
    vm_pool_head := vms }

/-- The system `preBoot pool vms` after `enable_paging`. -/
def bootWith (pool : ContFramePool) (vms : List VMPool) : System :=
  enable_paging (preBoot pool vms)

/-- A two-frame pool at base frame 8, both frames free. -/
def twoFramePool : ContFramePool := ContFramePool.construct 8 2 1 ContFramePool.zeroMem

/-- A virtual-memory pool that reports every address below `2 ^ 32 - 1`
legitimate. -/
def wholePool : VMPool :=
  VMPool.construct 0 4294967295 { page_directory := 4096 } VMPool.zeroRegions

end System

namespace VMPool

/-- What claim C22 promises of `allocate(s)` on a pool whose region 0 starts
far enough behind the reserved first page, `r` being the page-rounded size:
the new region goes into that gap and `base_address + 4096` is returned. -/
def FirstGapContract (vm : VMPool) (s r : Nat) : Prop :=
  (vm.allocate s).1 = vm.base_address + 4096 ∧
  (vm.allocate s).2.region_array 0 =
    { start_address := vm.base_address + 4096, size := r }

/-- The pool `emptyPool` after two allocations of one page and the release of
the first: its only region starts two pages behind `base_address`. -/
def lowGapPool : VMPool :=
  ((emptyPool.allocate 4096).2.allocate 4096).2.release_regions 536875008

/-- The end-to-end run of claim C23 on a pool of three pages at `base`: two
allocations of one page succeed, the third returns 0 and changes nothing. -/
def ThreePageScenario (base : Nat) (pt : PageTable) (mem : Nat → Region) : Prop :=
  ((construct base 12288 pt mem).allocate 4096).1 = base + 4096 ∧
  (((construct base 12288 pt mem).allocate 4096).2.allocate 4096).1 = base + 8192 ∧
  ((((construct base 12288 pt mem).allocate 4096).2.allocate 4096).2.allocate 4096) =
    (0, (((construct base 12288 pt mem).allocate 4096).2.allocate 4096).2)

end VMPool

namespace System

/-- The local `pde_offset` of `handle_fault` and `free_page`. -/
def pde_offset (address : Nat) : Nat := address >>> 22

/-- The local `pte_offset` of `handle_fault` and `free_page`. -/
def pte_offset (address : Nat) : Nat := (address >>> 12) &&& 1023

/-- The pointer `logical_page_directory` of `handle_fault`: `0xFFFFF000`. -/
def logical_page_directory : Nat := 4294963200

/-- The pointer `logical_page_table` of `handle_fault` (`page_table` in
`free_page`) for the directory slot `pde_offset`. -/
def logical_page_table (pde_offset : Nat) : Nat := 4290772992 ||| (pde_offset <<< 12)

end System

namespace VMPool

/-- The `free_page` loop of `release` (source lines 110 to 112) over the pages
of region `region_number`, from index `i` with `fuel` indices left.  A call
of `free_page` that does not return ends the loop. -/
def free_region_pages (vm : VMPool) (region_number : Nat) :
    Nat → Nat → System → Except Stop System
  | 0, _, s => Except.ok s
  | fuel + 1, i, s =>
    match s.free_page vm.page_table
        (add32 (vm.region_array region_number).start_address (mul32 i PAGE_SIZE)) with
    | Except.error e => Except.error e
    | Except.ok s1 => free_region_pages vm region_number fuel (i + 1) s1

/-- Source `VMPool::release`: the system and the pool after the call.  The
search loop, the `free_page` loop over the pages of the region found, then
the left shift of the regions behind it and the decrement of the count. -/
def release (vm : VMPool) (s : System) (_start_address : Nat) :
    Except Stop (System × VMPool) :=
  match find_region vm _start_address vm.num_of_region 0 with
  | none => Except.ok (s, vm)
  | some region_number =>
    match free_region_pages vm region_number
        ((vm.region_array region_number).size / PAGE_SIZE) 0 s with
    | Except.error e => Except.error e
    | Except.ok s1 =>
      let ra := forLoop region_number vm.num_of_region
        (fun i ra => set_region ra i (ra (i + 1))) vm.region_array
      Except.ok (s1, { vm with region_array := ra, num_of_region := vm.num_of_region - 1 })

/-- The words of claim C24 on the calls: `PageTable::free_page` is called once
for each address of the list, in the order of the list.  A call that does not
return ends the run. -/
def free_page_calls (pt : PageTable) : List Nat → System → Except Stop System
  | [], s => Except.ok s
  | a :: rest, s =>
    match s.free_page pt a with
    | Except.error e => Except.error e
    | Except.ok s1 => free_page_calls pt rest s1

end VMPool

namespace System

/-- A system with paging off whose memory holds zero everywhere. -/
def idleSystem : System :=
  { mem := fun _ => 0
    cr0 := 0
    cr3 := 0
    current_page_table := none
    paging_enabled := 0
    kernel_mem_pool := 0
    process_mem_pool := 0
    shared_size := 0
    frame_pools := []
    vm_pool_head := [] }

end System

/-! # Theorems -/

theorem or_mod_byte (b m : Nat) : (b ||| m) % 256 = ((b % 256) ||| m) % 256 := by
  apply Nat.eq_of_testBit_eq
  intro i
  have h : (256 : Nat) = 2 ^ 8 := by norm_num
  rw [h]
  simp only [Nat.testBit_mod_two_pow, Nat.testBit_or]
  by_cases hi : i < 8 <;> simp [hi]

theorem shift_and_byte (b j : Nat) (hj : j < 4) :
    (b >>> (j * 2)) % 256 &&& 3 = ((b % 256) >>> (j * 2)) % 256 &&& 3 := by
  apply Nat.eq_of_testBit_eq
  intro i
  have h : (256 : Nat) = 2 ^ 8 := by norm_num
  have h3 : (3 : Nat) = 2 ^ 2 - 1 := by norm_num
  rw [h, h3]
  simp only [Nat.testBit_mod_two_pow, Nat.testBit_and, Nat.testBit_shiftRight,
    Nat.testBit_two_pow_sub_one]
  by_cases hi : i < 2
  · have h1 : i < 8 := by omega
    have h2 : j * 2 + i < 8 := by omega
    simp [hi, h1, h2]
  · simp [hi]

theorem fieldOf_mod (b j : Nat) (hj : j < 4) : fieldOf b j = fieldOf (b % 256) j := by
  unfold fieldOf
  simp only [shift_and_byte b j hj]

theorem withField_mod (b j : Nat) (s : FrameState) :
    withField b j s = withField (b % 256) j s := by
  unfold withField
  simp only [or_mod_byte b]

set_option maxRecDepth 1000000 in
theorem byte_field_same : ∀ r < 256, ∀ j < 4,
    fieldOf (withField r j FrameState.Free) j = FrameState.Free ∧
    fieldOf (withField r j FrameState.Used) j = FrameState.Used ∧
    fieldOf (withField r j FrameState.HoS) j = FrameState.HoS := by
  decide

set_option maxRecDepth 1000000 in
theorem byte_field_other : ∀ r < 256, ∀ j < 4, ∀ k < 4, k ≠ j →
    fieldOf (withField r j FrameState.Free) k = fieldOf r k ∧
    fieldOf (withField r j FrameState.Used) k = fieldOf r k ∧
    fieldOf (withField r j FrameState.HoS) k = fieldOf r k := by
  decide

namespace ContFramePool

theorem get_state_eq (p : ContFramePool) (f : Nat) :
    p.get_state f = fieldOf (p.bitmap (f / 4)) (f % 4) := rfl

theorem set_state_bitmap (p : ContFramePool) (f : Nat) (s : FrameState) :
    (p.set_state f s).bitmap =
      fun i => if i = f / 4 then withField (p.bitmap (f / 4)) (f % 4) s else p.bitmap i := by
  cases s <;> rfl

@[simp] theorem set_state_base (p : ContFramePool) (f : Nat) (s : FrameState) :
    (p.set_state f s).base_frame_no = p.base_frame_no := rfl

@[simp] theorem set_state_nframes (p : ContFramePool) (f : Nat) (s : FrameState) :
    (p.set_state f s).nframes = p.nframes := rfl

@[simp] theorem set_state_nFree (p : ContFramePool) (f : Nat) (s : FrameState) :
    (p.set_state f s).nFreeFrames = p.nFreeFrames := rfl

@[simp] theorem set_state_info (p : ContFramePool) (f : Nat) (s : FrameState) :
    (p.set_state f s).info_frame_no = p.info_frame_no := rfl

/-- Reading back the frame just written gives the written state. -/
theorem get_set_same (p : ContFramePool) (f : Nat) (s : FrameState) :
    (p.set_state f s).get_state f = s := by
  have hj : f % 4 < 4 := Nat.mod_lt _ (by norm_num)
  have hr : p.bitmap (f / 4) % 256 < 256 := Nat.mod_lt _ (by norm_num)
  rw [get_state_eq, set_state_bitmap]
  simp only [if_true]
  rw [withField_mod]
  obtain ⟨h1, h2, h3⟩ := byte_field_same _ hr _ hj
  cases s
  · exact h1
  · exact h2
  · exact h3

/-- Writing one frame leaves the state of every other frame as it was. -/
theorem get_set_other (p : ContFramePool) (f g : Nat) (s : FrameState) (h : g ≠ f) :
    (p.set_state f s).get_state g = p.get_state g := by
  have hj : f % 4 < 4 := Nat.mod_lt _ (by norm_num)
  have hk : g % 4 < 4 := Nat.mod_lt _ (by norm_num)
  have hr : p.bitmap (f / 4) % 256 < 256 := Nat.mod_lt _ (by norm_num)
  rw [get_state_eq, get_state_eq, set_state_bitmap]
  by_cases hq : g / 4 = f / 4
  · have hne : g % 4 ≠ f % 4 := by omega
    simp only [hq, if_true]
    rw [withField_mod, fieldOf_mod (p.bitmap (f / 4)) _ hk]
    obtain ⟨h1, h2, h3⟩ := byte_field_other _ hr _ hj _ hk hne
    cases s
    · exact h1
    · exact h2
    · exact h3
  · simp only [hq, if_false]

theorem get_set (p : ContFramePool) (f g : Nat) (s : FrameState) :
    (p.set_state f s).get_state g = if g = f then s else p.get_state g := by
  by_cases h : g = f
  · subst h
    simp [get_set_same]
  · simp [h, get_set_other p f g s h]

@[simp] theorem get_state_nFree (p : ContFramePool) (c g : Nat) :
    ({ p with nFreeFrames := c } : ContFramePool).get_state g = p.get_state g := rfl

end ContFramePool

/-! ## Counting loops -/

theorem forLoopAux_inv {σ : Type} (body : Nat → σ → σ) (P : Nat → σ → Prop) :
    ∀ (fuel i : Nat) (s : σ), P i s →
      (∀ j t, i ≤ j → j < i + fuel → P j t → P (j + 1) (body j t)) →
      P (i + fuel) (forLoopAux body fuel i s) := by
  intro fuel
  induction fuel with
  | zero =>
    intro i s h0 _
    simpa [forLoopAux] using h0
  | succ m ih =>
    intro i s h0 hstep
    have h1 : P (i + 1) (body i s) := hstep i s (le_refl i) (by omega) h0
    have h2 := ih (i + 1) (body i s) h1
      (fun j t hj1 hj2 hP => hstep j t (by omega) (by omega) hP)
    have e : i + (m + 1) = i + 1 + m := by omega
    rw [e]
    simpa [forLoopAux] using h2

theorem forLoop_inv {σ : Type} (lo hi : Nat) (body : Nat → σ → σ) (P : Nat → σ → Prop)
    (s : σ) (hle : lo ≤ hi) (h0 : P lo s)
    (hstep : ∀ j t, lo ≤ j → j < hi → P j t → P (j + 1) (body j t)) :
    P hi (forLoop lo hi body s) := by
  have h := forLoopAux_inv body P (hi - lo) lo s h0
    (fun j t hj1 hj2 hP => hstep j t hj1 (by omega) hP)
  have e : lo + (hi - lo) = hi := by omega
  rw [e] at h
  exact h

theorem forLoop_empty {σ : Type} (lo hi : Nat) (body : Nat → σ → σ) (s : σ) (h : hi ≤ lo) :
    forLoop lo hi body s = s := by
  unfold forLoop
  have e : hi - lo = 0 := by omega
  rw [e]
  rfl

namespace ContFramePool

/-- The loop `for (i = lo; i < hi; i++) set_state(i, st)`. -/
theorem set_loop_spec (p : ContFramePool) (lo hi : Nat) (st : FrameState) (hle : lo ≤ hi) :
    RangeSet p (forLoop lo hi (fun i q => q.set_state i st) p) lo hi st p.nFreeFrames := by
  refine forLoop_inv lo hi _ (fun j q => RangeSet p q lo j st p.nFreeFrames) p hle ?_ ?_
  · exact ⟨rfl, rfl, rfl, rfl, fun g h1 h2 => by omega, fun g _ => rfl⟩
  · intro j t hj1 hj2 h
    refine ⟨by simp [h.base], by simp [h.nframes], by simp [h.info], by simp [h.nFree], ?_, ?_⟩
    · intro g hg1 hg2
      rw [get_set]
      by_cases e : g = j
      · simp [e]
      · simp only [e, if_false]
        exact h.inside g hg1 (by omega)
    · intro g hg
      rw [get_set]
      have e : g ≠ j := by omega
      simp only [e, if_false]
      exact h.outside g (by omega)

/-- The loop `for (i = lo; i < hi; i++) { set_state(o + i, Used); nFreeFrames--; }`
when the counter does not run below zero. -/
theorem used_loop_spec (p : ContFramePool) (idx : ContFramePool → Nat → Nat) (o lo hi : Nat)
    (hidx : ∀ (q : ContFramePool) (i : Nat), q.base_frame_no = p.base_frame_no →
      lo ≤ i → i < hi → idx q i = o + i)
    (hle : lo ≤ hi) (hc : hi - lo ≤ p.nFreeFrames) :
    RangeSet p
      (forLoop lo hi
        (fun i q =>
          let q1 := q.set_state (idx q i) FrameState.Used
          { q1 with nFreeFrames := dec32 q1.nFreeFrames }) p)
      (o + lo) (o + hi) FrameState.Used (p.nFreeFrames - (hi - lo)) := by
  refine forLoop_inv lo hi _
    (fun j q => RangeSet p q (o + lo) (o + j) FrameState.Used (p.nFreeFrames - (j - lo)))
    p hle ?_ ?_
  · exact ⟨rfl, rfl, rfl, by simp, fun g h1 h2 => by omega, fun g _ => rfl⟩
  · intro j t hj1 hj2 h
    have ho : idx t j = o + j := hidx t j h.base hj1 hj2
    refine ⟨by simp [h.base], by simp [h.nframes], by simp [h.info], ?_, ?_, ?_⟩
    · simp only [set_state_nFree, h.nFree, dec32]
      have : p.nFreeFrames - (j - lo) ≠ 0 := by omega
      simp only [this, if_false]
      omega
    · intro g hg1 hg2
      simp only [get_state_nFree, ho]
      rw [get_set]
      by_cases e : g = o + j
      · simp [e]
      · simp only [e, if_false]
        exact h.inside g hg1 (by omega)
    · intro g hg
      simp only [get_state_nFree, ho]
      rw [get_set]
      have e : g ≠ o + j := by omega
      simp only [e, if_false]
      exact h.outside g (by omega)

theorem needed_info_frames_le (n : Nat) : needed_info_frames n ≤ n := by
  unfold needed_info_frames
  split <;> omega

theorem needed_info_frames_pos (n : Nat) (hn : 1 ≤ n) : 1 ≤ needed_info_frames n := by
  unfold needed_info_frames
  split <;> omega

/-- The constructor with an external info frame: every frame is set `Free`. -/
theorem construct_external (base n info : Nat) (mem : Nat → Nat) (hi : info ≠ 0) :
    RangeSet ⟨base, n, n, info, mem⟩ (construct base n info mem) 0 n FrameState.Free n := by
  unfold construct
  simp only [hi, if_false]
  exact set_loop_spec ⟨base, n, n, info, mem⟩ 0 n FrameState.Free (Nat.zero_le n)

/-- The constructor keeping its info in the pool's own first frames. -/
theorem construct_self (base n : Nat) (mem : Nat → Nat) (hn : 1 ≤ n) :
    (construct base n 0 mem).base_frame_no = base ∧
    (construct base n 0 mem).nframes = n ∧
    (construct base n 0 mem).info_frame_no = 0 ∧
    (construct base n 0 mem).nFreeFrames = n - needed_info_frames n ∧
    (construct base n 0 mem).get_state 0 = FrameState.HoS ∧
    (∀ i, 1 ≤ i → i < needed_info_frames n →
      (construct base n 0 mem).get_state i = FrameState.Used) ∧
    (∀ i, needed_info_frames n ≤ i → i < n →
      (construct base n 0 mem).get_state i = FrameState.Free) ∧
    (∀ i, n ≤ i → (construct base n 0 mem).get_state i = fieldOf (mem (i / 4)) (i % 4)) := by
  have hk1 := needed_info_frames_pos n hn
  have hk2 := needed_info_frames_le n
  have h1 := set_loop_spec ⟨base, n, n, 0, mem⟩ 0 n FrameState.Free (Nat.zero_le n)
  generalize hp1 : forLoop 0 n (fun fno q => q.set_state fno FrameState.Free)
    (⟨base, n, n, 0, mem⟩ : ContFramePool) = p1 at h1
  have h3 := used_loop_spec
    ({ p1.set_state 0 FrameState.HoS with
        nFreeFrames := dec32 (p1.set_state 0 FrameState.HoS).nFreeFrames })
    (fun _ fno => fno) 0 1 (needed_info_frames n) (fun _ i _ _ _ => by simp) hk1
    (by
      simp only [set_state_nFree, h1.nFree, dec32]
      have : n ≠ 0 := by omega
      simp only [this, if_false]
      omega)
  have hc : construct base n 0 mem =
      forLoop 1 (needed_info_frames n)
        (fun fno q =>
          let q1 := q.set_state fno FrameState.Used
          { q1 with nFreeFrames := dec32 q1.nFreeFrames })
        ({ p1.set_state 0 FrameState.HoS with
            nFreeFrames := dec32 (p1.set_state 0 FrameState.HoS).nFreeFrames }) := by
    unfold construct
    simp only [if_true, hp1]
  rw [hc]
  generalize forLoop 1 (needed_info_frames n)
        (fun fno q =>
          let q1 := q.set_state fno FrameState.Used
          { q1 with nFreeFrames := dec32 q1.nFreeFrames })
        ({ p1.set_state 0 FrameState.HoS with
            nFreeFrames := dec32 (p1.set_state 0 FrameState.HoS).nFreeFrames }) = r at h3
  have hb := h3.base
  have hnf := h3.nframes
  have hin := h3.info
  have hfr := h3.nFree
  simp only [set_state_base, set_state_nframes, set_state_info, set_state_nFree, h1.base,
    h1.nframes, h1.info, h1.nFree] at hb hnf hin hfr
  have hd : dec32 n = n - 1 := by
    unfold dec32
    have : n ≠ 0 := by omega
    simp [this]
  refine ⟨hb, hnf, hin, ?_, ?_, ?_, ?_, ?_⟩
  · rw [hfr, hd]
    omega
  · rw [h3.outside 0 (by omega)]
    exact get_set_same p1 0 FrameState.HoS
  · intro i hi1 hi2
    exact h3.inside i (by omega) (by omega)
  · intro i hi1 hi2
    rw [h3.outside i (by omega)]
    refine Eq.trans (get_set_other p1 0 i FrameState.HoS (by omega)) ?_
    exact h1.inside i (Nat.zero_le i) hi2
  · intro i hi1
    rw [h3.outside i (by omega)]
    refine Eq.trans (get_set_other p1 0 i FrameState.HoS (by omega)) ?_
    rw [h1.outside i (by omega)]
    rfl

/-! ## The first-fit search -/

theorem scan_zero (p : ContFramePool) :
    ∀ fuel i fn c, scan p 0 fuel i fn c = none := by
  intro fuel
  induction fuel with
  | zero => intro i fn c; rfl
  | succ m ih =>
    intro i fn c
    unfold scan
    by_cases h : p.get_state i = FrameState.Free
    · simp only [h, if_true]
      have : c + 1 ≠ 0 := by omega
      simp only [this, if_false]
      exact ih _ _ _
    · simp only [h, if_false]
      exact ih _ _ _

/-- The loop invariant of the search: `fn .. i - 1` are `Free`, `c` counts
them, and no run of `n` free frames starts below `fn`. -/
theorem scan_spec (p : ContFramePool) (n : Nat) :
    ∀ fuel i fn c, i + fuel = p.nframes → fn + c = i → c < n →
      (∀ g, fn ≤ g → g < i → p.get_state g = FrameState.Free) →
      (∀ k, k < fn → ¬ RunFree p k n) →
      match scan p n fuel i fn c with
      | some k => k + n ≤ p.nframes ∧ RunFree p k n ∧ ∀ k', k' < k → ¬ RunFree p k' n
      | none => ∀ k, k + n ≤ p.nframes → ¬ RunFree p k n := by
  intro fuel
  induction fuel with
  | zero =>
    intro i fn c hfuel hc hlt _ hbad
    show ∀ k, k + n ≤ p.nframes → ¬ RunFree p k n
    intro k hk
    by_cases h : k < fn
    · exact hbad k h
    · omega
  | succ m ih =>
    intro i fn c hfuel hc hlt hfree hbad
    unfold scan
    by_cases h : p.get_state i = FrameState.Free
    · simp only [h, if_true]
      by_cases hn : c + 1 = n
      · simp only [hn, if_true]
        refine ⟨by omega, ?_, hbad⟩
        intro j hj
        by_cases e : fn + j = i
        · rw [e]; exact h
        · exact hfree (fn + j) (by omega) (by omega)
      · simp only [hn, if_false]
        apply ih (i + 1) fn (c + 1) (by omega) (by omega) (by omega) _ hbad
        intro g hg1 hg2
        by_cases e : g = i
        · rw [e]; exact h
        · exact hfree g hg1 (by omega)
    · simp only [h, if_false]
      apply ih (i + 1) (i + 1) 0 (by omega) (by omega) (by omega)
      · intro g hg1 hg2
        omega
      · intro k hk hrun
        by_cases hk2 : k < fn
        · exact hbad k hk2 hrun
        · have := hrun (i - k) (by omega)
          have e : k + (i - k) = i := by omega
          rw [e] at this
          exact h this

theorem find_run_some (p : ContFramePool) (n k : Nat) (h : p.find_run n = some k) :
    1 ≤ n ∧ k + n ≤ p.nframes ∧ RunFree p k n ∧ ∀ k', k' < k → ¬ RunFree p k' n := by
  by_cases hn : n = 0
  · subst hn
    unfold find_run at h
    rw [scan_zero] at h
    cases h
  · have hs := scan_spec p n p.nframes 0 0 0 (by omega) (by omega) (by omega)
      (fun g _ hg => by omega) (fun k hk => by omega)
    unfold find_run at h
    rw [h] at hs
    exact ⟨by omega, hs⟩

theorem find_run_none (p : ContFramePool) (n : Nat) (hn : 1 ≤ n) (h : p.find_run n = none) :
    ∀ k, k + n ≤ p.nframes → ¬ RunFree p k n := by
  have hs := scan_spec p n p.nframes 0 0 0 (by omega) (by omega) (by omega)
    (fun g _ hg => by omega) (fun k hk => by omega)
  unfold find_run at h
  rw [h] at hs
  exact hs

/-- The search finds the least start of a run of `n` free frames, if any. -/
theorem find_run_least (p : ContFramePool) (n k : Nat) (hn : 1 ≤ n) (hk : k + n ≤ p.nframes)
    (hrun : RunFree p k n) (hmin : ∀ k', k' < k → ¬ RunFree p k' n) :
    p.find_run n = some k := by
  cases hf : p.find_run n with
  | none => exact absurd hrun (find_run_none p n hn hf k hk)
  | some k2 =>
    obtain ⟨_, _, hrun2, hmin2⟩ := find_run_some p n k2 hf
    have h1 : ¬ k2 < k := fun hlt => hmin k2 hlt hrun2
    have h2 : ¬ k < k2 := fun hlt => hmin2 k hlt hrun
    have : k2 = k := by omega
    rw [this]

theorem find_run_exists (p : ContFramePool) (n k : Nat) (hn : 1 ≤ n) (hk : k + n ≤ p.nframes)
    (hrun : RunFree p k n) : ∃ k2, p.find_run n = some k2 := by
  cases hf : p.find_run n with
  | none => exact absurd hrun (find_run_none p n hn hf k hk)
  | some k2 => exact ⟨k2, rfl⟩

/-! ## `get_frames` -/

theorem get_frames_short (p : ContFramePool) (n : Nat) (h : p.nFreeFrames < n) :
    p.get_frames n = (0, p) := by
  unfold get_frames
  simp only [h, if_true]

theorem get_frames_not_found (p : ContFramePool) (n : Nat) (h : p.find_run n = none) :
    p.get_frames n = (0, p) := by
  unfold get_frames
  split
  · rfl
  · simp only [h]

/-- A successful `get_frames`: the returned number and the marking. -/
theorem get_frames_found (p : ContFramePool) (n k : Nat) (hfree : n ≤ p.nFreeFrames)
    (hs : p.find_run n = some k) :
    (p.get_frames n).1 = k + p.base_frame_no ∧
    (p.get_frames n).2.get_state k = FrameState.HoS ∧
    RangeSet (p.set_state k FrameState.HoS) (p.get_frames n).2 (k + 1) (k + n)
      FrameState.Used (p.nFreeFrames - n) := by
  have hn := (find_run_some p n k hs).1
  have hl := set_loop_spec (p.set_state k FrameState.HoS) (k + 1) (k + n) FrameState.Used
    (by omega)
  have e : p.get_frames n =
      (k + p.base_frame_no,
        { forLoop (k + 1) (k + n) (fun i q => q.set_state i FrameState.Used)
            (p.set_state k FrameState.HoS) with
          nFreeFrames := (forLoop (k + 1) (k + n) (fun i q => q.set_state i FrameState.Used)
            (p.set_state k FrameState.HoS)).nFreeFrames - n }) := by
    unfold get_frames
    have : ¬ p.nFreeFrames < n := by omega
    simp only [this, if_false, hs]
  rw [e]
  generalize forLoop (k + 1) (k + n) (fun i q => q.set_state i FrameState.Used)
    (p.set_state k FrameState.HoS) = r at hl
  refine ⟨rfl, ?_, ⟨hl.base, hl.nframes, hl.info, ?_, hl.inside, hl.outside⟩⟩
  · show r.get_state k = FrameState.HoS
    rw [hl.outside k (by omega)]
    exact get_set_same p k FrameState.HoS
  · show r.nFreeFrames - n = p.nFreeFrames - n
    rw [hl.nFree]
    rfl

/-- Either `get_frames` leaves the pool as it was, or it marked a run. -/
theorem get_frames_cases (p : ContFramePool) (n : Nat) :
    p.get_frames n = (0, p) ∨
    ∃ k, 1 ≤ n ∧ n ≤ p.nFreeFrames ∧ p.find_run n = some k ∧ k + n ≤ p.nframes ∧
      RunFree p k n ∧
      (p.get_frames n).2.base_frame_no = p.base_frame_no ∧
      (p.get_frames n).2.nframes = p.nframes ∧
      (p.get_frames n).2.nFreeFrames = p.nFreeFrames - n ∧
      (p.get_frames n).2.get_state k = FrameState.HoS ∧
      (∀ g, k < g → g < k + n → (p.get_frames n).2.get_state g = FrameState.Used) ∧
      (∀ g, (g < k ∨ k + n ≤ g) → (p.get_frames n).2.get_state g = p.get_state g) := by
  by_cases h : p.nFreeFrames < n
  · exact Or.inl (get_frames_short p n h)
  · cases hf : p.find_run n with
    | none => exact Or.inl (get_frames_not_found p n hf)
    | some k =>
      right
      obtain ⟨hn, hk, hrun, _⟩ := find_run_some p n k hf
      obtain ⟨_, hhead, hr⟩ := get_frames_found p n k (by omega) hf
      refine ⟨k, hn, by omega, rfl, hk, hrun, hr.base, hr.nframes, hr.nFree, hhead,
        fun g h1 h2 => hr.inside g (by omega) h2, ?_⟩
      intro g hg
      by_cases e : g = k
      · omega
      · rw [hr.outside g (by omega)]
        exact get_set_other p k g FrameState.HoS e

/-! ## `release_frames` -/

/-- The forward walk frees the `Used` frames from `index` up to some `e`,
where it meets its bound or a frame that is not `Used`. -/
theorem release_walk_spec :
    ∀ (fuel index : Nat) (q : ContFramePool),
      q.base_frame_no + q.nframes - index ≤ fuel →
      ∃ e, index ≤ e ∧
        (∀ g, index ≤ g → g < e →
          q.get_state g = FrameState.Used ∧ g < q.base_frame_no + q.nframes) ∧
        ¬ (e < q.base_frame_no + q.nframes ∧ q.get_state e = FrameState.Used) ∧
        RangeSet q (release_walk fuel index q) index e FrameState.Free
          (q.nFreeFrames + (e - index)) := by
  intro fuel
  induction fuel with
  | zero =>
    intro index q hf
    refine ⟨index, le_refl _, fun g h1 h2 => by omega, fun h => by omega, ?_⟩
    exact ⟨rfl, rfl, rfl, by simp [release_walk], fun g h1 h2 => by omega, fun g _ => rfl⟩
  | succ m ih =>
    intro index q hf
    by_cases hc : index < q.base_frame_no + q.nframes ∧ q.get_state index = FrameState.Used
    · have e1 : release_walk (m + 1) index q =
          release_walk m (index + 1)
            { q.set_state index FrameState.Free with
              nFreeFrames := (q.set_state index FrameState.Free).nFreeFrames + 1 } := by
        rw [release_walk]
        simp only [hc, and_self, if_true]
      rw [e1]
      obtain ⟨e, he1, he2, he3, he4⟩ := ih (index + 1)
        { q.set_state index FrameState.Free with
          nFreeFrames := (q.set_state index FrameState.Free).nFreeFrames + 1 }
        (by show q.base_frame_no + q.nframes - (index + 1) ≤ m; omega)
      generalize release_walk m (index + 1)
        { q.set_state index FrameState.Free with
          nFreeFrames := (q.set_state index FrameState.Free).nFreeFrames + 1 } = r at he4
      have hq : ∀ g, g ≠ index →
          ({ q.set_state index FrameState.Free with
            nFreeFrames := (q.set_state index FrameState.Free).nFreeFrames + 1 } :
              ContFramePool).get_state g = q.get_state g :=
        fun g hg => get_set_other q index g FrameState.Free hg
      refine ⟨e, by omega, ?_, ?_, ?_⟩
      · intro g hg1 hg2
        by_cases eg : g = index
        · rw [eg]; exact ⟨hc.2, hc.1⟩
        · have := he2 g (by omega) hg2
          rw [hq g eg] at this
          exact this
      · intro hcon
        apply he3
        refine ⟨hcon.1, ?_⟩
        rw [hq e (by omega)]
        exact hcon.2
      · refine ⟨he4.base, he4.nframes, he4.info, ?_, ?_, ?_⟩
        · rw [he4.nFree]
          show q.nFreeFrames + 1 + (e - (index + 1)) = q.nFreeFrames + (e - index)
          omega
        · intro g hg1 hg2
          by_cases eg : g = index
          · rw [eg, he4.outside index (by omega)]
            exact get_set_same q index FrameState.Free
          · exact he4.inside g (by omega) hg2
        · intro g hg
          rw [he4.outside g (by omega)]
          exact hq g (by omega)
    · have e1 : release_walk (m + 1) index q = q := by
        rw [release_walk]
        simp only [hc, if_false]
      rw [e1]
      refine ⟨index, le_refl _, fun g h1 h2 => by omega, hc, ?_⟩
      exact ⟨rfl, rfl, rfl, by simp, fun g h1 h2 => by omega, fun g _ => rfl⟩

theorem release_in_pool_not_head (p : ContFramePool) (f : Nat)
    (h : p.get_state (f - p.base_frame_no) ≠ FrameState.HoS) : p.release_in_pool f = p := by
  unfold release_in_pool
  simp only [h, ne_eq, not_false_eq_true, if_true]

/-- Releasing a head frees it and the `Used` frames after it, up to the first
frame that is not `Used` or to the bound of the walk. -/
theorem release_in_pool_head (p : ContFramePool) (f : Nat)
    (h : p.get_state (f - p.base_frame_no) = FrameState.HoS) :
    ∃ e, f - p.base_frame_no < e ∧
      (∀ g, f - p.base_frame_no < g → g < e →
        p.get_state g = FrameState.Used ∧ g < p.base_frame_no + p.nframes) ∧
      ¬ (e < p.base_frame_no + p.nframes ∧ p.get_state e = FrameState.Used) ∧
      RangeSet p (p.release_in_pool f) (f - p.base_frame_no) e FrameState.Free
        (p.nFreeFrames + (e - (f - p.base_frame_no))) := by
  have e1 : p.release_in_pool f =
      release_walk (p.base_frame_no + p.nframes - (f - p.base_frame_no + 1))
        (f - p.base_frame_no + 1)
        { p.set_state (f - p.base_frame_no) FrameState.Free with
          nFreeFrames := (p.set_state (f - p.base_frame_no) FrameState.Free).nFreeFrames + 1 } := by
    unfold release_in_pool
    simp only [h, ne_eq, not_true_eq_false, if_false]
    rfl
  rw [e1]
  obtain ⟨e, he1, he2, he3, he4⟩ := release_walk_spec
    (p.base_frame_no + p.nframes - (f - p.base_frame_no + 1)) (f - p.base_frame_no + 1)
    { p.set_state (f - p.base_frame_no) FrameState.Free with
      nFreeFrames := (p.set_state (f - p.base_frame_no) FrameState.Free).nFreeFrames + 1 }
    (le_refl _)
  generalize release_walk (p.base_frame_no + p.nframes - (f - p.base_frame_no + 1))
    (f - p.base_frame_no + 1)
    { p.set_state (f - p.base_frame_no) FrameState.Free with
      nFreeFrames := (p.set_state (f - p.base_frame_no) FrameState.Free).nFreeFrames + 1 } = r
    at he4
  have hq : ∀ g, g ≠ f - p.base_frame_no →
      ({ p.set_state (f - p.base_frame_no) FrameState.Free with
        nFreeFrames := (p.set_state (f - p.base_frame_no) FrameState.Free).nFreeFrames + 1 } :
          ContFramePool).get_state g = p.get_state g :=
    fun g hg => get_set_other p _ g FrameState.Free hg
  refine ⟨e, by omega, ?_, ?_, ?_⟩
  · intro g hg1 hg2
    have := he2 g (by omega) hg2
    rw [hq g (by omega)] at this
    exact this
  · intro hcon
    apply he3
    refine ⟨hcon.1, ?_⟩
    rw [hq e (by omega)]
    exact hcon.2
  · refine ⟨he4.base, he4.nframes, he4.info, ?_, ?_, ?_⟩
    · rw [he4.nFree]
      show p.nFreeFrames + 1 + (e - (f - p.base_frame_no + 1)) =
        p.nFreeFrames + (e - (f - p.base_frame_no))
      omega
    · intro g hg1 hg2
      by_cases eg : g = f - p.base_frame_no
      · rw [eg, he4.outside _ (by omega)]
        exact get_set_same p _ FrameState.Free
      · exact he4.inside g (by omega) hg2
    · intro g hg
      rw [he4.outside g (by omega)]
      exact hq g (by omega)

/-! ## Concrete pools -/

theorem fragmentedPool_reachable : Reachable fragmentedPool :=
  Reachable.release_frames _ 8
    (Reachable.get_frames _ 1 (Reachable.get_frames _ 1
      (Reachable.construct 8 3 1 zeroMem (by decide))))
    (by decide) (by decide)

theorem adjacentPool_reachable : Reachable adjacentPool :=
  Reachable.get_frames _ 1 (Reachable.get_frames _ 1
    (Reachable.construct 8 2 1 zeroMem (by decide)))

/-! ## Claims about `get_frames` -/

/-- C1 (as amended): for every pool and every request `n ≥ 1` with
`n ≤ nFreeFrames` for which the pool holds a run of `n` consecutive `Free`
frames, `get_frames(n)` returns `base_frame_no + k` for a run `k .. k + n - 1`
that was all `Free`; afterwards frame `k` is `HoS`, frames
`k + 1 .. k + n - 1` are `Used`, every other frame is unchanged and the free
counter has gone down by exactly `n`. -/
theorem get_frames_contract (p : ContFramePool) (n k0 : Nat) (hn : 1 ≤ n)
    (hfree : n ≤ p.nFreeFrames) (hk0 : k0 + n ≤ p.nframes) (hrun : RunFree p k0 n) :
    GetFramesContract p n := by
  obtain ⟨k, hk⟩ := find_run_exists p n k0 hn hk0 hrun
  obtain ⟨_, hle, hfr, _⟩ := find_run_some p n k hk
  obtain ⟨hret, hhead, hr⟩ := get_frames_found p n k hfree hk
  refine ⟨k, by omega, hle, hfr, hhead, ?_, ?_, ?_⟩
  · intro j hj1 hj2
    exact hr.inside (k + j) (by omega) (by omega)
  · intro g hg
    by_cases e : g = k
    · omega
    · rw [hr.outside g (by omega)]
      exact get_set_other p k g FrameState.HoS e
  · rw [hr.nFree]
    omega

/-- C1, witness: the amended contract at the fragmented pool and a request
for one frame. -/
theorem get_frames_contract_witness :
    (1 ≤ 1 ∧ 1 ≤ fragmentedPool.nFreeFrames ∧ 0 + 1 ≤ fragmentedPool.nframes ∧
      RunFree fragmentedPool 0 1) ∧ GetFramesContract fragmentedPool 1 :=
  have h : RunFree fragmentedPool 0 1 := by
    intro j hj
    have e : j = 0 := by omega
    subst e
    decide
  ⟨⟨by decide, by decide, by decide, h⟩,
    get_frames_contract fragmentedPool 1 0 (by decide) (by decide) (by decide) h⟩

/-- C1, counterexample: the fragmented pool (`Free`, `HoS`, `Free`) is
reachable, has two free frames and a free counter of two, yet `get_frames(2)`
does not meet the contract: there is no run of two free frames. -/
theorem get_frames_contract_fails_fragmented :
    Reachable fragmentedPool ∧ countFree fragmentedPool = 2 ∧
      2 ≤ fragmentedPool.nFreeFrames ∧ fragmentedPool.get_frames 2 = (0, fragmentedPool) ∧
      ¬ GetFramesContract fragmentedPool 2 := by
  have hnone : fragmentedPool.find_run 2 = none := by decide
  have hsame := get_frames_not_found fragmentedPool 2 hnone
  refine ⟨fragmentedPool_reachable, by decide, by decide, hsame, ?_⟩
  rintro ⟨k, _, _, _, _, _, _, hcount⟩
  rw [hsame] at hcount
  have h2 : fragmentedPool.nFreeFrames + 2 = fragmentedPool.nFreeFrames := hcount
  omega

/-- C3: `get_frames(n)` returns 0 and leaves the pool as it was when `n`
exceeds the free counter, and also when the pool holds no run of `n`
consecutive `Free` frames (`n ≥ 1`); and in a pool whose base frame is not
frame 0 every call that returns 0 leaves the pool as it was. -/
theorem get_frames_failure (p : ContFramePool) (n : Nat) :
    (p.nFreeFrames < n → p.get_frames n = (0, p)) ∧
    (1 ≤ n → (∀ k, k + n ≤ p.nframes → ¬ RunFree p k n) → p.get_frames n = (0, p)) ∧
    (1 ≤ p.base_frame_no → (p.get_frames n).1 = 0 → (p.get_frames n).2 = p) := by
  refine ⟨get_frames_short p n, ?_, ?_⟩
  · intro hn hno
    cases hf : p.find_run n with
    | none => exact get_frames_not_found p n hf
    | some k =>
      obtain ⟨_, hle, hfr, _⟩ := find_run_some p n k hf
      exact absurd hfr (hno k hle)
  · intro hb h0
    by_cases hlt : p.nFreeFrames < n
    · rw [get_frames_short p n hlt]
    · cases hf : p.find_run n with
      | none => rw [get_frames_not_found p n hf]
      | some k =>
        obtain ⟨hret, _, _⟩ := get_frames_found p n k (by omega) hf
        omega

/-- C3, witness: both failure causes at the fragmented pool (base frame 8):
three frames asked of two free, and two frames asked with no run of two. -/
theorem get_frames_failure_witness :
    fragmentedPool.nFreeFrames < 3 ∧ fragmentedPool.get_frames 3 = (0, fragmentedPool) ∧
      (∀ k, k + 2 ≤ fragmentedPool.nframes → ¬ RunFree fragmentedPool k 2) ∧
      fragmentedPool.get_frames 2 = (0, fragmentedPool) ∧
      (fragmentedPool.get_frames 2).2 = fragmentedPool :=
  have h : ∀ k, k + 2 ≤ fragmentedPool.nframes → ¬ RunFree fragmentedPool k 2 :=
    find_run_none fragmentedPool 2 (by decide) (by decide)
  ⟨by decide, (get_frames_failure fragmentedPool 3).1 (by decide), h,
    (get_frames_failure fragmentedPool 2).2.1 (by decide) h,
    (get_frames_failure fragmentedPool 2).2.2 (by decide) (by decide)⟩

/-! ## Claims about `release_frames` -/

/-- C5: for a frame that lies in some registered pool and is not `HoS` in any
registered pool that holds it, `release_frames` changes nothing: the registry
after the call is the registry before it. -/
theorem release_frames_non_head (pools : List ContFramePool) (f : Nat)
    (hin : ∃ p ∈ pools, p.base_frame_no ≤ f ∧ f < p.base_frame_no + p.nframes)
    (hns : ∀ p ∈ pools, p.base_frame_no ≤ f → f < p.base_frame_no + p.nframes →
      p.get_state (f - p.base_frame_no) ≠ FrameState.HoS) :
    release_frames pools f = some pools := by
  induction pools with
  | nil =>
    obtain ⟨p, hp, _⟩ := hin
    cases hp
  | cons c rest ih =>
    unfold release_frames
    by_cases hc : f ≥ c.base_frame_no ∧ f < c.base_frame_no + c.nframes
    · simp only [hc, and_self, if_true]
      rw [release_in_pool_not_head c f (hns c (List.mem_cons_self c rest) hc.1 hc.2)]
    · simp only [hc, if_false]
      have hin2 : ∃ p ∈ rest, p.base_frame_no ≤ f ∧ f < p.base_frame_no + p.nframes := by
        obtain ⟨p, hp, h1, h2⟩ := hin
        rcases List.mem_cons.mp hp with e | hmem
        · subst e
          exact absurd ⟨h1, h2⟩ hc
        · exact ⟨p, hmem, h1, h2⟩
      rw [ih hin2 (fun p hp => hns p (List.mem_cons_of_mem c hp))]
      rfl

/-- C5, witness: releasing frame 8 (`Free`) of the fragmented pool, registered
behind the two-frame pool at base 4. -/
theorem release_frames_non_head_witness :
    release_frames [stalePool, fragmentedPool] 8 = some [stalePool, fragmentedPool] :=
  release_frames_non_head [stalePool, fragmentedPool] 8
    ⟨fragmentedPool, by simp, by decide, by decide⟩
    (by
      intro p hp h1 h2
      simp only [List.mem_cons, List.mem_singleton, List.not_mem_nil, or_false] at hp
      rcases hp with e | e
      · subst e
        revert h2
        decide
      · subst e
        decide)

/-! ## Claims about construction and `needed_info_frames` -/

/-- C6: for `frame_count ≥ 1`, a pool constructed with info frame 0 has frame
0 `HoS`, frames `1 .. k - 1` `Used` for `k = needed_info_frames(frame_count)`,
every other frame `Free` and a free counter of `frame_count - k`; a pool
constructed with another info frame has all frames `Free` and a free counter
of `frame_count`. -/
theorem construct_frame_states (base n info : Nat) (mem : Nat → Nat) (hn : 1 ≤ n) :
    (info = 0 →
      (construct base n info mem).get_state 0 = FrameState.HoS ∧
      (∀ i, 1 ≤ i → i < needed_info_frames n →
        (construct base n info mem).get_state i = FrameState.Used) ∧
      (∀ i, needed_info_frames n ≤ i → i < n →
        (construct base n info mem).get_state i = FrameState.Free) ∧
      (construct base n info mem).nFreeFrames = n - needed_info_frames n) ∧
    (info ≠ 0 →
      (∀ i, i < n → (construct base n info mem).get_state i = FrameState.Free) ∧
      (construct base n info mem).nFreeFrames = n) := by
  constructor
  · intro h0
    subst h0
    obtain ⟨_, _, _, h4, h5, h6, h7, _⟩ := construct_self base n mem hn
    exact ⟨h5, h6, h7, h4⟩
  · intro h0
    have h := construct_external base n info mem h0
    exact ⟨fun i hi => h.inside i (Nat.zero_le i) hi, h.nFree⟩

/-- C6, witness: construction of a 20000-frame pool, which needs two info
frames, with its own info frame and with info frame 3. -/
theorem construct_frame_states_witness :
    (1 : Nat) ≤ 20000 ∧
      ((construct 512 20000 0 staleMem).get_state 0 = FrameState.HoS ∧
        (∀ i, 1 ≤ i → i < needed_info_frames 20000 →
          (construct 512 20000 0 staleMem).get_state i = FrameState.Used) ∧
        (∀ i, needed_info_frames 20000 ≤ i → i < 20000 →
          (construct 512 20000 0 staleMem).get_state i = FrameState.Free) ∧
        (construct 512 20000 0 staleMem).nFreeFrames = 20000 - needed_info_frames 20000) ∧
      ((∀ i, i < 20000 → (construct 512 20000 3 staleMem).get_state i = FrameState.Free) ∧
        (construct 512 20000 3 staleMem).nFreeFrames = 20000) :=
  ⟨by decide, (construct_frame_states 512 20000 0 staleMem (by decide)).1 rfl,
    (construct_frame_states 512 20000 3 staleMem (by decide)).2 (by decide)⟩

/-- C8: `needed_info_frames(n)` is the ceiling of `n / 16384`: it is the least
`k` with `16384 * k ≥ n`, and it is monotonic non-decreasing in `n`. -/
theorem needed_info_frames_ceiling (n : Nat) :
    n ≤ 16384 * needed_info_frames n ∧
    (∀ k, n ≤ 16384 * k → needed_info_frames n ≤ k) ∧
    (∀ m, m ≤ n → needed_info_frames m ≤ needed_info_frames n) := by
  unfold needed_info_frames
  refine ⟨?_, ?_, ?_⟩
  · split <;> omega
  · intro k hk
    split <;> omega
  · intro m hm
    split <;> split <;> omega

/-- C8, witness: 16385 frames need two info frames and no fewer than the one
that 16384 frames need. -/
theorem needed_info_frames_ceiling_witness :
    (16385 ≤ 16384 * 2 ∧ 16384 ≤ 16385) ∧
      (needed_info_frames 16385 ≤ 2 ∧ needed_info_frames 16384 ≤ needed_info_frames 16385) :=
  ⟨⟨by decide, by decide⟩, (needed_info_frames_ceiling 16385).2.1 2 (by decide),
    (needed_info_frames_ceiling 16385).2.2 16384 (by decide)⟩

/-! ## The run structure of reachable pools -/

theorem noOrphan_construct (base n info : Nat) (mem : Nat → Nat) (hn : 1 ≤ n) :
    NoOrphan (construct base n info mem) := by
  by_cases h0 : info = 0
  · subst h0
    obtain ⟨_, hnf, _, _, h5, h6, h7, _⟩ := construct_self base n mem hn
    intro i hi hu
    rw [hnf] at hi
    have hi0 : 0 < i := by
      rcases Nat.eq_zero_or_pos i with e | e
      · rw [e, h5] at hu
        cases hu
      · exact e
    have hik : i < needed_info_frames n := by
      by_contra hcon
      rw [h7 i (by omega) hi] at hu
      cases hu
    refine ⟨hi0, ?_⟩
    by_cases e : i - 1 = 0
    · rw [e, h5]
      decide
    · rw [h6 (i - 1) (by omega) (by omega)]
      decide
  · have h := construct_external base n info mem h0
    intro i hi hu
    rw [h.nframes] at hi
    rw [h.inside i (Nat.zero_le i) hi] at hu
    cases hu

theorem noOrphan_get_frames (p : ContFramePool) (n : Nat) (hp : NoOrphan p) :
    NoOrphan (p.get_frames n).2 := by
  rcases get_frames_cases p n with h | ⟨k, hn, _, _, hk, _, _, hnf, _, hhead, htail, hout⟩
  · rw [h]
    exact hp
  · intro i hi hu
    rw [hnf] at hi
    have hnon : ∀ g, k ≤ g → g < k + n → (p.get_frames n).2.get_state g ≠ FrameState.Free := by
      intro g hg1 hg2
      by_cases e : g = k
      · rw [e, hhead]
        decide
      · rw [htail g (by omega) hg2]
        decide
    by_cases hin : k ≤ i ∧ i < k + n
    · have hik : i ≠ k := by
        intro e
        rw [e, hhead] at hu
        cases hu
      exact ⟨by omega, hnon (i - 1) (by omega) (by omega)⟩
    · rw [hout i (by omega)] at hu
      obtain ⟨h1, h2⟩ := hp i hi hu
      refine ⟨h1, ?_⟩
      by_cases hin2 : k ≤ i - 1 ∧ i - 1 < k + n
      · exact hnon (i - 1) hin2.1 hin2.2
      · rw [hout (i - 1) (by omega)]
        exact h2

theorem noOrphan_release (p : ContFramePool) (f : Nat) (hp : NoOrphan p) :
    NoOrphan (p.release_in_pool f) := by
  by_cases hh : p.get_state (f - p.base_frame_no) = FrameState.HoS
  · obtain ⟨e, he1, _, he3, hr⟩ := release_in_pool_head p f hh
    intro i hi hu
    rw [hr.nframes] at hi
    by_cases hin : f - p.base_frame_no ≤ i ∧ i < e
    · rw [hr.inside i hin.1 hin.2] at hu
      cases hu
    · rw [hr.outside i (by omega)] at hu
      obtain ⟨h1, h2⟩ := hp i hi hu
      refine ⟨h1, ?_⟩
      by_cases hin2 : f - p.base_frame_no ≤ i - 1 ∧ i - 1 < e
      · have hie : i = e := by omega
        exact absurd ⟨by omega, hie ▸ hu⟩ he3
      · rw [hr.outside (i - 1) (by omega)]
        exact h2
  · rw [release_in_pool_not_head p f hh]
    exact hp

/-- No reachable pool holds an orphan `Used` frame. -/
theorem noOrphan_reachable (p : ContFramePool) (hp : Reachable p) : NoOrphan p := by
  induction hp with
  | construct base n info mem hn => exact noOrphan_construct base n info mem hn
  | get_frames p n _ ih => exact noOrphan_get_frames p n ih
  | release_frames p f _ _ _ ih => exact noOrphan_release p f ih

theorem adjacentPool_maximalRun : MaximalRun adjacentPool 0 2 := by
  refine ⟨by decide, by decide, ?_, Or.inl rfl, Or.inl (by decide)⟩
  intro i _ hi
  have e : i = 0 ∨ i = 1 := by omega
  rcases e with e | e <;> subst e <;> decide

/-- C10 (as amended): in every state reachable from construction by
`get_frames` and `release_frames`, the first frame of every maximal run of
consecutive non-`Free` frames is `HoS`, and every other frame of that run is
`Used` or `HoS`. -/
theorem maximal_run_starts_with_head (p : ContFramePool) (a b : Nat) (hp : Reachable p)
    (hrun : MaximalRun p a b) :
    p.get_state a = FrameState.HoS ∧
      ∀ i, a < i → i < b →
        (p.get_state i = FrameState.Used ∨ p.get_state i = FrameState.HoS) := by
  obtain ⟨hab, hb, hnon, hleft, _⟩ := hrun
  have hno := noOrphan_reachable p hp
  constructor
  · have ha := hnon a (le_refl a) hab
    cases hs : p.get_state a with
    | Free => exact absurd hs ha
    | HoS => rfl
    | Used =>
      obtain ⟨h1, h2⟩ := hno a (by omega) hs
      rcases hleft with e | e
      · omega
      · exact absurd e h2
  · intro i hi1 hi2
    have := hnon i (by omega) hi2
    cases hs : p.get_state i with
    | Free => exact absurd hs this
    | HoS => exact Or.inr rfl
    | Used => exact Or.inl rfl

/-- C10, witness: the amended statement at the pool of two adjacent
single-frame runs. -/
theorem maximal_run_starts_with_head_witness :
    (Reachable adjacentPool ∧ MaximalRun adjacentPool 0 2) ∧
      (adjacentPool.get_state 0 = FrameState.HoS ∧
        ∀ i, 0 < i → i < 2 →
          (adjacentPool.get_state i = FrameState.Used ∨
            adjacentPool.get_state i = FrameState.HoS)) :=
  ⟨⟨adjacentPool_reachable, adjacentPool_maximalRun⟩,
    maximal_run_starts_with_head adjacentPool 0 2 adjacentPool_reachable
      adjacentPool_maximalRun⟩

/-- C10, counterexample: two single-frame allocations leave frames 0 and 1
both `HoS`; they form one maximal run of non-`Free` frames whose second frame
is not `Used`. -/
theorem maximal_run_not_head_then_used :
    Reachable adjacentPool ∧ MaximalRun adjacentPool 0 2 ∧
      ¬ HeadThenUsed adjacentPool 0 2 := by
  refine ⟨adjacentPool_reachable, adjacentPool_maximalRun, ?_⟩
  rintro ⟨_, h⟩
  have h1 := h 1 (by decide) (by decide)
  revert h1
  decide

/-! ## The walk of `release_frames` past the pool's entries -/

/-- C4, the failing input evaluated: in the two-frame pool at base frame 4
whose info frame held `0x55` bytes, `get_frames(2)` returns frame 4 and takes
the free counter from 2 to 0; `release_frames(4)` then leaves the free counter
at 6, not at 2. -/
theorem release_after_get_overruns :
    stalePool.nFreeFrames = 2 ∧ (stalePool.get_frames 2).1 = 4 ∧
      (stalePool.get_frames 2).2.nFreeFrames = 0 ∧
      (release_frames [(stalePool.get_frames 2).2] 4).map (List.map nFreeFrames) =
        some [6] := by
  decide

/-- C9, the failing input evaluated: a reachable pool of two frames, both
`Free`, whose free counter is 6. -/
theorem free_count_exceeds_free_frames :
    Reachable ((stalePool.get_frames 2).2.release_in_pool 4) ∧
      ((stalePool.get_frames 2).2.release_in_pool 4).nframes = 2 ∧
      countFree ((stalePool.get_frames 2).2.release_in_pool 4) = 2 ∧
      ((stalePool.get_frames 2).2.release_in_pool 4).nFreeFrames = 6 := by
  refine ⟨?_, by decide, by decide, by decide⟩
  exact Reachable.release_frames _ 4
    (Reachable.get_frames _ 2 (Reachable.construct 4 2 1 staleMem (by decide)))
    (by decide) (by decide)

/-! ## The end-to-end scenario -/

/-- The scenario on a 200-frame pool at base frame 100 that keeps its info in
its own first frame, for any prior content of that frame. -/
theorem scenario_facts (mem : Nat → Nat) :
    (construct 100 200 0 mem).nFreeFrames = 199 ∧
    (construct 100 200 0 mem).find_run 50 = some 1 ∧
    ((construct 100 200 0 mem).get_frames 50).1 = 101 ∧
    ((construct 100 200 0 mem).get_frames 50).2.nFreeFrames = 149 ∧
    release_frames [((construct 100 200 0 mem).get_frames 50).2] 101 =
      some [((construct 100 200 0 mem).get_frames 50).2.release_in_pool 101] ∧
    (((construct 100 200 0 mem).get_frames 50).2.release_in_pool 101).nFreeFrames = 199 ∧
    RunFree (((construct 100 200 0 mem).get_frames 50).2.release_in_pool 101) 1 50 ∧
    (((construct 100 200 0 mem).get_frames 50).2.release_in_pool 101).find_run 199 = some 1 ∧
    ((((construct 100 200 0 mem).get_frames 50).2.release_in_pool 101).get_frames 199).1 =
      101 := by
  obtain ⟨hb0, hn0, _, hf0, hs0, _, hfree0, _⟩ := construct_self 100 200 mem (by decide)
  have hk : needed_info_frames 200 = 1 := by decide
  rw [hk] at hf0 hfree0
  generalize construct 100 200 0 mem = p0 at *
  have hrun0 : RunFree p0 1 50 := fun j hj => hfree0 (1 + j) (by omega) (by omega)
  have hfind0 : p0.find_run 50 = some 1 := by
    refine find_run_least p0 50 1 (by decide) (by omega) hrun0 ?_
    intro k' hk' hr
    have e : k' = 0 := by omega
    subst e
    have h0 := hr 0 (by decide)
    rw [Nat.add_zero, hs0] at h0
    cases h0
  obtain ⟨hret1, hhead1, hr1⟩ := get_frames_found p0 50 1 (by omega) hfind0
  have hb1 : (p0.get_frames 50).2.base_frame_no = 100 := by
    rw [hr1.base, set_state_base]
    exact hb0
  have hn1 : (p0.get_frames 50).2.nframes = 200 := by
    rw [hr1.nframes, set_state_nframes]
    exact hn0
  have hf1 : (p0.get_frames 50).2.nFreeFrames = 149 := by rw [hr1.nFree]; omega
  have hused1 : ∀ g, 2 ≤ g → g < 51 → (p0.get_frames 50).2.get_state g = FrameState.Used :=
    fun g h1 h2 => hr1.inside g h1 h2
  have hout1 : ∀ g, (g < 1 ∨ 51 ≤ g) →
      (p0.get_frames 50).2.get_state g = p0.get_state g := by
    intro g hg
    rw [hr1.outside g (by omega)]
    exact get_set_other p0 1 g FrameState.HoS (by omega)
  have hret1b : (p0.get_frames 50).1 = 101 := by omega
  generalize (p0.get_frames 50).2 = p1 at *
  have hrel : release_frames [p1] 101 = some [p1.release_in_pool 101] := by
    unfold release_frames
    have : 101 ≥ p1.base_frame_no ∧ 101 < p1.base_frame_no + p1.nframes := by omega
    simp only [this, and_self, if_true]
  have hoff : 101 - p1.base_frame_no = 1 := by omega
  obtain ⟨e, he1, he2, he3, hr2⟩ := release_in_pool_head p1 101 (by rw [hoff]; exact hhead1)
  rw [hoff] at he1 he2 hr2
  have hfree1 : p1.get_state 51 = FrameState.Free := by
    rw [hout1 51 (by omega)]
    exact hfree0 51 (by omega) (by omega)
  have he : e = 51 := by
    by_contra hne
    by_cases hlt : e < 51
    · exact he3 ⟨by omega, hused1 e (by omega) hlt⟩
    · have := (he2 51 (by omega) (by omega)).1
      rw [hfree1] at this
      cases this
  subst he
  have hf2 : (p1.release_in_pool 101).nFreeFrames = 199 := by rw [hr2.nFree]; omega
  have hb2 : (p1.release_in_pool 101).base_frame_no = 100 := by rw [hr2.base]; exact hb1
  have hn2 : (p1.release_in_pool 101).nframes = 200 := by rw [hr2.nframes]; exact hn1
  have hfree2 : ∀ g, 1 ≤ g → g < 200 →
      (p1.release_in_pool 101).get_state g = FrameState.Free := by
    intro g h1 h2
    by_cases hg : g < 51
    · exact hr2.inside g h1 hg
    · rw [hr2.outside g (by omega), hout1 g (by omega)]
      exact hfree0 g h1 h2
  have hs2 : (p1.release_in_pool 101).get_state 0 = FrameState.HoS := by
    rw [hr2.outside 0 (by omega), hout1 0 (by omega)]
    exact hs0
  generalize p1.release_in_pool 101 = p2 at *
  have hfind2 : p2.find_run 199 = some 1 := by
    refine find_run_least p2 199 1 (by decide) (by omega)
      (fun j hj => hfree2 (1 + j) (by omega) (by omega)) ?_
    intro k' hk' hr
    have e : k' = 0 := by omega
    subst e
    have h0 := hr 0 (by decide)
    rw [Nat.add_zero, hs2] at h0
    cases h0
  obtain ⟨hret3, _, _⟩ := get_frames_found p2 199 1 (by omega) hfind2
  exact ⟨hf0, hfind0, hret1b, hf1, hrel, hf2,
    fun j hj => hfree2 (1 + j) (by omega) (by omega), hfind2, by omega⟩

/-- C7 (as amended): for a pool constructed at base frame 100 with 200 frames
and its own first frame as info frame, the free counter starts at 199;
`get_frames(50)` returns 101 and leaves the free counter at 149;
`release_frames(101)` returns the free counter to 199 with the 50 frames of
that run `Free` again; and `get_frames(199)` then succeeds and returns 101. -/
theorem frame_pool_scenario (mem : Nat → Nat) :
    (construct 100 200 0 mem).nFreeFrames = 199 ∧
    ((construct 100 200 0 mem).get_frames 50).1 = 101 ∧
    ((construct 100 200 0 mem).get_frames 50).2.nFreeFrames = 149 ∧
    release_frames [((construct 100 200 0 mem).get_frames 50).2] 101 =
      some [((construct 100 200 0 mem).get_frames 50).2.release_in_pool 101] ∧
    (((construct 100 200 0 mem).get_frames 50).2.release_in_pool 101).nFreeFrames = 199 ∧
    RunFree (((construct 100 200 0 mem).get_frames 50).2.release_in_pool 101) 1 50 ∧
    (((construct 100 200 0 mem).get_frames 50).2.release_in_pool 101).find_run 199 = some 1 ∧
    ((((construct 100 200 0 mem).get_frames 50).2.release_in_pool 101).get_frames 199).1 =
      101 := by
  obtain ⟨h1, _, h3, h4, h5, h6, h7, h8, h9⟩ := scenario_facts mem
  exact ⟨h1, h3, h4, h5, h6, h7, h8, h9⟩

/-- C7, counterexample: the scenario as written holds neither for a pool of
100 frames at base frame 100 (the free counter starts at 99) nor for one of
200 frames (the first frame holds the info, so `get_frames(50)` returns 101,
not 100). -/
theorem scenario_as_stated_fails :
    ¬ ScenarioAsStated 100 zeroMem ∧ ¬ ScenarioAsStated 200 zeroMem := by
  constructor
  · rintro ⟨h, _⟩
    obtain ⟨_, _, _, hf, _⟩ := construct_self 100 100 zeroMem (by decide)
    have hk : needed_info_frames 100 = 1 := by decide
    rw [hk] at hf
    omega
  · rintro ⟨_, h, _⟩
    obtain ⟨_, _, h3, _⟩ := scenario_facts zeroMem
    omega

end ContFramePool

namespace ContFramePool

/-! ## `mark_inaccessible` -/

/-- The marking loop of `mark_inaccessible` and of the constructor, whatever
the free counter does. -/
theorem used_loop_states (p : ContFramePool) (idx : ContFramePool → Nat → Nat) (o lo hi : Nat)
    (hidx : ∀ (q : ContFramePool) (i : Nat), q.base_frame_no = p.base_frame_no →
      lo ≤ i → i < hi → idx q i = o + i)
    (hle : lo ≤ hi) :
    ∃ c, RangeSet p
      (forLoop lo hi
        (fun i q =>
          let q1 := q.set_state (idx q i) FrameState.Used
          { q1 with nFreeFrames := dec32 q1.nFreeFrames }) p)
      (o + lo) (o + hi) FrameState.Used c := by
  refine forLoop_inv lo hi _
    (fun j q => ∃ c, RangeSet p q (o + lo) (o + j) FrameState.Used c) p hle ?_ ?_
  · exact ⟨p.nFreeFrames, rfl, rfl, rfl, rfl, fun g h1 h2 => by omega, fun g _ => rfl⟩
  · rintro j t hj1 hj2 ⟨c, h⟩
    have ho : idx t j = o + j := hidx t j h.base hj1 hj2
    refine ⟨dec32 c, by simp [h.base], by simp [h.nframes], by simp [h.info], ?_, ?_, ?_⟩
    · simp only [set_state_nFree, h.nFree]
    · intro g hg1 hg2
      simp only [get_state_nFree, ho]
      rw [get_set]
      by_cases e : g = o + j
      · simp [e]
      · simp only [e, if_false]
        exact h.inside g hg1 (by omega)
    · intro g hg
      simp only [get_state_nFree, ho]
      rw [get_set]
      have e : g ≠ o + j := by omega
      simp only [e, if_false]
      exact h.outside g (by omega)

theorem sub32_of_le (x y : Nat) (h : y ≤ x) : sub32 x y = x - y := by
  unfold sub32
  simp [h]

theorem dec32_of_pos (x : Nat) (h : 1 ≤ x) : dec32 x = x - 1 := by
  unfold dec32
  have : x ≠ 0 := by omega
  simp [this]

/-- The index `_base_frame_no - base_frame_no + i` of `mark_inaccessible` for
a frame not below the pool's base and 32-bit frame numbers. -/
theorem mark_index (b base i n : Nat) (hlo : base ≤ b) (hw : b + n ≤ 4294967296)
    (hi : i < n) : add32 (sub32 b base) i = b - base + i := by
  rw [sub32_of_le b base hlo]
  unfold add32
  exact Nat.mod_eq_of_lt (by omega)

/-- The frame states after `mark_inaccessible(b, n)` for a frame `b` not below
the pool's base. -/
theorem mark_inaccessible_states (p : ContFramePool) (b n : Nat) (hn : 1 ≤ n)
    (hlo : p.base_frame_no ≤ b) (hw : b + n ≤ 4294967296) :
    (p.mark_inaccessible b n).get_state (b - p.base_frame_no) = FrameState.HoS ∧
    (∀ j, 1 ≤ j → j < n →
      (p.mark_inaccessible b n).get_state (b - p.base_frame_no + j) = FrameState.Used) ∧
    (∀ g, (g < b - p.base_frame_no ∨ b - p.base_frame_no + n ≤ g) →
      (p.mark_inaccessible b n).get_state g = p.get_state g) ∧
    (p.mark_inaccessible b n).base_frame_no = p.base_frame_no ∧
    (p.mark_inaccessible b n).nframes = p.nframes := by
  have hs := sub32_of_le b p.base_frame_no hlo
  obtain ⟨c, h⟩ := used_loop_states
    ({ p.set_state (sub32 b p.base_frame_no) FrameState.HoS with
        nFreeFrames := dec32 (p.set_state (sub32 b p.base_frame_no) FrameState.HoS).nFreeFrames })
    (fun q i => add32 (sub32 b q.base_frame_no) i) (b - p.base_frame_no) 1 n
    (fun q i hq _ hi => by
      have hq2 : q.base_frame_no = p.base_frame_no := hq
      show add32 (sub32 b q.base_frame_no) i = b - p.base_frame_no + i
      rw [hq2]
      exact mark_index b p.base_frame_no i n hlo hw hi) hn
  have e : p.mark_inaccessible b n =
      forLoop 1 n
        (fun i q =>
          let q1 := q.set_state (add32 (sub32 b q.base_frame_no) i) FrameState.Used
          { q1 with nFreeFrames := dec32 q1.nFreeFrames })
        ({ p.set_state (sub32 b p.base_frame_no) FrameState.HoS with
          nFreeFrames :=
            dec32 (p.set_state (sub32 b p.base_frame_no) FrameState.HoS).nFreeFrames }) := rfl
  rw [e]
  generalize forLoop 1 n
        (fun i q =>
          let q1 := q.set_state (add32 (sub32 b q.base_frame_no) i) FrameState.Used
          { q1 with nFreeFrames := dec32 q1.nFreeFrames })
        ({ p.set_state (sub32 b p.base_frame_no) FrameState.HoS with
          nFreeFrames :=
            dec32 (p.set_state (sub32 b p.base_frame_no) FrameState.HoS).nFreeFrames }) = r at h
  have hg : ∀ g, g ≠ b - p.base_frame_no →
      ({ p.set_state (sub32 b p.base_frame_no) FrameState.HoS with
        nFreeFrames :=
          dec32 (p.set_state (sub32 b p.base_frame_no) FrameState.HoS).nFreeFrames } :
            ContFramePool).get_state g = p.get_state g := by
    intro g hne
    rw [hs]
    exact get_set_other p _ g FrameState.HoS hne
  refine ⟨?_, ?_, ?_, ?_, ?_⟩
  · rw [h.outside _ (by omega), hs]
    exact get_set_same p _ FrameState.HoS
  · intro j hj1 hj2
    exact h.inside _ (by omega) (by omega)
  · intro g hgo
    rw [h.outside g (by omega)]
    exact hg g (by omega)
  · rw [h.base]
    rfl
  · rw [h.nframes]
    rfl

/-- The free counter after `mark_inaccessible(b, n)` when it holds at least
`n`. -/
theorem mark_inaccessible_count (p : ContFramePool) (b n : Nat) (hn : 1 ≤ n)
    (hlo : p.base_frame_no ≤ b) (hw : b + n ≤ 4294967296) (hfree : n ≤ p.nFreeFrames) :
    (p.mark_inaccessible b n).nFreeFrames = p.nFreeFrames - n := by
  have h := used_loop_spec
    ({ p.set_state (sub32 b p.base_frame_no) FrameState.HoS with
        nFreeFrames := dec32 (p.set_state (sub32 b p.base_frame_no) FrameState.HoS).nFreeFrames })
    (fun q i => add32 (sub32 b q.base_frame_no) i) (b - p.base_frame_no) 1 n
    (fun q i hq _ hi => by
      have hq2 : q.base_frame_no = p.base_frame_no := hq
      show add32 (sub32 b q.base_frame_no) i = b - p.base_frame_no + i
      rw [hq2]
      exact mark_index b p.base_frame_no i n hlo hw hi) hn
    (by
      show n - 1 ≤ dec32 p.nFreeFrames
      rw [dec32_of_pos _ (by omega)]
      omega)
  have e : (p.mark_inaccessible b n).nFreeFrames = dec32 p.nFreeFrames - (n - 1) := h.nFree
  rw [e, dec32_of_pos _ (by omega)]
  omega

/-- A frame below the pool's base: in the four-frame pool at base frame 8,
`mark_inaccessible(7, 2)` writes `HoS` to the entry `2 ^ 32 - 1` and `Used`
to the entry of frame 0, where the wrapped index comes back around. -/
theorem mark_inaccessible_below_base :
    ((construct 8 4 1 zeroMem).mark_inaccessible 7 2).get_state 4294967295 = FrameState.HoS ∧
      ((construct 8 4 1 zeroMem).mark_inaccessible 7 2).get_state 0 = FrameState.Used ∧
      (construct 8 4 1 zeroMem).get_state 0 = FrameState.Free := by
  decide

/-- C11 (as amended): for `n ≥ 1` and a run `[b, b + n)` inside the pool (of
32-bit frame numbers), `mark_inaccessible(b, n)` sets frame
`b - base_frame_no` to `HoS` and the following `n - 1` frames to `Used`
whatever their previous states and whatever the free counter holds, and
leaves every other frame's state unchanged; when the free counter holds at
least `n` it is lowered by exactly `n`, and when it holds less it is not. -/
theorem mark_inaccessible_contract (p : ContFramePool) (b n : Nat) (hn : 1 ≤ n)
    (hlo : p.base_frame_no ≤ b) (hhi : b + n ≤ p.base_frame_no + p.nframes)
    (hw : p.base_frame_no + p.nframes ≤ 4294967296) :
    (p.mark_inaccessible b n).get_state (b - p.base_frame_no) = FrameState.HoS ∧
    (∀ j, 1 ≤ j → j < n →
      (p.mark_inaccessible b n).get_state (b - p.base_frame_no + j) = FrameState.Used) ∧
    (∀ g, (g < b - p.base_frame_no ∨ b - p.base_frame_no + n ≤ g) →
      (p.mark_inaccessible b n).get_state g = p.get_state g) ∧
    (n ≤ p.nFreeFrames → (p.mark_inaccessible b n).nFreeFrames + n = p.nFreeFrames) ∧
    (p.nFreeFrames < n → (p.mark_inaccessible b n).nFreeFrames + n ≠ p.nFreeFrames) := by
  obtain ⟨h1, h2, h3, _, _⟩ := mark_inaccessible_states p b n hn hlo (by omega)
  refine ⟨h1, h2, h3, ?_, ?_⟩
  · intro hfree
    rw [mark_inaccessible_count p b n hn hlo (by omega) hfree]
    omega
  · intro hlt
    omega

/-- C11, witness: marking frames 9 and 10 of the fragmented pool (`Free`,
`HoS`, `Free`, free counter 2) meets the whole contract. -/
theorem mark_inaccessible_contract_witness :
    ((1 : Nat) ≤ 2 ∧ fragmentedPool.base_frame_no ≤ 9 ∧
      9 + 2 ≤ fragmentedPool.base_frame_no + fragmentedPool.nframes ∧
      fragmentedPool.base_frame_no + fragmentedPool.nframes ≤ 4294967296 ∧
      2 ≤ fragmentedPool.nFreeFrames) ∧ MarkContract fragmentedPool 9 2 :=
  ⟨⟨by decide, by decide, by decide, by decide, by decide⟩,
    (mark_inaccessible_contract fragmentedPool 9 2 (by decide) (by decide) (by decide)
      (by decide)).1,
    (mark_inaccessible_contract fragmentedPool 9 2 (by decide) (by decide) (by decide)
      (by decide)).2.1,
    (mark_inaccessible_contract fragmentedPool 9 2 (by decide) (by decide) (by decide)
      (by decide)).2.2.1,
    (mark_inaccessible_contract fragmentedPool 9 2 (by decide) (by decide) (by decide)
      (by decide)).2.2.2.1 (by decide)⟩

/-- C11, counterexample: in the one-frame pool whose frame is allocated (free
counter 0) `mark_inaccessible(8, 1)` wraps the unsigned counter to
`2 ^ 32 - 1`; it has not gone down by 1. -/
theorem mark_inaccessible_wraps_counter :
    fullPool.base_frame_no ≤ 8 ∧ 8 + 1 ≤ fullPool.base_frame_no + fullPool.nframes ∧
      fullPool.nFreeFrames = 0 ∧ (fullPool.mark_inaccessible 8 1).nFreeFrames = 4294967295 ∧
      ¬ MarkContract fullPool 8 1 := by
  refine ⟨by decide, by decide, by decide, by decide, ?_⟩
  rintro ⟨_, _, _, h⟩
  revert h
  decide

end ContFramePool

namespace VMPool

/-! ## The virtual-memory pool -/

theorem allocate_base_size (vm : VMPool) (s : Nat) :
    (vm.allocate s).2.base_address = vm.base_address ∧ (vm.allocate s).2.size = vm.size := by
  unfold allocate
  dsimp only
  repeat' split
  all_goals exact ⟨rfl, rfl⟩

theorem release_base_size (vm : VMPool) (a : Nat) :
    (vm.release_regions a).base_address = vm.base_address ∧
      (vm.release_regions a).size = vm.size := by
  unfold release_regions
  split
  · exact ⟨rfl, rfl⟩
  · exact ⟨rfl, rfl⟩

theorem evolves_base_size (vm0 vm : VMPool) (h : Evolves vm0 vm) :
    vm.base_address = vm0.base_address ∧ vm.size = vm0.size := by
  induction h with
  | refl => exact ⟨rfl, rfl⟩
  | allocate vm s _ ih =>
    obtain ⟨h1, h2⟩ := allocate_base_size vm s
    exact ⟨h1.trans ih.1, h2.trans ih.2⟩
  | release vm a _ ih =>
    obtain ⟨h1, h2⟩ := release_base_size vm a
    exact ⟨h1.trans ih.1, h2.trans ih.2⟩

theorem add32_of_lt (x y : Nat) (h : x + y < 4294967296) : add32 x y = x + y := by
  unfold add32
  exact Nat.mod_eq_of_lt h

theorem mul32_of_lt (x y : Nat) (h : x * y < 4294967296) : mul32 x y = x * y := by
  unfold mul32
  exact Nat.mod_eq_of_lt h

theorem emptyPool_evolves_gapPool : Evolves emptyPool gapPool :=
  Evolves.release _ _ 536879104
    (Evolves.allocate _ _ 4096 (Evolves.allocate _ _ 4096 (Evolves.allocate _ _ 8192
      (Evolves.allocate _ _ 4096 (Evolves.refl emptyPool)))))

/-- C18: for a pool whose `base_address + size` does not overflow,
`is_legitimate(a)` is true exactly for `base_address ≤ a < base_address + size`,
and it gives the same answer in every state `allocate` and `release` calls
lead to as in the state they started from. -/
theorem is_legitimate_range (vm0 vm : VMPool) (a : Nat)
    (hno : vm0.base_address + vm0.size < 4294967296) (h : Evolves vm0 vm) :
    (vm.is_legitimate a = true ↔
      vm0.base_address ≤ a ∧ a < vm0.base_address + vm0.size) ∧
    vm.is_legitimate a = vm0.is_legitimate a := by
  obtain ⟨hb, hs⟩ := evolves_base_size vm0 vm h
  unfold is_legitimate
  rw [hb, hs, add32_of_lt _ _ hno]
  refine ⟨?_, rfl⟩
  by_cases hc : a ≥ vm0.base_address ∧ a < vm0.base_address + vm0.size
  · simp [hc]
  · simp [hc]

/-- C18, witness: an address in the unallocated gap of the fragmented pool
(the released second region) is legitimate, as it was in the fresh pool. -/
theorem is_legitimate_range_witness :
    (emptyPool.base_address + emptyPool.size < 4294967296 ∧ Evolves emptyPool gapPool) ∧
      ((gapPool.is_legitimate 536879104 = true ↔
        emptyPool.base_address ≤ 536879104 ∧
          536879104 < emptyPool.base_address + emptyPool.size) ∧
      gapPool.is_legitimate 536879104 = emptyPool.is_legitimate 536879104) :=
  ⟨⟨by decide, emptyPool_evolves_gapPool⟩,
    is_legitimate_range emptyPool gapPool 536879104 (by decide) emptyPool_evolves_gapPool⟩

/-- C19 (as amended): for a pool with no regions whose `base_address + size`
does not overflow and a request `s` whose page-rounded size `r` (the least
multiple of 4096 that is at least `s`) satisfies `4096 + r ≤ size`,
`allocate(s)` returns `base_address + 4096` and the region array becomes the
single region `{base_address + 4096, r}` with region count 1. -/
theorem allocate_first_region (vm : VMPool) (s r : Nat) (hnum : vm.num_of_region = 0)
    (hdiv : r % 4096 = 0) (hge : s ≤ r) (hleast : ∀ m, m % 4096 = 0 → s ≤ m → r ≤ m)
    (hfit : 4096 + r ≤ vm.size) (hno : vm.base_address + vm.size < 4294967296) :
    FirstAllocContract vm s r := by
  have hfr : (if s % PAGE_SIZE ≠ 0 then add32 (s / PAGE_SIZE) 1 else s / PAGE_SIZE) * 4096
      = r := by
    unfold PAGE_SIZE
    by_cases hm : s % 4096 = 0
    · simp only [hm, ne_eq, not_true_eq_false, if_false]
      have h1 := hleast (s / 4096 * 4096) (by omega) (by omega)
      omega
    · simp only [hm, ne_eq, not_false_eq_true, if_true]
      rw [add32_of_lt _ _ (by omega)]
      have h1 := hleast ((s / 4096 + 1) * 4096) (by omega) (by omega)
      omega
  generalize hf : (if s % PAGE_SIZE ≠ 0 then add32 (s / PAGE_SIZE) 1 else s / PAGE_SIZE) = frames
    at hfr
  have hmul : mul32 frames PAGE_SIZE = r := by
    unfold PAGE_SIZE
    rw [mul32_of_lt _ _ (by omega)]
    exact hfr
  have hb : add32 vm.base_address PAGE_SIZE = vm.base_address + 4096 := by
    unfold PAGE_SIZE
    exact add32_of_lt _ _ (by omega)
  have hcheck : ¬ (add32 (vm.base_address + 4096) r > add32 vm.base_address vm.size) := by
    rw [add32_of_lt _ _ hno, add32_of_lt _ _ (by omega)]
    omega
  unfold FirstAllocContract allocate
  simp only [hnum, hf, if_true, hcheck, if_false, hmul, hb]
  simp [set_region]

/-- C19, witness: 5000 bytes asked of the empty 256 MB pool round to two
pages. -/
theorem allocate_first_region_witness :
    (emptyPool.num_of_region = 0 ∧ 4096 + 8192 ≤ emptyPool.size ∧
      emptyPool.base_address + emptyPool.size < 4294967296) ∧
      FirstAllocContract emptyPool 5000 8192 :=
  ⟨⟨by decide, by decide, by decide⟩,
    allocate_first_region emptyPool 5000 8192 (by decide) (by decide) (by decide)
      (fun m h1 h2 => by omega) (by decide) (by decide)⟩

/-- C19, counterexample: the pool over the top gigabyte has no regions and
room for one page, but its `base_address + size` wraps to 0, so `allocate(4096)`
takes the out-of-range exit and returns 0. -/
theorem allocate_first_region_fails_at_top :
    topPool.num_of_region = 0 ∧ 4096 + 4096 ≤ topPool.size ∧
      (topPool.allocate 4096).1 = 0 ∧ (topPool.allocate 4096).2.num_of_region = 0 ∧
      ¬ FirstAllocContract topPool 4096 4096 := by
  refine ⟨by decide, by decide, by decide, by decide, ?_⟩
  rintro ⟨h, _⟩
  revert h
  decide

/-- C20, the failing input evaluated: after allocations of one, two, one and
one page and the release of the second region, `allocate(4096)` goes into the
gap; the reachable pool then holds four regions of which the third and the
fourth are the same region, and the region that was last is gone. -/
theorem allocate_into_gap_duplicates_region :
    Reachable (gapPool.allocate 4096).2 ∧
      (gapPool.allocate 4096).2.num_of_region = 4 ∧
      (gapPool.allocate 4096).2.region_array 2 =
        { start_address := 536887296, size := 4096 } ∧
      (gapPool.allocate 4096).2.region_array 3 =
        { start_address := 536887296, size := 4096 } ∧
      gapPool.region_array 2 = { start_address := 536891392, size := 4096 } ∧
      ¬ RegionInvariant (gapPool.allocate 4096).2 := by
  refine ⟨⟨_, _, _, _, Evolves.allocate _ _ 4096 emptyPool_evolves_gapPool⟩,
    by decide, by decide, by decide, by decide, ?_⟩
  rintro ⟨h, _⟩
  have h1 := h 2 3 (by decide) (by decide)
  revert h1
  decide

end VMPool

/-! ## Address arithmetic of the page table code -/

theorem or_three (x : Nat) (h : x % 4096 = 0) : x ||| 3 = x + 3 := by
  have e : x = 2 ^ 12 * (x / 4096) := by norm_num; omega
  have h3 : (3 : Nat) < 2 ^ 12 := by norm_num
  rw [e, ← Nat.mul_add_lt_is_or h3]

theorem table_pointer (p : Nat) (hp : p < 1024) :
    4290772992 ||| (p <<< 12) = 4290772992 + p * 4096 := by
  have e : (4290772992 : Nat) = 2 ^ 22 * 1023 := by norm_num
  have hb : p * 2 ^ 12 < 2 ^ 22 := by norm_num; omega
  rw [Nat.shiftLeft_eq, e, ← Nat.mul_add_lt_is_or hb]
  norm_num

theorem pde_offset_eq (a : Nat) : a >>> 22 = a / 4194304 := by
  rw [Nat.shiftRight_eq_div_pow]

theorem pte_offset_eq (a : Nat) : (a >>> 12) &&& 1023 = a / 4096 % 1024 := by
  have e : (1023 : Nat) = 2 ^ 10 - 1 := by norm_num
  rw [e, Nat.and_pow_two_sub_one_eq_mod, Nat.shiftRight_eq_div_pow]

theorem zero_or_two : (0 : Nat) ||| 2 = 2 := by decide

namespace System

@[simp] theorem set_word_mem (s : System) (pa v a : Nat) :
    (s.set_word pa v).mem a = if a = pa then v else s.mem a := rfl

@[simp] theorem set_word_cr0 (s : System) (pa v : Nat) : (s.set_word pa v).cr0 = s.cr0 := rfl

@[simp] theorem set_word_cr3 (s : System) (pa v : Nat) : (s.set_word pa v).cr3 = s.cr3 := rfl

@[simp] theorem set_word_pools (s : System) (pa v : Nat) :
    (s.set_word pa v).frame_pools = s.frame_pools := rfl

@[simp] theorem set_word_process (s : System) (pa v : Nat) :
    (s.set_word pa v).process_mem_pool = s.process_mem_pool := rfl

@[simp] theorem set_word_enabled (s : System) (pa v : Nat) :
    (s.set_word pa v).paging_enabled = s.paging_enabled := rfl

@[simp] theorem set_word_current (s : System) (pa v : Nat) :
    (s.set_word pa v).current_page_table = s.current_page_table := rfl

@[simp] theorem set_word_vm (s : System) (pa v : Nat) :
    (s.set_word pa v).vm_pool_head = s.vm_pool_head := rfl

theorem translate_off (s : System) (la : Nat) (h : s.cr0.testBit 31 = false) :
    s.translate la = Except.ok la := by
  unfold translate
  simp only [h, if_true]

/-- Translation with paging enabled when both entries are present. -/
theorem translate_on (s : System) (D la : Nat) (hpg : s.cr0.testBit 31 = true)
    (hcr3 : s.cr3 = D) (hD : D % 4096 = 0)
    (h1 : s.mem (D + 4 * (la / 4194304)) % 2 = 1)
    (h2 : s.mem (s.mem (D + 4 * (la / 4194304)) / 4096 * 4096 + 4 * (la / 4096 % 1024)) % 2
      = 1) :
    s.translate la =
      Except.ok (s.mem (s.mem (D + 4 * (la / 4194304)) / 4096 * 4096 +
        4 * (la / 4096 % 1024)) / 4096 * 4096 + la % 4096) := by
  have hD2 : s.cr3 / 4096 * 4096 = D := by rw [hcr3]; omega
  unfold translate
  simp only [hpg, hD2]
  have e1 : ¬ s.mem (D + 4 * (la / 4194304)) % 2 = 0 := by omega
  have e2 : ¬ s.mem (s.mem (D + 4 * (la / 4194304)) / 4096 * 4096 +
      4 * (la / 4096 % 1024)) % 2 = 0 := by omega
  simp [e1, e2]

/-- Through the self-map, entry `i` of the array at `0xFFFFF000` is entry `i`
of the page directory. -/
theorem translate_directory (s : System) (D i : Nat) (h : SelfMapped s D) (hi : i < 1024) :
    s.translate (4294963200 + 4 * i) = Except.ok (D + 4 * i) := by
  obtain ⟨hpg, hcr3, hD, hself⟩ := h
  rw [or_three D hD] at hself
  have a1 : (4294963200 + 4 * i) / 4194304 = 1023 := by omega
  have a2 : (4294963200 + 4 * i) / 4096 % 1024 = 1023 := by omega
  have a3 : (4294963200 + 4 * i) % 4096 = 4 * i := by omega
  have b1 : (D + 3) / 4096 * 4096 = D := by omega
  have h := translate_on s D (4294963200 + 4 * i) hpg hcr3 hD
    (by rw [a1, hself]; omega) (by rw [a1, hself, b1, a2, hself]; omega)
  rw [h, a1, hself, b1, a2, hself, b1, a3]

/-- Through the self-map, entry `i` of the array at `0xFFC00000 + p * 4096` is
entry `i` of the frame the directory entry `p` points to, when that entry is
present. -/
theorem translate_table (s : System) (D p i : Nat) (h : SelfMapped s D) (hp : p < 1024)
    (hi : i < 1024) (hpres : s.mem (D + 4 * p) % 2 = 1) :
    s.translate (4290772992 + p * 4096 + 4 * i) =
      Except.ok (s.mem (D + 4 * p) / 4096 * 4096 + 4 * i) := by
  obtain ⟨hpg, hcr3, hD, hself⟩ := h
  rw [or_three D hD] at hself
  have a1 : (4290772992 + p * 4096 + 4 * i) / 4194304 = 1023 := by omega
  have a2 : (4290772992 + p * 4096 + 4 * i) / 4096 % 1024 = p := by omega
  have a3 : (4290772992 + p * 4096 + 4 * i) % 4096 = 4 * i := by omega
  have b1 : (D + 3) / 4096 * 4096 = D := by omega
  have h := translate_on s D (4290772992 + p * 4096 + 4 * i) hpg hcr3 hD
    (by rw [a1, hself]; omega) (by rw [a1, hself, b1, a2]; exact hpres)
  rw [h, a1, hself, b1, a2, a3]

/-- Through the self-map, the array at `0xFFC00000 + p * 4096` cannot be
reached when the directory entry `p` is not present. -/
theorem translate_table_absent (s : System) (D p i : Nat) (h : SelfMapped s D) (hp : p < 1024)
    (hi : i < 1024) (habs : s.mem (D + 4 * p) % 2 = 0) :
    s.translate (4290772992 + p * 4096 + 4 * i) =
      Except.error (Stop.page_fault (4290772992 + p * 4096 + 4 * i)) := by
  obtain ⟨hpg, hcr3, hD, hself⟩ := h
  rw [or_three D hD] at hself
  have a1 : (4290772992 + p * 4096 + 4 * i) / 4194304 = 1023 := by omega
  have a2 : (4290772992 + p * 4096 + 4 * i) / 4096 % 1024 = p := by omega
  have b1 : (D + 3) / 4096 * 4096 = D := by omega
  have hD2 : s.cr3 / 4096 * 4096 = D := by rw [hcr3]; omega
  unfold translate
  simp only [hpg, hD2, a1, hself, b1, a2, habs]
  have e1 : ¬ (D + 3) % 2 = 0 := by omega
  simp [e1]

end System

namespace System

/-! ## `handle_fault` -/

theorem sameControl_refl (s : System) : SameControl s s :=
  ⟨rfl, rfl, rfl, rfl, rfl, rfl, rfl, rfl⟩

theorem sameControl_trans {s t u : System} (h1 : SameControl s t) (h2 : SameControl t u) :
    SameControl s u :=
  ⟨h2.cr0.trans h1.cr0, h2.cr3.trans h1.cr3, h2.current.trans h1.current,
    h2.enabled.trans h1.enabled, h2.kernel.trans h1.kernel, h2.process.trans h1.process,
    h2.shared.trans h1.shared, h2.vm.trans h1.vm⟩

theorem sameControl_set_word (s : System) (pa v : Nat) : SameControl s (s.set_word pa v) :=
  ⟨rfl, rfl, rfl, rfl, rfl, rfl, rfl, rfl⟩

/-- The legitimacy loop leaves with `legit = 1` or with `curr` at the end of
the list: the condition of the assertion never holds. -/
theorem legit_walk_exit (pools : List VMPool) (a : Nat) :
    ¬ ((legit_walk pools a).1 = 0 ∧ (legit_walk pools a).2.isEmpty = false) := by
  induction pools with
  | nil =>
    rintro ⟨_, h⟩
    simp [legit_walk] at h
  | cons c rest ih =>
    unfold legit_walk
    by_cases hc : c.is_legitimate a = true
    · simp [hc]
    · simp only [hc, if_false]
      exact ih

theorem load_word_of_translate (s : System) (la pa : Nat) (h : s.translate la = Except.ok pa) :
    s.load_word la = Except.ok (s.mem pa) := by
  unfold load_word
  rw [h]

theorem store_word_of_translate (s : System) (la pa v : Nat)
    (h : s.translate la = Except.ok pa) :
    s.store_word la v = Except.ok (s.set_word pa v) := by
  unfold store_word
  rw [h]

theorem selfMapped_of_same (s t : System) (D : Nat) (h : SelfMapped s D) (hc : SameControl s t)
    (hm : t.mem (D + 4 * 1023) = s.mem (D + 4 * 1023)) : SelfMapped t D :=
  ⟨hc.cr0 ▸ h.1, hc.cr3.trans h.2.1, h.2.2.1, hm.trans h.2.2.2⟩

/-- The loop that marks the 1024 entries of the table behind directory entry
`p` not present, run through the self-map. -/
theorem clear_table_loop (s : System) (D p T : Nat) (hs : SelfMapped s D) (hp : p < 1024)
    (hent : s.mem (D + 4 * p) = T + 3) (hT : T % 4096 = 0) (hTD : T ≠ D) :
    ∃ t, forLoop 0 1024
        (fun i r =>
          match r with
          | Except.error e => Except.error e
          | Except.ok st => store_word st (4290772992 + p * 4096 + 4 * i) (0 ||| 2))
        (Except.ok s) = Except.ok t ∧
      SameControl s t ∧ t.frame_pools = s.frame_pools ∧
      (∀ i, i < 1024 → t.mem (T + 4 * i) = 2) ∧
      (∀ x, (∀ i, i < 1024 → x ≠ T + 4 * i) → t.mem x = s.mem x) := by
  have hD := hs.2.2.1
  have key := forLoop_inv 0 1024
    (fun i (r : Except Stop System) =>
      match r with
      | Except.error e => Except.error e
      | Except.ok st => store_word st (4290772992 + p * 4096 + 4 * i) (0 ||| 2))
    (fun j r => ∃ t, r = Except.ok t ∧ SameControl s t ∧ t.frame_pools = s.frame_pools ∧
      (∀ i, i < j → t.mem (T + 4 * i) = 2) ∧
      (∀ x, (∀ i, i < j → x ≠ T + 4 * i) → t.mem x = s.mem x))
    (Except.ok s) (by omega)
    ⟨s, rfl, sameControl_refl s, rfl, fun i hi => by omega, fun x _ => rfl⟩
    (by
      rintro j r _ hj ⟨t, rfl, hc, hpools, hin, hout⟩
      have hm1 : t.mem (D + 4 * 1023) = s.mem (D + 4 * 1023) :=
        hout _ (fun i hi => by omega)
      have hm2 : t.mem (D + 4 * p) = T + 3 := by
        rw [hout _ (fun i hi => by omega)]
        exact hent
      have hst := selfMapped_of_same s t D hs hc hm1
      have htr := translate_table t D p j hst hp hj (by rw [hm2]; omega)
      have hfr : t.mem (D + 4 * p) / 4096 * 4096 = T := by rw [hm2]; omega
      rw [hfr] at htr
      refine ⟨t.set_word (T + 4 * j) 2, ?_, sameControl_trans hc (sameControl_set_word _ _ _),
        hpools, ?_, ?_⟩
      · show store_word t (4290772992 + p * 4096 + 4 * j) (0 ||| 2) = _
        rw [store_word_of_translate t _ _ _ htr, zero_or_two]
      · intro i hi
        rw [set_word_mem]
        by_cases e : i = j
        · simp [e]
        · have : T + 4 * i ≠ T + 4 * j := by omega
          simp only [this, if_false]
          exact hin i (by omega)
      · intro x hx
        rw [set_word_mem]
        have : x ≠ T + 4 * j := hx j (by omega)
        simp only [this, if_false]
        exact hout x (fun i hi => hx i (by omega)))
  obtain ⟨t, ht, h1, h2, h3, h4⟩ := key
  exact ⟨t, ht, h1, h2, h3, h4⟩

end System

namespace System

theorem process_get_frames_eq (s : System) (n : Nat) (pool : ContFramePool)
    (h : s.frame_pools.get? s.process_mem_pool = some pool) :
    s.process_get_frames n = Except.ok ((pool.get_frames n).1,
      { s with frame_pools := s.frame_pools.set s.process_mem_pool (pool.get_frames n).2 }) := by
  unfold process_get_frames
  rw [h]

/-- A fault on an address whose directory entry is not present: whatever the
legitimacy of the address and whatever `get_frames(1)` returns, the returned
number `f` goes into the directory entry and the 1024 words at `f * 4096` are
set to 2. -/
theorem handle_fault_absent (s : System) (D a : Nat) (pool : ContFramePool)
    (hs : SelfMapped s D) (ha : a < 4294967296)
    (hnp : s.mem (D + 4 * (a / 4194304)) % 2 = 0)
    (hpool : s.frame_pools.get? s.process_mem_pool = some pool)
    (hfD : (pool.get_frames 1).1 * 4096 ≠ D) :
    ∃ t, s.handle_fault a = Except.ok t ∧ SameControl s t ∧
      t.frame_pools = s.frame_pools.set s.process_mem_pool (pool.get_frames 1).2 ∧
      t.mem (D + 4 * (a / 4194304)) = ((pool.get_frames 1).1 * 4096) ||| 3 ∧
      (∀ i, i < 1024 → t.mem ((pool.get_frames 1).1 * 4096 + 4 * i) = 2) ∧
      (∀ x, x ≠ D + 4 * (a / 4194304) →
        (∀ i, i < 1024 → x ≠ (pool.get_frames 1).1 * 4096 + 4 * i) → t.mem x = s.mem x) := by
  have hp : a / 4194304 < 1024 := by omega
  have hD := hs.2.2.1
  have hself := hs.2.2.2
  rw [or_three D hD] at hself
  have hp1023 : a / 4194304 ≠ 1023 := by
    intro e
    rw [e, hself] at hnp
    omega
  generalize hf : (pool.get_frames 1).1 = f at hfD ⊢
  generalize hq : a / 4194304 = p at hp hnp hp1023 ⊢
  -- the system after the frame was taken
  have hs1 : SelfMapped
      ({ s with frame_pools := s.frame_pools.set s.process_mem_pool (pool.get_frames 1).2 } :
        System) D := hs
  generalize hg1 : ({ s with
      frame_pools := s.frame_pools.set s.process_mem_pool (pool.get_frames 1).2 } : System) = s1
    at hs1
  have hc1 : SameControl s s1 := by rw [← hg1]; exact ⟨rfl, rfl, rfl, rfl, rfl, rfl, rfl, rfl⟩
  have hm1 : s1.mem = s.mem := by rw [← hg1]
  have hp1 : s1.frame_pools = s.frame_pools.set s.process_mem_pool (pool.get_frames 1).2 := by
    rw [← hg1]
  -- the two writes of the directory entry
  have hs2 : SelfMapped (s1.set_word (D + 4 * p) (f * 4096)) D :=
    selfMapped_of_same s1 _ D hs1 (sameControl_set_word _ _ _) (by
      rw [set_word_mem]
      have : D + 4 * 1023 ≠ D + 4 * p := by omega
      simp only [this, if_false])
  have hs3 : SelfMapped ((s1.set_word (D + 4 * p) (f * 4096)).set_word (D + 4 * p)
      (f * 4096 ||| 3)) D :=
    selfMapped_of_same _ _ D hs2 (sameControl_set_word _ _ _) (by
      rw [set_word_mem]
      have : D + 4 * 1023 ≠ D + 4 * p := by omega
      simp only [this, if_false])
  have hor : f * 4096 ||| 3 = f * 4096 + 3 := or_three _ (by omega)
  obtain ⟨t, ht, hct, hpt, hin, hout⟩ := clear_table_loop
    ((s1.set_word (D + 4 * p) (f * 4096)).set_word (D + 4 * p) (f * 4096 ||| 3)) D p (f * 4096)
    hs3 hp (by rw [set_word_mem]; simp [hor]) (by omega) hfD
  refine ⟨t, ?_, ?_, ?_, ?_, hin, ?_⟩
  · unfold handle_fault
    have hw := legit_walk_exit s.vm_pool_head a
    simp only [hw, if_false, pde_offset_eq, hq, table_pointer p hp,
      load_word_of_translate s _ _ (translate_directory s D p hs hp), Nat.and_one_is_mod, hnp,
      if_true, process_get_frames_eq s 1 pool hpool, hf, hg1, PAGE_SIZE,
      store_word_of_translate s1 _ _ _ (translate_directory s1 D p hs1 hp),
      load_word_of_translate _ _ _ (translate_directory _ D p hs2 hp),
      store_word_of_translate _ _ _ _ (translate_directory _ D p hs2 hp), set_word_mem]
    exact ht
  · exact sameControl_trans hc1 (sameControl_trans (sameControl_set_word _ _ _)
      (sameControl_trans (sameControl_set_word _ _ _) hct))
  · rw [hpt]
    exact hp1
  · rw [hout _ (fun i hi => by omega), set_word_mem]
    simp
  · intro x hx1 hx2
    rw [hout x hx2, set_word_mem, set_word_mem, hm1]
    simp [hx1]

end System

namespace System

/-- A fault on an address whose directory entry is present: the number `f`
returned by `get_frames(1)` goes into the table entry, whatever the entry
held, provided the write does not hit one of the two directory words the
self-map translation of the table reads. -/
theorem handle_fault_present (s : System) (D a : Nat) (pool : ContFramePool)
    (hs : SelfMapped s D) (ha : a < 4294967296)
    (hpres : s.mem (D + 4 * (a / 4194304)) % 2 = 1)
    (hpool : s.frame_pools.get? s.process_mem_pool = some pool)
    (h1 : s.mem (D + 4 * (a / 4194304)) / 4096 * 4096 + 4 * (a / 4096 % 1024) ≠ D + 4 * 1023)
    (h2 : s.mem (D + 4 * (a / 4194304)) / 4096 * 4096 + 4 * (a / 4096 % 1024) ≠
      D + 4 * (a / 4194304)) :
    ∃ t, s.handle_fault a = Except.ok t ∧ SameControl s t ∧
      t.frame_pools = s.frame_pools.set s.process_mem_pool (pool.get_frames 1).2 ∧
      t.mem (s.mem (D + 4 * (a / 4194304)) / 4096 * 4096 + 4 * (a / 4096 % 1024)) =
        ((pool.get_frames 1).1 * 4096) ||| 3 ∧
      (∀ x, x ≠ s.mem (D + 4 * (a / 4194304)) / 4096 * 4096 + 4 * (a / 4096 % 1024) →
        t.mem x = s.mem x) := by
  have hp : a / 4194304 < 1024 := by omega
  have hq : a / 4096 % 1024 < 1024 := by omega
  generalize hf : (pool.get_frames 1).1 = f
  generalize hpe : a / 4194304 = p at hp hpres h1 h2 ⊢
  generalize hqe : a / 4096 % 1024 = q at hq h1 h2 ⊢
  generalize hT : s.mem (D + 4 * p) / 4096 * 4096 = T at h1 h2 ⊢
  have hs1 : SelfMapped
      ({ s with frame_pools := s.frame_pools.set s.process_mem_pool (pool.get_frames 1).2 } :
        System) D := hs
  generalize hg1 : ({ s with
      frame_pools := s.frame_pools.set s.process_mem_pool (pool.get_frames 1).2 } : System) = s1
    at hs1
  have hc1 : SameControl s s1 := by rw [← hg1]; exact ⟨rfl, rfl, rfl, rfl, rfl, rfl, rfl, rfl⟩
  have hm1 : s1.mem = s.mem := by rw [← hg1]
  have hp1 : s1.frame_pools = s.frame_pools.set s.process_mem_pool (pool.get_frames 1).2 := by
    rw [← hg1]
  have hT1 : s1.mem (D + 4 * p) / 4096 * 4096 = T := by rw [hm1]; exact hT
  have htr1 := translate_table s1 D p q hs1 hp hq (by rw [hm1]; exact hpres)
  rw [hT1] at htr1
  have hs2 : SelfMapped (s1.set_word (T + 4 * q) (f * 4096)) D :=
    selfMapped_of_same s1 _ D hs1 (sameControl_set_word _ _ _) (by
      rw [set_word_mem]
      have : D + 4 * 1023 ≠ T + 4 * q := fun e => h1 e.symm
      simp only [this, if_false])
  have hm2 : (s1.set_word (T + 4 * q) (f * 4096)).mem (D + 4 * p) = s.mem (D + 4 * p) := by
    rw [set_word_mem, hm1]
    have : D + 4 * p ≠ T + 4 * q := fun e => h2 e.symm
    simp only [this, if_false]
  have htr2 := translate_table (s1.set_word (T + 4 * q) (f * 4096)) D p q hs2 hp hq
    (by rw [hm2]; exact hpres)
  rw [hm2, hT] at htr2
  refine ⟨(s1.set_word (T + 4 * q) (f * 4096)).set_word (T + 4 * q) (f * 4096 ||| 3), ?_, ?_,
    ?_, ?_, ?_⟩
  · unfold handle_fault
    have hw := legit_walk_exit s.vm_pool_head a
    have hodd : ¬ s.mem (D + 4 * p) % 2 = 0 := by omega
    simp only [hw, if_false, pde_offset_eq, pte_offset_eq, hpe, hqe, table_pointer p hp,
      load_word_of_translate s _ _ (translate_directory s D p hs hp), Nat.and_one_is_mod, hodd,
      process_get_frames_eq s 1 pool hpool, hf, hg1, PAGE_SIZE,
      store_word_of_translate s1 _ _ _ htr1,
      load_word_of_translate _ _ _ htr2,
      store_word_of_translate _ _ _ _ htr2, set_word_mem, if_true]
  · exact sameControl_trans hc1 (sameControl_trans (sameControl_set_word _ _ _)
      (sameControl_set_word _ _ _))
  · exact hp1
  · simp
  · intro x hx
    rw [set_word_mem, set_word_mem, hm1]
    simp [hx]

/-! ## `free_page` -/

/-- The table entry of `free_page(a)` is present: the frame it names is
released, the entry is set to 2 and the page table `pt` is loaded. -/
theorem free_page_present (pt : PageTable) (s : System) (D a : Nat)
    (pools : List ContFramePool) (hs : SelfMapped s D) (ha : a < 4294967296)
    (hdir : s.mem (D + 4 * (a / 4194304)) % 2 = 1)
    (hent : s.mem (s.mem (D + 4 * (a / 4194304)) / 4096 * 4096 + 4 * (a / 4096 % 1024)) % 2 = 1)
    (hrel : ContFramePool.release_frames s.frame_pools
      (s.mem (s.mem (D + 4 * (a / 4194304)) / 4096 * 4096 + 4 * (a / 4096 % 1024)) / 4096) =
        some pools) :
    s.free_page pt a = Except.ok (load pt
      (({ s with frame_pools := pools } : System).set_word
        (s.mem (D + 4 * (a / 4194304)) / 4096 * 4096 + 4 * (a / 4096 % 1024)) 2)) := by
  have hp : a / 4194304 < 1024 := by omega
  have hq : a / 4096 % 1024 < 1024 := by omega
  have htr := translate_table s D _ _ hs hp hq hdir
  have hs1 : SelfMapped ({ s with frame_pools := pools } : System) D := hs
  have htr1 := translate_table ({ s with frame_pools := pools } : System) D _ _ hs1 hp hq hdir
  unfold free_page
  simp only [pde_offset_eq, pte_offset_eq, table_pointer _ hp,
    load_word_of_translate s _ _ htr, Nat.and_one_is_mod, hent, if_true, PAGE_SIZE, hrel,
    store_word_of_translate _ _ _ _ htr1]

/-- The table entry of `free_page(a)` is not present: nothing changes. -/
theorem free_page_not_present (pt : PageTable) (s : System) (D a : Nat)
    (hs : SelfMapped s D) (ha : a < 4294967296)
    (hdir : s.mem (D + 4 * (a / 4194304)) % 2 = 1)
    (hent : s.mem (s.mem (D + 4 * (a / 4194304)) / 4096 * 4096 + 4 * (a / 4096 % 1024)) % 2 = 0) :
    s.free_page pt a = Except.ok s := by
  have hp : a / 4194304 < 1024 := by omega
  have hq : a / 4096 % 1024 < 1024 := by omega
  have htr := translate_table s D _ _ hs hp hq hdir
  have hne : ¬ (0 = 1) := by decide
  unfold free_page
  simp only [pde_offset_eq, pte_offset_eq, table_pointer _ hp,
    load_word_of_translate s _ _ htr, Nat.and_one_is_mod, hent, hne, if_false]

/-- The directory entry of `free_page(a)` is not present: the read of the
table entry through the self-map faults. -/
theorem free_page_no_table (pt : PageTable) (s : System) (D a : Nat)
    (hs : SelfMapped s D) (ha : a < 4294967296)
    (hdir : s.mem (D + 4 * (a / 4194304)) % 2 = 0) :
    s.free_page pt a = Except.error
      (Stop.page_fault (4290772992 + a / 4194304 * 4096 + 4 * (a / 4096 % 1024))) := by
  have hp : a / 4194304 < 1024 := by omega
  have hq : a / 4096 % 1024 < 1024 := by omega
  have htr := translate_table_absent s D _ _ hs hp hq hdir
  unfold free_page
  simp only [pde_offset_eq, pte_offset_eq, table_pointer _ hp]
  unfold load_word
  rw [htr]

/-- The present entry of `free_page(a)` names a frame of no registered pool:
`release_frames` dereferences the null pointer. -/
theorem free_page_no_pool (pt : PageTable) (s : System) (D a : Nat)
    (hs : SelfMapped s D) (ha : a < 4294967296)
    (hdir : s.mem (D + 4 * (a / 4194304)) % 2 = 1)
    (hent : s.mem (s.mem (D + 4 * (a / 4194304)) / 4096 * 4096 + 4 * (a / 4096 % 1024)) % 2 = 1)
    (hrel : ContFramePool.release_frames s.frame_pools
      (s.mem (s.mem (D + 4 * (a / 4194304)) / 4096 * 4096 + 4 * (a / 4096 % 1024)) / 4096) =
        none) :
    s.free_page pt a = Except.error Stop.null_pointer := by
  have hp : a / 4194304 < 1024 := by omega
  have hq : a / 4096 % 1024 < 1024 := by omega
  have htr := translate_table s D _ _ hs hp hq hdir
  unfold free_page
  simp only [pde_offset_eq, pte_offset_eq, table_pointer _ hp,
    load_word_of_translate s _ _ htr, Nat.and_one_is_mod, hent, if_true, PAGE_SIZE, hrel]

end System

namespace System

/-! ## What every run of the operations keeps -/

theorem translate_no_assert (s : System) (la : Nat) :
    s.translate la ≠ Except.error Stop.assert_failed := by
  unfold translate
  split
  · intro h; cases h
  · dsimp only
    split
    · intro h; cases h
    · split
      · intro h; cases h
      · intro h; cases h

theorem store_word_ok (s t : System) (la v : Nat) (h : s.store_word la v = Except.ok t) :
    ∃ pa, t = s.set_word pa v := by
  unfold store_word at h
  split at h
  · rename_i pa _
    exact ⟨pa, by cases h; rfl⟩
  · cases h

theorem store_word_same (s t : System) (la v : Nat) (h : s.store_word la v = Except.ok t) :
    SameControl s t ∧ t.frame_pools = s.frame_pools := by
  obtain ⟨pa, rfl⟩ := store_word_ok s t la v h
  exact ⟨sameControl_set_word _ _ _, rfl⟩

theorem store_word_no_assert (s : System) (la v : Nat) :
    s.store_word la v ≠ Except.error Stop.assert_failed := by
  unfold store_word
  split
  · intro h; cases h
  · rename_i e he
    intro h
    cases h
    exact translate_no_assert s la he

theorem load_word_no_assert (s : System) (la : Nat) :
    s.load_word la ≠ Except.error Stop.assert_failed := by
  unfold load_word
  split
  · intro h; cases h
  · rename_i e he
    intro h
    cases h
    exact translate_no_assert s la he

theorem process_get_frames_same (s t : System) (n f : Nat)
    (h : s.process_get_frames n = Except.ok (f, t)) :
    SameControl s t ∧ t.mem = s.mem := by
  unfold process_get_frames at h
  split at h
  · cases h
  · cases h
    exact ⟨⟨rfl, rfl, rfl, rfl, rfl, rfl, rfl, rfl⟩, rfl⟩

theorem process_get_frames_no_assert (s : System) (n : Nat) :
    s.process_get_frames n ≠ Except.error Stop.assert_failed := by
  unfold process_get_frames
  split
  · intro h; cases h
  · intro h; cases h

theorem error_case (s : System) (e : Stop) (h : e ≠ Stop.assert_failed) :
    (∀ t, (Except.error e : Except Stop System) = Except.ok t → SameControl s t) ∧
    (Except.error e : Except Stop System) ≠ Except.error Stop.assert_failed :=
  ⟨fun t ht => (by cases ht), fun he => (by cases he; exact h rfl)⟩

/-- A loop of stores keeps the control state and never fails an assertion. -/
theorem store_loop_same (g : Nat → Nat) (v lo hi : Nat) (hle : lo ≤ hi) (s : System) :
    (∀ t, forLoop lo hi
        (fun i (r : Except Stop System) =>
          match r with
          | Except.error e => Except.error e
          | Except.ok st => store_word st (g i) v)
        (Except.ok s) = Except.ok t → SameControl s t ∧ t.frame_pools = s.frame_pools) ∧
    forLoop lo hi
        (fun i (r : Except Stop System) =>
          match r with
          | Except.error e => Except.error e
          | Except.ok st => store_word st (g i) v)
        (Except.ok s) ≠ Except.error Stop.assert_failed := by
  refine forLoop_inv lo hi _
    (fun _ r => (∀ t, r = Except.ok t → SameControl s t ∧ t.frame_pools = s.frame_pools) ∧
      r ≠ Except.error Stop.assert_failed)
    (Except.ok s) hle ?_ ?_
  · refine ⟨?_, fun h => by cases h⟩
    intro t ht
    cases ht
    exact ⟨sameControl_refl s, rfl⟩
  · rintro j r _ _ ⟨h1, h2⟩
    cases r with
    | error e =>
      exact ⟨fun t ht => (by cases ht), h2⟩
    | ok st =>
      obtain ⟨hc, hp⟩ := h1 st rfl
      exact ⟨fun t ht =>
        ⟨sameControl_trans hc (store_word_same st t (g j) v ht).1,
          (store_word_same st t (g j) v ht).2.trans hp⟩,
        store_word_no_assert st (g j) v⟩

/-- Every run of `handle_fault` that returns keeps the control state, and no
run of it ends in the assertion failure. -/
theorem handle_fault_same (s : System) (a : Nat) :
    (∀ t, s.handle_fault a = Except.ok t → SameControl s t) ∧
    s.handle_fault a ≠ Except.error Stop.assert_failed := by
  have hw := legit_walk_exit s.vm_pool_head a
  unfold handle_fault
  simp only [hw, if_false]
  cases h0 : s.load_word (4294963200 + 4 * (a >>> 22)) with
  | error e =>
    exact error_case s _ (fun he => load_word_no_assert _ _ (he ▸ h0))
  | ok entry =>
    dsimp only
    by_cases hpres : entry &&& 1 = 0
    · simp only [hpres, if_true]
      cases h1 : s.process_get_frames 1 with
      | error e =>
        exact error_case s _ (fun he => process_get_frames_no_assert _ _ (he ▸ h1))
      | ok r1 =>
        obtain ⟨f, s1⟩ := r1
        obtain ⟨hc1, _⟩ := process_get_frames_same s s1 1 f h1
        dsimp only
        cases h2 : s1.store_word (4294963200 + 4 * (a >>> 22)) (f * PAGE_SIZE) with
        | error e =>
          exact error_case s _ (fun he => store_word_no_assert _ _ _ (he ▸ h2))
        | ok s2 =>
          obtain ⟨hc2, _⟩ := store_word_same _ _ _ _ h2
          dsimp only
          cases h3 : s2.load_word (4294963200 + 4 * (a >>> 22)) with
          | error e =>
            exact error_case s _ (fun he => load_word_no_assert _ _ (he ▸ h3))
          | ok e2 =>
            dsimp only
            cases h4 : s2.store_word (4294963200 + 4 * (a >>> 22)) (e2 ||| 3) with
            | error e =>
              exact error_case s _ (fun he => store_word_no_assert _ _ _ (he ▸ h4))
            | ok s3 =>
              obtain ⟨hc3, _⟩ := store_word_same _ _ _ _ h4
              dsimp only
              obtain ⟨hl1, hl2⟩ := store_loop_same
                (fun i => (4290772992 ||| a >>> 22 <<< 12) + 4 * i) (0 ||| 2) 0 1024
                (by omega) s3
              refine ⟨?_, hl2⟩
              intro t ht
              exact sameControl_trans hc1 (sameControl_trans hc2
                (sameControl_trans hc3 (hl1 t ht).1))
    · simp only [hpres, if_false]
      cases h1 : s.process_get_frames 1 with
      | error e =>
        exact error_case s _ (fun he => process_get_frames_no_assert _ _ (he ▸ h1))
      | ok r1 =>
        obtain ⟨f, s1⟩ := r1
        obtain ⟨hc1, _⟩ := process_get_frames_same s s1 1 f h1
        dsimp only
        cases h2 : s1.store_word ((4290772992 ||| a >>> 22 <<< 12) +
            4 * (a >>> 12 &&& 1023)) (f * PAGE_SIZE) with
        | error e =>
          exact error_case s _ (fun he => store_word_no_assert _ _ _ (he ▸ h2))
        | ok s2 =>
          obtain ⟨hc2, _⟩ := store_word_same _ _ _ _ h2
          dsimp only
          cases h3 : s2.load_word ((4290772992 ||| a >>> 22 <<< 12) +
              4 * (a >>> 12 &&& 1023)) with
          | error e =>
            exact error_case s _ (fun he => load_word_no_assert _ _ (he ▸ h3))
          | ok e2 =>
            dsimp only
            refine ⟨?_, store_word_no_assert _ _ _⟩
            intro t ht
            obtain ⟨hc3, _⟩ := store_word_same _ _ _ _ ht
            exact sameControl_trans hc1 (sameControl_trans hc2 hc3)

/-- Every run of `free_page` that returns keeps the `paging_enabled` flag. -/
theorem free_page_enabled (pt : PageTable) (s t : System) (a : Nat)
    (h : s.free_page pt a = Except.ok t) : t.paging_enabled = s.paging_enabled := by
  unfold free_page at h
  dsimp only at h
  split at h
  · cases h
  · split at h
    · split at h
      · cases h
      · split at h
        · cases h
        · rename_i s2 hs2
          cases h
          obtain ⟨hc, _⟩ := store_word_same _ _ _ _ hs2
          exact hc.enabled
    · cases h
      rfl

end System

namespace System

/-! ## The constructor -/

/-- A loop that stores `val i` at `B + 4 * i` for `lo ≤ i < hi`, when these
pointers translate to themselves throughout. -/
theorem store_loop_identity (s : System) (B lo hi : Nat) (val : Nat → Nat) (hle : lo ≤ hi)
    (htr : ∀ st, SameControl s st →
      (∀ x, (∀ i, lo ≤ i → i < hi → x ≠ B + 4 * i) → st.mem x = s.mem x) →
      ∀ i, lo ≤ i → i < hi → st.translate (B + 4 * i) = Except.ok (B + 4 * i)) :
    ∃ t, forLoop lo hi
        (fun i (r : Except Stop System) =>
          match r with
          | Except.error e => Except.error e
          | Except.ok st => store_word st (B + 4 * i) (val i))
        (Except.ok s) = Except.ok t ∧
      SameControl s t ∧ t.frame_pools = s.frame_pools ∧
      (∀ i, lo ≤ i → i < hi → t.mem (B + 4 * i) = val i) ∧
      (∀ x, (∀ i, lo ≤ i → i < hi → x ≠ B + 4 * i) → t.mem x = s.mem x) := by
  have key := forLoop_inv lo hi
    (fun i (r : Except Stop System) =>
      match r with
      | Except.error e => Except.error e
      | Except.ok st => store_word st (B + 4 * i) (val i))
    (fun j r => ∃ t, r = Except.ok t ∧ SameControl s t ∧ t.frame_pools = s.frame_pools ∧
      (∀ i, lo ≤ i → i < j → t.mem (B + 4 * i) = val i) ∧
      (∀ x, (∀ i, lo ≤ i → i < j → x ≠ B + 4 * i) → t.mem x = s.mem x))
    (Except.ok s) hle
    ⟨s, rfl, sameControl_refl s, rfl, fun i h1 h2 => by omega, fun x _ => rfl⟩
    (by
      rintro j r hj1 hj2 ⟨t, rfl, hc, hpools, hin, hout⟩
      have ht := htr t hc (fun x hx => hout x (fun i h1 h2 => hx i h1 (by omega))) j hj1 hj2
      refine ⟨t.set_word (B + 4 * j) (val j), ?_,
        sameControl_trans hc (sameControl_set_word _ _ _), hpools, ?_, ?_⟩
      · show store_word t (B + 4 * j) (val j) = _
        rw [store_word_of_translate t _ _ _ ht]
      · intro i hi1 hi2
        rw [set_word_mem]
        by_cases e : i = j
        · simp [e]
        · have : B + 4 * i ≠ B + 4 * j := by omega
          simp only [this, if_false]
          exact hin i hi1 (by omega)
      · intro x hx
        rw [set_word_mem]
        have : x ≠ B + 4 * j := hx j hj1 (by omega)
        simp only [this, if_false]
        exact hout x (fun i h1 h2 => hx i h1 (by omega)))
  obtain ⟨t, ht, h1, h2, h3, h4⟩ := key
  exact ⟨t, ht, h1, h2, h3, h4⟩

/-- The first loop of the constructor: entry `i` of the table at `B` becomes
`i * 4096 | 3`. -/
theorem identity_map_loop (s : System) (B : Nat)
    (htr : ∀ st, SameControl s st →
      (∀ x, (∀ i, i < 1024 → x ≠ B + 4 * i) → st.mem x = s.mem x) →
      ∀ i, i < 1024 → st.translate (B + 4 * i) = Except.ok (B + 4 * i)) :
    ∃ t, forLoop 0 1024
        (fun i (r : Except Stop (System × Nat)) =>
          match r with
          | Except.error e => Except.error e
          | Except.ok (st, address) =>
            match store_word st (B + 4 * i) (address ||| 3) with
            | Except.error e => Except.error e
            | Except.ok st1 => Except.ok (st1, address + PAGE_SIZE))
        (Except.ok (s, 0)) = Except.ok (t, 1024 * 4096) ∧
      SameControl s t ∧ t.frame_pools = s.frame_pools ∧
      (∀ i, i < 1024 → t.mem (B + 4 * i) = (i * 4096) ||| 3) ∧
      (∀ x, (∀ i, i < 1024 → x ≠ B + 4 * i) → t.mem x = s.mem x) := by
  have key := forLoop_inv 0 1024
    (fun i (r : Except Stop (System × Nat)) =>
      match r with
      | Except.error e => Except.error e
      | Except.ok (st, address) =>
        match store_word st (B + 4 * i) (address ||| 3) with
        | Except.error e => Except.error e
        | Except.ok st1 => Except.ok (st1, address + PAGE_SIZE))
    (fun j r => ∃ t, r = Except.ok (t, j * 4096) ∧ SameControl s t ∧
      t.frame_pools = s.frame_pools ∧
      (∀ i, i < j → t.mem (B + 4 * i) = (i * 4096) ||| 3) ∧
      (∀ x, (∀ i, i < j → x ≠ B + 4 * i) → t.mem x = s.mem x))
    (Except.ok (s, 0)) (by omega)
    ⟨s, by simp, sameControl_refl s, rfl, fun i h2 => by omega, fun x _ => rfl⟩
    (by
      rintro j r _ hj2 ⟨t, rfl, hc, hpools, hin, hout⟩
      have ht := htr t hc (fun x hx => hout x (fun i h2 => hx i (by omega))) j hj2
      refine ⟨t.set_word (B + 4 * j) ((j * 4096) ||| 3), ?_,
        sameControl_trans hc (sameControl_set_word _ _ _), hpools, ?_, ?_⟩
      · show (match store_word t (B + 4 * j) ((j * 4096) ||| 3) with
          | Except.error e => Except.error e
          | Except.ok st1 => Except.ok (st1, j * 4096 + PAGE_SIZE)) = _
        rw [store_word_of_translate t _ _ _ ht]
        show Except.ok (_, j * 4096 + 4096) = Except.ok (_, (j + 1) * 4096)
        have e : j * 4096 + 4096 = (j + 1) * 4096 := by omega
        rw [e]
      · intro i hi2
        rw [set_word_mem]
        by_cases e : i = j
        · simp [e]
        · have : B + 4 * i ≠ B + 4 * j := by omega
          simp only [this, if_false]
          exact hin i (by omega)
      · intro x hx
        rw [set_word_mem]
        have : x ≠ B + 4 * j := hx j (by omega)
        simp only [this, if_false]
        exact hout x (fun i h2 => hx i (by omega)))
  obtain ⟨t, ht, h1, h2, h3, h4⟩ := key
  exact ⟨t, ht, h1, h2, h3, h4⟩

end System

namespace System

theorem get?_set_same (l : List ContFramePool) (i : Nat) (p q : ContFramePool)
    (h : l.get? i = some p) : (l.set i q).get? i = some q := by
  have hlt : i < l.length := by
    rw [List.get?_eq_getElem?] at h
    exact (List.getElem?_eq_some_iff.mp h).1
  rw [List.get?_eq_getElem?, List.getElem?_set_self hlt]

theorem set_word_mem_same (s : System) (pa v : Nat) : (s.set_word pa v).mem pa = v := by
  rw [set_word_mem]
  simp

/-- The constructor, for pointers into the two new frames that translate to
themselves: the page directory is the frame `d` and the first table the frame
`t` that two calls of `get_frames(1)` return. -/
theorem construct_result (s : System) (pool : ContFramePool) (d t : Nat)
    (hpool : s.frame_pools.get? s.process_mem_pool = some pool)
    (hd : (pool.get_frames 1).1 = d)
    (ht : ((pool.get_frames 1).2.get_frames 1).1 = t)
    (hdt : d ≠ t)
    (hid : ∀ st, SameControl s st →
      (∀ x, x / 4096 ≠ d → x / 4096 ≠ t → st.mem x = s.mem x) →
      ∀ la, (la / 4096 = d ∨ la / 4096 = t) → st.translate la = Except.ok la) :
    ∃ s', s.construct = Except.ok ({ page_directory := d * 4096 }, s') ∧
      (∀ i, i < 1024 → s'.mem (t * 4096 + 4 * i) = (i * 4096) ||| 3) ∧
      s'.mem (d * 4096) = (t * 4096) ||| 3 ∧
      (∀ i, 1 ≤ i → i < 1023 → s'.mem (d * 4096 + 4 * i) = 2) ∧
      s'.mem (d * 4096 + 4 * 1023) = (d * 4096) ||| 3 ∧
      (∀ x, x / 4096 ≠ d → x / 4096 ≠ t → s'.mem x = s.mem x) ∧
      s'.frame_pools =
        s.frame_pools.set s.process_mem_pool ((pool.get_frames 1).2.get_frames 1).2 ∧
      s'.paging_enabled = 0 ∧ s'.cr0 = s.cr0 ∧ s'.cr3 = s.cr3 ∧
      s'.current_page_table = s.current_page_table ∧ s'.vm_pool_head = s.vm_pool_head := by
  -- the two frames
  have hg1 := process_get_frames_eq s 1 pool hpool
  rw [hd] at hg1
  generalize hs1 : ({ s with
      frame_pools := s.frame_pools.set s.process_mem_pool (pool.get_frames 1).2 } : System) = s1
    at hg1
  have hc1 : SameControl s s1 := by rw [← hs1]; exact ⟨rfl, rfl, rfl, rfl, rfl, rfl, rfl, rfl⟩
  have hm1 : s1.mem = s.mem := by rw [← hs1]
  have hpool1 : s1.frame_pools.get? s1.process_mem_pool = some (pool.get_frames 1).2 := by
    rw [← hs1]
    exact get?_set_same _ _ _ _ hpool
  have hp1 : s1.frame_pools.set s1.process_mem_pool ((pool.get_frames 1).2.get_frames 1).2 =
      s.frame_pools.set s.process_mem_pool ((pool.get_frames 1).2.get_frames 1).2 := by
    rw [← hs1]
    exact List.set_set _ _ _ _
  have hg2 := process_get_frames_eq s1 1 _ hpool1
  rw [ht, hp1] at hg2
  generalize hs2 : ({ s1 with
      frame_pools := s.frame_pools.set s.process_mem_pool
        ((pool.get_frames 1).2.get_frames 1).2 } : System) = s2 at hg2
  have hc2 : SameControl s s2 := by
    rw [← hs2]
    exact sameControl_trans hc1 ⟨rfl, rfl, rfl, rfl, rfl, rfl, rfl, rfl⟩
  have hm2 : s2.mem = s.mem := by rw [← hs2]; exact hm1
  have hpl2 : s2.frame_pools =
      s.frame_pools.set s.process_mem_pool ((pool.get_frames 1).2.get_frames 1).2 := by
    rw [← hs2]
  -- the identity mapping in the table
  obtain ⟨s3, hl3, hc3, hpl3, hin3, hout3⟩ := identity_map_loop s2 (t * 4096) (by
    intro st hc hx i hi
    exact hid st (sameControl_trans hc2 hc)
      (fun x h1 h2 => by rw [hx x (fun j hj => by omega), hm2]) _ (Or.inr (by omega)))
  have hmem3 : ∀ x, x / 4096 ≠ t → s3.mem x = s.mem x := by
    intro x hx
    rw [hout3 x (fun j hj => by omega), hm2]
  -- directory entry 0
  have htr3 : ∀ st, SameControl s st →
      (∀ x, x / 4096 ≠ d → x / 4096 ≠ t → st.mem x = s.mem x) →
      ∀ i, i < 1024 → st.translate (d * 4096 + 4 * i) = Except.ok (d * 4096 + 4 * i) :=
    fun st hc hx i hi => hid st hc hx _ (Or.inl (by omega))
  have hcs3 : SameControl s s3 := sameControl_trans hc2 hc3
  have h4 := store_word_of_translate s3 _ _ (t * 4096)
    (htr3 s3 hcs3 (fun x h1 h2 => hmem3 x h2) 0 (by omega))
  have hcs4 : SameControl s (s3.set_word (d * 4096 + 4 * 0) (t * 4096)) :=
    sameControl_trans hcs3 (sameControl_set_word _ _ _)
  have hmem4 : ∀ x, x / 4096 ≠ d → x / 4096 ≠ t →
      (s3.set_word (d * 4096 + 4 * 0) (t * 4096)).mem x = s.mem x := by
    intro x h1 h2
    rw [set_word_mem]
    have : x ≠ d * 4096 + 4 * 0 := by omega
    simp only [this, if_false]
    exact hmem3 x h2
  have htr4 := htr3 _ hcs4 hmem4 0 (by omega)
  have h5 := load_word_of_translate _ _ _ htr4
  rw [set_word_mem] at h5
  simp only [if_true] at h5
  have h6 := store_word_of_translate _ _ _ ((t * 4096) ||| 3) htr4
  generalize hs5 : (s3.set_word (d * 4096 + 4 * 0) (t * 4096)).set_word (d * 4096 + 4 * 0)
    ((t * 4096) ||| 3) = s5 at h6
  have hcs5 : SameControl s s5 := by
    rw [← hs5]
    exact sameControl_trans hcs4 (sameControl_set_word _ _ _)
  have hmem5 : ∀ x, x ≠ d * 4096 → s5.mem x = s3.mem x := by
    intro x hx
    rw [← hs5, set_word_mem, set_word_mem]
    have : x ≠ d * 4096 + 4 * 0 := by omega
    simp only [this, if_false]
  have hmem5d : s5.mem (d * 4096) = (t * 4096) ||| 3 := by
    rw [← hs5, set_word_mem]
    simp
  have hpl5 : s5.frame_pools = s3.frame_pools := by rw [← hs5]; rfl
  -- the other directory entries
  obtain ⟨s6, hl6, hc6, hpl6, hin6, hout6⟩ := store_loop_identity s5 (d * 4096) 1 1023
    (fun _ => 0 ||| 2) (by omega) (by
    intro st hc hx i hi1 hi2
    refine htr3 st (sameControl_trans hcs5 hc) ?_ i (by omega)
    intro x h1 h2
    rw [hx x (fun j _ _ => by omega), hmem5 x (by omega)]
    exact hmem3 x h2)
  have hcs6 : SameControl s s6 := sameControl_trans hcs5 hc6
  have hmem6 : ∀ x, x / 4096 ≠ d → x / 4096 ≠ t → s6.mem x = s.mem x := by
    intro x h1 h2
    rw [hout6 x (fun j _ _ => by omega), hmem5 x (by omega)]
    exact hmem3 x h2
  have h7 := store_word_of_translate s6 _ _ ((d * 4096) ||| 3)
    (htr3 s6 hcs6 hmem6 1023 (by omega))
  generalize hA : d * 4096 + 4 * 1023 = A at h7
  generalize hV : (d * 4096) ||| 3 = V at h7
  have hfin : ∀ x, ({ s6.set_word A V with paging_enabled := 0 } : System).mem x =
      if x = A then V else s6.mem x := fun _ => rfl
  refine ⟨{ s6.set_word A V with paging_enabled := 0 },
    ?_, ?_, ?_, ?_, ?_, ?_, ?_, rfl, hcs6.cr0, hcs6.cr3, hcs6.current, hcs6.vm⟩
  · have hl3b := hl3
    simp only [PAGE_SIZE] at hl3b
    unfold construct
    simp only [hg1, hg2, PAGE_SIZE, hl3b, h4, h5, h6, hl6, hA, hV, h7]
  · intro i hi
    rw [hfin]
    have e1 : t * 4096 + 4 * i ≠ A := by omega
    simp only [e1, if_false]
    rw [hout6 _ (fun j _ _ => by omega), hmem5 _ (by omega)]
    exact hin3 i hi
  · rw [hfin]
    have e1 : d * 4096 ≠ A := by omega
    simp only [e1, if_false]
    rw [hout6 _ (fun j _ _ => by omega)]
    exact hmem5d
  · intro i hi1 hi2
    rw [hfin]
    have e1 : d * 4096 + 4 * i ≠ A := by omega
    simp only [e1, if_false]
    rw [hin6 i hi1 hi2]
    exact zero_or_two
  · rw [hfin]
    simp
  · intro x h1 h2
    rw [hfin]
    have e1 : x ≠ A := by omega
    simp only [e1, if_false]
    exact hmem6 x h1 h2
  · show s6.frame_pools = _
    rw [hpl6, hpl5, hpl3, hpl2]

end System

namespace System

/-! ## Concrete systems -/

theorem bootWith_selfMapped (pool : ContFramePool) (vms : List VMPool) :
    SelfMapped (bootWith pool vms) 4096 :=
  ⟨(by show (0 ||| 2147483648 : Nat).testBit 31 = true; decide), rfl, (by decide),
    (by show bootMem (4096 + 4 * 1023) = 4096 ||| 3; decide)⟩

theorem bootWith_pool (pool : ContFramePool) (vms : List VMPool) :
    (bootWith pool vms).frame_pools.get? (bootWith pool vms).process_mem_pool = some pool :=
  rfl

end System

namespace System

theorem fault_on_absent_directory (pool : ContFramePool) (vms : List VMPool)
    (hf : (pool.get_frames 1).1 * 4096 ≠ 4096) :
    ∃ t, (bootWith pool vms).handle_fault 1073741824 = Except.ok t ∧
      SameControl (bootWith pool vms) t ∧
      t.frame_pools = [(pool.get_frames 1).2] ∧
      t.mem (4096 + 4 * 256) = ((pool.get_frames 1).1 * 4096) ||| 3 ∧
      (∀ i, i < 1024 → t.mem ((pool.get_frames 1).1 * 4096 + 4 * i) = 2) := by
  obtain ⟨t, h1, h2, h3, h4, h5, _⟩ := handle_fault_absent (bootWith pool vms) 4096 1073741824
    pool (bootWith_selfMapped pool vms) (by decide)
    (by show bootMem (4096 + 4 * (1073741824 / 4194304)) % 2 = 0; decide)
    (bootWith_pool pool vms) hf
  exact ⟨t, h1, h2, h3, h4, h5⟩

/-- C12, the failing input evaluated: no run of `handle_fault` ends in the
assertion failure; on a fault at `0x40000000`, which no registered pool
reports legitimate (empty registry, or a registry holding only the pool over
512 MB to 768 MB), `handle_fault` returns after taking frame 8 from the
process pool and installing it as directory entry 256. -/
theorem illegitimate_fault_allocates :
    (∀ (s : System) (a : Nat), s.handle_fault a ≠ Except.error Stop.assert_failed) ∧
    VMPool.emptyPool.is_legitimate 1073741824 = false ∧
    (twoFramePool.get_frames 1).1 = 8 ∧
    (twoFramePool.get_frames 1).2.nFreeFrames + 1 = twoFramePool.nFreeFrames ∧
    (bootWith twoFramePool []).mem (4096 + 4 * 256) = 0 ∧
    (∃ t, (bootWith twoFramePool []).handle_fault 1073741824 = Except.ok t ∧
      t.frame_pools = [(twoFramePool.get_frames 1).2] ∧
      t.mem (4096 + 4 * 256) = (8 * 4096) ||| 3) ∧
    (∃ t, (bootWith twoFramePool [VMPool.emptyPool]).handle_fault 1073741824 = Except.ok t ∧
      t.frame_pools = [(twoFramePool.get_frames 1).2] ∧
      t.mem (4096 + 4 * 256) = (8 * 4096) ||| 3) := by
  have h8 : (twoFramePool.get_frames 1).1 = 8 := by decide
  refine ⟨fun s a => (handle_fault_same s a).2, by decide, h8, by decide, by decide, ?_, ?_⟩
  · obtain ⟨t, h1, _, h3, h4, _⟩ := fault_on_absent_directory twoFramePool []
      (by rw [h8]; decide)
    rw [h8] at h4
    exact ⟨t, h1, h3, h4⟩
  · obtain ⟨t, h1, _, h3, h4, _⟩ := fault_on_absent_directory twoFramePool [VMPool.emptyPool]
      (by rw [h8]; decide)
    rw [h8] at h4
    exact ⟨t, h1, h3, h4⟩

/-- C13 (as amended): for a system running with paging on a self-mapped
directory at `D` and every faulting address `a` (legitimate or not) whose
directory entry at index `a >> 22` is not present, if `get_frames(1)` on the
process pool succeeds with a frame `f` other than the directory's,
`handle_fault` takes exactly that one frame, sets the directory entry to
`f * 4096 | 3`, sets all 1024 entries of the new table to 2 and leaves every
other directory entry unchanged. -/
theorem handle_fault_new_table (s : System) (D a k : Nat) (pool : ContFramePool)
    (hs : SelfMapped s D) (ha : a < 4294967296)
    (hnp : s.mem (D + 4 * (a >>> 22)) &&& 1 = 0)
    (hpool : s.frame_pools.get? s.process_mem_pool = some pool)
    (hfree : 1 ≤ pool.nFreeFrames) (hk : pool.find_run 1 = some k)
    (hfD : (pool.base_frame_no + k) * 4096 ≠ D) :
    NewTableContract s D a := by
  obtain ⟨hret, _, hr⟩ := ContFramePool.get_frames_found pool 1 k hfree hk
  have hret2 : (pool.get_frames 1).1 = pool.base_frame_no + k := by omega
  rw [pde_offset_eq, Nat.and_one_is_mod] at hnp
  obtain ⟨t, h1, _, h3, h4, h5, h6⟩ := handle_fault_absent s D a pool hs ha hnp hpool
    (by rw [hret2]; exact hfD)
  have hD := hs.2.2.1
  refine ⟨pool, t, hpool, h1, ⟨k, hk, hret2⟩, ?_, h3, ?_, h5, ?_⟩
  · rw [hr.nFree]
    omega
  · rw [pde_offset_eq]
    exact h4
  · intro j hj hne
    rw [pde_offset_eq] at hne
    refine h6 _ (by omega) ?_
    intro i hi
    rw [hret2]
    omega

/-- C13, witness: a fault at `0x40000000` in the booted system with two free
frames. -/
theorem handle_fault_new_table_witness :
    (SelfMapped (bootWith twoFramePool [wholePool]) 4096 ∧
      (bootWith twoFramePool [wholePool]).mem (4096 + 4 * (1073741824 >>> 22)) &&& 1 = 0 ∧
      twoFramePool.find_run 1 = some 0) ∧
      NewTableContract (bootWith twoFramePool [wholePool]) 4096 1073741824 :=
  ⟨⟨bootWith_selfMapped _ _, by decide, by decide⟩,
    handle_fault_new_table (bootWith twoFramePool [wholePool]) 4096 1073741824 0 twoFramePool
      (bootWith_selfMapped _ _) (by decide) (by decide) (bootWith_pool _ _) (by decide)
      (by decide) (by decide)⟩

/-- C13, counterexample: with the process pool exhausted, a fault at the
legitimate address `0x40000000`, whose directory entry is not present, takes
no frame: `get_frames(1)` returns 0, which `handle_fault` installs as the
table's frame. -/
theorem handle_fault_new_table_fails_exhausted :
    wholePool.is_legitimate 1073741824 = true ∧
      (bootWith ContFramePool.fullPool [wholePool]).mem (4096 + 4 * (1073741824 >>> 22)) &&& 1
        = 0 ∧
      ContFramePool.fullPool.get_frames 1 = (0, ContFramePool.fullPool) ∧
      (∃ t, (bootWith ContFramePool.fullPool [wholePool]).handle_fault 1073741824 =
          Except.ok t ∧ t.mem (4096 + 4 * 256) = 3) ∧
      ¬ NewTableContract (bootWith ContFramePool.fullPool [wholePool]) 4096 1073741824 := by
  have hg : ContFramePool.fullPool.get_frames 1 = (0, ContFramePool.fullPool) :=
    ContFramePool.get_frames_short _ 1 (by decide)
  refine ⟨by decide, by decide, hg, ?_, ?_⟩
  · obtain ⟨t, h1, _, _, h4, _⟩ := fault_on_absent_directory ContFramePool.fullPool [wholePool]
      (by rw [hg]; decide)
    rw [hg] at h4
    exact ⟨t, h1, h4⟩
  · rintro ⟨pool, t, hp, _, _, hcount, _⟩
    have e : pool = ContFramePool.fullPool := by
      have := (bootWith_pool ContFramePool.fullPool [wholePool]).symm.trans hp
      exact (Option.some.inj this).symm
    rw [e, hg] at hcount
    have h2 : ContFramePool.fullPool.nFreeFrames + 1 = ContFramePool.fullPool.nFreeFrames :=
      hcount
    omega

end System

namespace System

/-- C14 (as amended): for a system running with paging on a self-mapped
directory at `D` and every faulting address `a` (legitimate or not) whose
directory entry is present and points to a table other than the directory
itself, if `get_frames(1)` on the process pool succeeds with frame `f`,
`handle_fault` takes exactly that one frame and sets the table entry at index
`(a >> 12) & 1023` to `f * 4096 | 3`; every other entry of that table, every
other table and every directory entry are unchanged. -/
theorem handle_fault_new_page (s : System) (D a k : Nat) (pool : ContFramePool)
    (hs : SelfMapped s D) (ha : a < 4294967296)
    (hpres : s.mem (D + 4 * (a >>> 22)) &&& 1 = 1)
    (hTD : s.mem (D + 4 * (a >>> 22)) / 4096 * 4096 ≠ D)
    (hpool : s.frame_pools.get? s.process_mem_pool = some pool)
    (hfree : 1 ≤ pool.nFreeFrames) (hk : pool.find_run 1 = some k) :
    NewPageContract s D a := by
  obtain ⟨hret, _, hr⟩ := ContFramePool.get_frames_found pool 1 k hfree hk
  have hret2 : (pool.get_frames 1).1 = pool.base_frame_no + k := by omega
  have hD := hs.2.2.1
  rw [pde_offset_eq, Nat.and_one_is_mod] at hpres
  rw [pde_offset_eq] at hTD
  obtain ⟨t, h1, _, h3, h4, h5⟩ := handle_fault_present s D a pool hs ha hpres hpool
    (by omega) (by omega)
  refine ⟨pool, t, hpool, h1, ⟨k, hk, hret2⟩, ?_, h3, ?_, ?_, ?_⟩
  · rw [hr.nFree]
    omega
  · rw [pde_offset_eq, pte_offset_eq]
    exact h4
  · rw [pde_offset_eq, pte_offset_eq]
    exact h5
  · intro j hj
    exact h5 _ (by omega)

/-- C14, witness: a fault at page 5, whose table (directory entry 0) is
present, in the booted system with two free frames. -/
theorem handle_fault_new_page_witness :
    (SelfMapped (bootWith twoFramePool [wholePool]) 4096 ∧
      (bootWith twoFramePool [wholePool]).mem (4096 + 4 * (20480 >>> 22)) &&& 1 = 1 ∧
      (bootWith twoFramePool [wholePool]).mem (4096 + 4 * (20480 >>> 22)) / 4096 * 4096
        ≠ 4096 ∧
      twoFramePool.find_run 1 = some 0) ∧
      NewPageContract (bootWith twoFramePool [wholePool]) 4096 20480 :=
  ⟨⟨bootWith_selfMapped _ _, by decide, by decide, by decide⟩,
    handle_fault_new_page (bootWith twoFramePool [wholePool]) 4096 20480 0 twoFramePool
      (bootWith_selfMapped _ _) (by decide) (by decide) (by decide) (bootWith_pool _ _)
      (by decide) (by decide)⟩

/-- C14, counterexample: (1) with the process pool exhausted, a fault at the
legitimate address of page 5, whose directory entry is present and whose
table entry is not, takes no frame; (2) a fault at the legitimate address
`0xFFC05000`, whose directory entry 1023 is present and whose table entry 5
is not, stores the new frame in directory entry 5, the table behind
directory entry 1023 being the directory itself. -/
theorem handle_fault_new_page_fails :
    (wholePool.is_legitimate 20480 = true ∧
      (bootWith ContFramePool.fullPool [wholePool]).mem (4096 + 4 * (20480 >>> 22)) &&& 1 = 1 ∧
      (bootWith ContFramePool.fullPool [wholePool]).mem (8192 + 4 * ((20480 >>> 12) &&& 1023))
        &&& 1 = 0 ∧
      ¬ NewPageContract (bootWith ContFramePool.fullPool [wholePool]) 4096 20480) ∧
    (wholePool.is_legitimate 4290793472 = true ∧
      (bootWith twoFramePool [wholePool]).mem (4096 + 4 * (4290793472 >>> 22)) &&& 1 = 1 ∧
      (bootWith twoFramePool [wholePool]).mem (4096 + 4 * ((4290793472 >>> 12) &&& 1023))
        &&& 1 = 0 ∧
      ¬ NewPageContract (bootWith twoFramePool [wholePool]) 4096 4290793472) := by
  have hg : ContFramePool.fullPool.get_frames 1 = (0, ContFramePool.fullPool) :=
    ContFramePool.get_frames_short _ 1 (by decide)
  refine ⟨⟨by decide, by decide, by decide, ?_⟩, ⟨by decide, by decide, by decide, ?_⟩⟩
  · rintro ⟨pool, t, hp, _, _, hcount, _⟩
    have e : pool = ContFramePool.fullPool := by
      have := (bootWith_pool ContFramePool.fullPool [wholePool]).symm.trans hp
      exact (Option.some.inj this).symm
    rw [e, hg] at hcount
    have h2 : ContFramePool.fullPool.nFreeFrames + 1 = ContFramePool.fullPool.nFreeFrames :=
      hcount
    omega
  · rintro ⟨pool, t, hp, h1, _, _, _, _, _, hdir⟩
    have h8 : (twoFramePool.get_frames 1).1 = 8 := by decide
    obtain ⟨t2, g1, _, _, g4, _⟩ := handle_fault_present (bootWith twoFramePool [wholePool]) 4096
      4290793472 twoFramePool (bootWith_selfMapped _ _) (by decide)
      (by show bootMem (4096 + 4 * (4290793472 / 4194304)) % 2 = 1; decide)
      (bootWith_pool _ _)
      (by show bootMem (4096 + 4 * (4290793472 / 4194304)) / 4096 * 4096 +
            4 * (4290793472 / 4096 % 1024) ≠ 4096 + 4 * 1023; decide)
      (by show bootMem (4096 + 4 * (4290793472 / 4194304)) / 4096 * 4096 +
            4 * (4290793472 / 4096 % 1024) ≠ 4096 + 4 * (4290793472 / 4194304); decide)
    have et : t2 = t := by
      have := g1.symm.trans h1
      exact Except.ok.inj this
    subst et
    have hd5 := hdir 5 (by decide)
    have hloc : (bootWith twoFramePool [wholePool]).mem (4096 + 4 * (4290793472 / 4194304))
        / 4096 * 4096 + 4 * (4290793472 / 4096 % 1024) = 4096 + 4 * 5 := by
      show bootMem (4096 + 4 * (4290793472 / 4194304)) / 4096 * 4096 +
        4 * (4290793472 / 4096 % 1024) = 4096 + 4 * 5
      decide
    rw [hloc, h8, hd5] at g4
    revert g4
    show ¬ (bootMem (4096 + 4 * 5) = (8 * 4096) ||| 3)
    decide

/-- C15: after the construction of a `PageTable` with paging not yet enabled
and both `get_frames(1)` calls succeeding with frames `d` and `t`: entry `i`
of the first table is `i * 4096 | 3` for every `i < 1024`, directory entry 0
is `t * 4096 | 3`, the directory entries 1 to 1022 are 2 (not present),
directory entry 1023 is `d * 4096 | 3`, the page directory is the frame `d`,
the process-wide flag is 0, and exactly two frames were taken from the
process pool. -/
theorem page_table_construction (s : System) (pool : ContFramePool) (kd kt : Nat)
    (hoff : s.cr0.testBit 31 = false)
    (hpool : s.frame_pools.get? s.process_mem_pool = some pool)
    (hfree : 2 ≤ pool.nFreeFrames)
    (hkd : pool.find_run 1 = some kd)
    (hkt : (pool.get_frames 1).2.find_run 1 = some kt) :
    ∃ s', s.construct =
        Except.ok ({ page_directory := (pool.base_frame_no + kd) * 4096 }, s') ∧
      (∀ i, i < 1024 → s'.mem ((pool.base_frame_no + kt) * 4096 + 4 * i) = (i * 4096) ||| 3) ∧
      s'.mem ((pool.base_frame_no + kd) * 4096) =
        ((pool.base_frame_no + kt) * 4096) ||| 3 ∧
      (∀ i, 1 ≤ i → i < 1023 → s'.mem ((pool.base_frame_no + kd) * 4096 + 4 * i) = 2 ∧
        s'.mem ((pool.base_frame_no + kd) * 4096 + 4 * i) &&& 1 = 0) ∧
      s'.mem ((pool.base_frame_no + kd) * 4096 + 4 * 1023) =
        ((pool.base_frame_no + kd) * 4096) ||| 3 ∧
      s'.paging_enabled = 0 ∧
      s'.frame_pools =
        s.frame_pools.set s.process_mem_pool ((pool.get_frames 1).2.get_frames 1).2 ∧
      ((pool.get_frames 1).2.get_frames 1).2.nFreeFrames + 2 = pool.nFreeFrames ∧
      kd ≠ kt := by
  obtain ⟨hret1, hhead1, hr1⟩ := ContFramePool.get_frames_found pool 1 kd (by omega) hkd
  have hfree1 : 1 ≤ (pool.get_frames 1).2.nFreeFrames := by rw [hr1.nFree]; omega
  obtain ⟨hret2, _, hr2⟩ := ContFramePool.get_frames_found (pool.get_frames 1).2 1 kt hfree1 hkt
  have hbase1 : (pool.get_frames 1).2.base_frame_no = pool.base_frame_no := by
    rw [hr1.base, ContFramePool.set_state_base]
  have hne : kd ≠ kt := by
    intro e
    obtain ⟨_, _, hrun, _⟩ := ContFramePool.find_run_some _ 1 kt hkt
    have h0 := hrun 0 (by omega)
    rw [Nat.add_zero, ← e, hhead1] at h0
    cases h0
  have hd : (pool.get_frames 1).1 = pool.base_frame_no + kd := by omega
  have ht : ((pool.get_frames 1).2.get_frames 1).1 = pool.base_frame_no + kt := by
    rw [hret2, hbase1]
    omega
  obtain ⟨s', h1, h2, h3, h4, h5, _, h7, h8, _⟩ := construct_result s pool _ _ hpool hd ht
    (by omega)
    (fun st hc _ la _ => translate_off st la (by rw [hc.cr0]; exact hoff))
  refine ⟨s', h1, h2, h3, ?_, h5, h8, h7, ?_, hne⟩
  · intro i hi1 hi2
    have := h4 i hi1 hi2
    exact ⟨this, by rw [this]; decide⟩
  · rw [hr2.nFree, hr1.nFree]
    omega

/-- C15, witness: construction on the system before paging is enabled, with
the two-frame pool: the directory is frame 8 and the first table frame 9. -/
theorem page_table_construction_witness :
    ((preBoot twoFramePool []).cr0.testBit 31 = false ∧ 2 ≤ twoFramePool.nFreeFrames ∧
      twoFramePool.find_run 1 = some 0 ∧ (twoFramePool.get_frames 1).2.find_run 1 = some 1) ∧
    ∃ s', (preBoot twoFramePool []).construct =
        Except.ok ({ page_directory := (twoFramePool.base_frame_no + 0) * 4096 }, s') ∧
      (∀ i, i < 1024 →
        s'.mem ((twoFramePool.base_frame_no + 1) * 4096 + 4 * i) = (i * 4096) ||| 3) ∧
      s'.mem ((twoFramePool.base_frame_no + 0) * 4096) =
        ((twoFramePool.base_frame_no + 1) * 4096) ||| 3 ∧
      (∀ i, 1 ≤ i → i < 1023 →
        s'.mem ((twoFramePool.base_frame_no + 0) * 4096 + 4 * i) = 2 ∧
        s'.mem ((twoFramePool.base_frame_no + 0) * 4096 + 4 * i) &&& 1 = 0) ∧
      s'.mem ((twoFramePool.base_frame_no + 0) * 4096 + 4 * 1023) =
        ((twoFramePool.base_frame_no + 0) * 4096) ||| 3 ∧
      s'.paging_enabled = 0 ∧
      s'.frame_pools =
        (preBoot twoFramePool []).frame_pools.set (preBoot twoFramePool []).process_mem_pool
          ((twoFramePool.get_frames 1).2.get_frames 1).2 ∧
      ((twoFramePool.get_frames 1).2.get_frames 1).2.nFreeFrames + 2 =
        twoFramePool.nFreeFrames ∧
      (0 : Nat) ≠ 1 :=
  ⟨⟨by decide, by decide, by decide, by decide⟩,
    page_table_construction (preBoot twoFramePool []) twoFramePool 0 1 (by decide) rfl
      (by decide) (by decide) (by decide)⟩

end System

namespace System

/-- C16 (as amended): for a system running with paging on a self-mapped
directory at `D` and every address `a` whose directory entry `a >> 22` is
present: if the table entry `(a >> 12) & 1023` is present and its frame
`entry / 4096` lies in a registered frame pool, `free_page(a)` releases that
frame through `release_frames`, sets the entry to 2, changes no other word
and loads this page table; if the table entry is not present, nothing
changes. -/
theorem free_page_effect (pt : PageTable) (s : System) (D a : Nat)
    (hs : SelfMapped s D) (ha : a < 4294967296)
    (hdir : s.mem (D + 4 * (a >>> 22)) &&& 1 = 1) :
    (s.mem (s.mem (D + 4 * (a >>> 22)) / 4096 * 4096 + 4 * ((a >>> 12) &&& 1023)) &&& 1 = 1 →
      ∀ pools, ContFramePool.release_frames s.frame_pools
          (s.mem (s.mem (D + 4 * (a >>> 22)) / 4096 * 4096 + 4 * ((a >>> 12) &&& 1023)) / 4096)
          = some pools →
        s.free_page pt a = Except.ok (load pt
          (({ s with frame_pools := pools } : System).set_word
            (s.mem (D + 4 * (a >>> 22)) / 4096 * 4096 + 4 * ((a >>> 12) &&& 1023)) 2))) ∧
    (s.mem (s.mem (D + 4 * (a >>> 22)) / 4096 * 4096 + 4 * ((a >>> 12) &&& 1023)) &&& 1 = 0 →
      s.free_page pt a = Except.ok s) := by
  rw [pde_offset_eq, pte_offset_eq, Nat.and_one_is_mod]
  rw [pde_offset_eq, Nat.and_one_is_mod] at hdir
  constructor
  · intro hent pools hrel
    exact free_page_present pt s D a pools hs ha hdir hent hrel
  · intro hent
    exact free_page_not_present pt s D a hs ha hdir hent

theorem allocatedPool_release :
    ContFramePool.release_frames [(twoFramePool.get_frames 1).2] 8 =
      some [(twoFramePool.get_frames 1).2.release_in_pool 8] := by
  unfold ContFramePool.release_frames
  have h : 8 ≥ (twoFramePool.get_frames 1).2.base_frame_no ∧
      8 < (twoFramePool.get_frames 1).2.base_frame_no + (twoFramePool.get_frames 1).2.nframes := by
    decide
  simp only [h, and_self, if_true]

theorem twoFramePool_no_owner :
    ContFramePool.release_frames (bootWith twoFramePool [wholePool]).frame_pools 3 = none := by
  show ContFramePool.release_frames [twoFramePool] 3 = none
  unfold ContFramePool.release_frames
  have h : ¬ (3 ≥ twoFramePool.base_frame_no ∧
      3 < twoFramePool.base_frame_no + twoFramePool.nframes) := by decide
  simp only [h, if_false]
  rfl

/-- C16, witness: `free_page(0x8000)` in the booted system after frame 8 was
allocated: page 8 is mapped to frame 8, which is released. -/
theorem free_page_effect_witness :
    (SelfMapped (bootWith (twoFramePool.get_frames 1).2 [wholePool]) 4096 ∧
      (bootWith (twoFramePool.get_frames 1).2 [wholePool]).mem (4096 + 4 * (32768 >>> 22))
        &&& 1 = 1 ∧
      (bootWith (twoFramePool.get_frames 1).2 [wholePool]).mem
        ((bootWith (twoFramePool.get_frames 1).2 [wholePool]).mem (4096 + 4 * (32768 >>> 22))
          / 4096 * 4096 + 4 * ((32768 >>> 12) &&& 1023)) &&& 1 = 1) ∧
    (bootWith (twoFramePool.get_frames 1).2 [wholePool]).free_page { page_directory := 4096 }
      32768 =
      Except.ok (load { page_directory := 4096 }
        (({ bootWith (twoFramePool.get_frames 1).2 [wholePool] with
            frame_pools := [(twoFramePool.get_frames 1).2.release_in_pool 8] } :
              System).set_word
          ((bootWith (twoFramePool.get_frames 1).2 [wholePool]).mem (4096 + 4 * (32768 >>> 22))
            / 4096 * 4096 + 4 * ((32768 >>> 12) &&& 1023)) 2)) :=
  ⟨⟨bootWith_selfMapped _ _, by decide, by decide⟩,
    (free_page_effect { page_directory := 4096 }
      (bootWith (twoFramePool.get_frames 1).2 [wholePool]) 4096 32768
      (bootWith_selfMapped _ _) (by decide) (by decide)).1 (by decide) _
      allocatedPool_release⟩

/-- C16, counterexample: (1) for the address `0x40000000`, whose directory
entry is not present, the table entry is not present either, yet `free_page`
does not return with the state unchanged: its read of the table entry
through the self-map faults; (2) for the address `0x3000`, whose table entry
is present and names frame 3 of no registered pool, `free_page` ends in the
null dereference of `release_frames`. -/
theorem free_page_fails :
    ((bootWith twoFramePool [wholePool]).free_page { page_directory := 4096 } 1073741824 =
        Except.error (Stop.page_fault 4291821568) ∧
      ¬ FreePageContract { page_directory := 4096 } (bootWith twoFramePool [wholePool]) 4096
        1073741824) ∧
    ((bootWith twoFramePool [wholePool]).free_page { page_directory := 4096 } 12288 =
        Except.error Stop.null_pointer ∧
      ¬ FreePageContract { page_directory := 4096 } (bootWith twoFramePool [wholePool]) 4096
        12288) := by
  have h1 := free_page_no_table { page_directory := 4096 } (bootWith twoFramePool [wholePool])
    4096 1073741824 (bootWith_selfMapped _ _) (by decide)
    (by show bootMem (4096 + 4 * (1073741824 / 4194304)) % 2 = 0; decide)
  have h2 := free_page_no_pool { page_directory := 4096 } (bootWith twoFramePool [wholePool])
    4096 12288 (bootWith_selfMapped _ _) (by decide)
    (by show bootMem (4096 + 4 * (12288 / 4194304)) % 2 = 1; decide)
    (by show bootMem (bootMem (4096 + 4 * (12288 / 4194304)) / 4096 * 4096 +
          4 * (12288 / 4096 % 1024)) % 2 = 1; decide)
    (by
      have e : (bootWith twoFramePool [wholePool]).mem
          ((bootWith twoFramePool [wholePool]).mem (4096 + 4 * (12288 / 4194304)) / 4096 * 4096 +
            4 * (12288 / 4096 % 1024)) / 4096 = 3 := by
        show bootMem (bootMem (4096 + 4 * (12288 / 4194304)) / 4096 * 4096 +
            4 * (12288 / 4096 % 1024)) / 4096 = 3
        decide
      rw [e]
      exact twoFramePool_no_owner)
  refine ⟨⟨h1, ?_⟩, ⟨h2, ?_⟩⟩
  · rintro ⟨_, hc⟩
    have hno : ¬ ((bootWith twoFramePool [wholePool]).mem (4096 + 4 * (1073741824 >>> 22)) % 2
        = 1 ∧
        (bootWith twoFramePool [wholePool]).mem
          ((bootWith twoFramePool [wholePool]).mem (4096 + 4 * (1073741824 >>> 22)) / 4096 * 4096
            + 4 * ((1073741824 >>> 12) &&& 1023)) % 2 = 1) := by
      show ¬ (bootMem (4096 + 4 * (1073741824 >>> 22)) % 2 = 1 ∧
        bootMem (bootMem (4096 + 4 * (1073741824 >>> 22)) / 4096 * 4096
            + 4 * ((1073741824 >>> 12) &&& 1023)) % 2 = 1)
      decide
    have := hc hno
    rw [h1] at this
    cases this
  · rintro ⟨hc, _⟩
    have hyes : (bootWith twoFramePool [wholePool]).mem (4096 + 4 * (12288 >>> 22)) % 2 = 1 ∧
        (bootWith twoFramePool [wholePool]).mem
          ((bootWith twoFramePool [wholePool]).mem (4096 + 4 * (12288 >>> 22)) / 4096 * 4096
            + 4 * ((12288 >>> 12) &&& 1023)) % 2 = 1 := by
      show bootMem (4096 + 4 * (12288 >>> 22)) % 2 = 1 ∧
        bootMem (bootMem (4096 + 4 * (12288 >>> 22)) / 4096 * 4096
            + 4 * ((12288 >>> 12) &&& 1023)) % 2 = 1
      decide
    obtain ⟨pools, _, hfp⟩ := hc hyes
    rw [h2] at hfp
    cases hfp

/-! ## The `paging_enabled` flag -/

theorem step_enabled (s t : System) (h : Step s t) (h1 : s.paging_enabled = 1) :
    t.paging_enabled = 1 := by
  cases h with
  | load pt => exact h1
  | enable_paging => rfl
  | handle_fault _ _ a ha => exact ((handle_fault_same s a).1 t ha).enabled.trans h1
  | register_pool _ vm => exact h1
  | free_page pt _ _ a ha => exact (free_page_enabled pt s t a ha).trans h1

/-- C17 (as amended): once `enable_paging` has set the process-wide
`paging_enabled` flag, no later `load`, `handle_fault`, `register_pool`,
`free_page` or `enable_paging` resets it: in every state these operations
lead to the flag is 1. -/
theorem paging_enabled_stays (s t : System) (h : Steps (enable_paging s) t) :
    t.paging_enabled = 1 := by
  generalize hs : enable_paging s = s0 at h
  induction h with
  | refl => rw [← hs]; rfl
  | tail t u _ h2 ih => exact step_enabled t u h2 ih

/-- C17, witness: after `enable_paging`, a `load` and a `register_pool`. -/
theorem paging_enabled_stays_witness :
    Steps (enable_paging (preBoot twoFramePool []))
      (register_pool (load { page_directory := 4096 } (enable_paging (preBoot twoFramePool [])))
        wholePool) ∧
    (register_pool (load { page_directory := 4096 } (enable_paging (preBoot twoFramePool [])))
      wholePool).paging_enabled = 1 :=
  have h : Steps (enable_paging (preBoot twoFramePool []))
      (register_pool (load { page_directory := 4096 } (enable_paging (preBoot twoFramePool [])))
        wholePool) :=
    Steps.tail _ _ _ (Steps.tail _ _ _ (Steps.refl _) (Step.load _ _)) (Step.register_pool _ _)
  ⟨h, paging_enabled_stays _ _ h⟩

/-- In the booted system every pointer into the frames 8 and 9 translates to
itself, whatever those two frames hold. -/
theorem bootWith_identity (pool : ContFramePool) (vms : List VMPool) (st : System)
    (hc : SameControl (bootWith pool vms) st)
    (hx : ∀ x, x / 4096 ≠ 8 → x / 4096 ≠ 9 → st.mem x = (bootWith pool vms).mem x)
    (la : Nat) (hla : la / 4096 = 8 ∨ la / 4096 = 9) :
    st.translate la = Except.ok la := by
  have hpg : st.cr0.testBit 31 = true := by
    rw [hc.cr0]
    exact (bootWith_selfMapped pool vms).1
  have hcr3 : st.cr3 = 4096 := hc.cr3
  have m1 : st.mem 4096 = 8195 := hx 4096 (by decide) (by decide)
  have m8 : st.mem 8224 = 32771 := hx 8224 (by decide) (by decide)
  have m9 : st.mem 8228 = 36867 := hx 8228 (by decide) (by decide)
  have a0 : 4096 + 4 * (la / 4194304) = 4096 := by omega
  rcases hla with h | h
  · have a1 : 8195 / 4096 * 4096 + 4 * (la / 4096 % 1024) = 8224 := by omega
    have h := translate_on st 4096 la hpg hcr3 (by decide) (by rw [a0, m1])
      (by rw [a0, m1, a1, m8])
    rw [h, a0, m1, a1, m8]
    congr 1
    omega
  · have a1 : 8195 / 4096 * 4096 + 4 * (la / 4096 % 1024) = 8228 := by omega
    have h := translate_on st 4096 la hpg hcr3 (by decide) (by rw [a0, m1])
      (by rw [a0, m1, a1, m9])
    rw [h, a0, m1, a1, m9]
    congr 1
    omega

/-- C17, counterexample: in the booted system `enable_paging` has set the
flag to 1; the construction of a further `PageTable` (in the frames 8 and 9,
which the active table maps to themselves) runs to its end and leaves the
flag at 0. -/
theorem paging_enabled_reset_by_constructor :
    (enable_paging (preBoot twoFramePool [])).paging_enabled = 1 ∧
    ∃ s', (enable_paging (preBoot twoFramePool [])).construct =
        Except.ok ({ page_directory := 8 * 4096 }, s') ∧
      s'.paging_enabled = 0 ∧ s'.cr0.testBit 31 = true := by
  refine ⟨rfl, ?_⟩
  obtain ⟨s', h1, _, _, _, _, _, _, h8, h9, _⟩ := construct_result
    (bootWith twoFramePool []) twoFramePool 8 9 (bootWith_pool _ _) (by decide) (by decide)
    (by decide) (bootWith_identity twoFramePool [])
  refine ⟨s', h1, h8, ?_⟩
  rw [h9]
  exact (bootWith_selfMapped twoFramePool []).1

end System

/-! ## The packed store, the release walk and the run invariant -/

namespace ContFramePool

/-- C28: the packed 2-bit store is faithful: for every bitmap content, every
frame index `f` and every state `s`, after `set_state(f, s)` `get_state(f)`
returns `s`, and `get_state(g)` is unchanged for every frame `g ≠ f`, the
three other frames of the same byte included. -/
theorem packed_store_faithful (p : ContFramePool) (f : Nat) (s : FrameState) :
    (p.set_state f s).get_state f = s ∧
    ∀ g, g ≠ f → (p.set_state f s).get_state g = p.get_state g :=
  ⟨get_set_same p f s, fun g hg => get_set_other p f g s hg⟩

/-- C28, witness: writing frame 5 of the pool over `0x55` bytes leaves its
byte neighbour frame 6 as it was. -/
theorem packed_store_faithful_witness :
    (6 : Nat) ≠ 5 ∧ (stalePool.set_state 5 FrameState.HoS).get_state 5 = FrameState.HoS ∧
      (stalePool.set_state 5 FrameState.HoS).get_state 6 = stalePool.get_state 6 :=
  ⟨by decide, (packed_store_faithful stalePool 5 FrameState.HoS).1,
    (packed_store_faithful stalePool 5 FrameState.HoS).2 6 (by decide)⟩

/-- C26, the failing input evaluated: the two-frame pool at base frame 4 over
`0x55` bytes holds, after `get_frames(2)`, a run that ends at its last frame
(offsets 0 and 1).  Its entries 2 to 5 lie past the last owned frame and
decode `Used`; `release_frames(4)` walks up to offset 6, sets them `Free`
and leaves the free counter at 6 for two owned frames. -/
theorem release_walk_passes_pool_end :
    (stalePool.get_frames 2).2.base_frame_no = 4 ∧
      (stalePool.get_frames 2).2.nframes = 2 ∧
      (stalePool.get_frames 2).2.get_state 0 = FrameState.HoS ∧
      (stalePool.get_frames 2).2.get_state 1 = FrameState.Used ∧
      (∀ i, i < 6 → 2 ≤ i →
        (stalePool.get_frames 2).2.get_state i = FrameState.Used ∧
        ((stalePool.get_frames 2).2.release_in_pool 4).get_state i = FrameState.Free) ∧
      ((stalePool.get_frames 2).2.release_in_pool 4).get_state 6 = FrameState.Used ∧
      (stalePool.get_frames 2).2.nframes <
        ((stalePool.get_frames 2).2.release_in_pool 4).nFreeFrames := by
  decide

/-- Every `Used` frame of a pool without orphans lies in the run of `Used`
frames right behind a `HoS` frame. -/
theorem used_has_head (p : ContFramePool) (hp : NoOrphan p) :
    ∀ i, i < p.nframes → p.get_state i = FrameState.Used →
      ∃ h, h < i ∧ p.get_state h = FrameState.HoS ∧
        ∀ j, h < j → j ≤ i → p.get_state j = FrameState.Used := by
  intro i
  induction i with
  | zero =>
    intro h0 hu
    exact absurd (hp 0 h0 hu).1 (by omega)
  | succ m ih =>
    intro hm hu
    obtain ⟨_, hprev⟩ := hp (m + 1) hm hu
    have e : m + 1 - 1 = m := by omega
    rw [e] at hprev
    cases hs : p.get_state m with
    | Free => exact absurd hs hprev
    | HoS =>
      refine ⟨m, by omega, hs, ?_⟩
      intro j hj1 hj2
      have : j = m + 1 := by omega
      rw [this]
      exact hu
    | Used =>
      obtain ⟨h, hh1, hh2, hh3⟩ := ih (by omega) hs
      refine ⟨h, by omega, hh2, ?_⟩
      intro j hj1 hj2
      by_cases ej : j = m + 1
      · rw [ej]
        exact hu
      · exact hh3 j hj1 (by omega)

/-- The constructor sets the frame count to its argument. -/
theorem construct_nframes (base n info : Nat) (mem : Nat → Nat) (hn : 1 ≤ n) :
    (construct base n info mem).nframes = n := by
  by_cases hi : info = 0
  · subst hi
    exact (construct_self base n mem hn).2.1
  · exact (construct_external base n info mem hi).nframes

/-- A reachable pool owns at least one frame. -/
theorem reachable_nframes_pos (p : ContFramePool) (hp : Reachable p) : 1 ≤ p.nframes := by
  induction hp with
  | construct base n info mem hn =>
    rw [construct_nframes base n info mem hn]
    exact hn
  | get_frames p n _ ih =>
    rcases get_frames_cases p n with h | ⟨k, _, _, _, _, _, _, hnf, _⟩
    · rw [h]
      exact ih
    · rw [hnf]
      exact ih
  | release_frames p f _ _ _ ih =>
    by_cases hh : p.get_state (f - p.base_frame_no) = FrameState.HoS
    · obtain ⟨e, _, _, _, hr⟩ := release_in_pool_head p f hh
      rw [hr.nframes]
      exact ih
    · rw [release_in_pool_not_head p f hh]
      exact ih

/-- C30: in every pool state reachable from construction (at least one frame)
by `get_frames` and `release_frames` of frames inside the pool, no `Used`
frame is an orphan: frame 0 is never `Used`, every `Used` frame at an offset
`i > 0` inside the pool follows a `HoS` or `Used` frame, and it belongs to
the run of the nearest `HoS` frame before it: all frames from behind that
`HoS` frame up to it are `Used`. -/
theorem no_orphan_used_frame (p : ContFramePool) (hp : Reachable p) :
    p.get_state 0 ≠ FrameState.Used ∧
    (∀ i, 0 < i → i < p.nframes → p.get_state i = FrameState.Used →
      (p.get_state (i - 1) = FrameState.HoS ∨ p.get_state (i - 1) = FrameState.Used)) ∧
    (∀ i, i < p.nframes → p.get_state i = FrameState.Used →
      ∃ h, h < i ∧ p.get_state h = FrameState.HoS ∧
        ∀ j, h < j → j ≤ i → p.get_state j = FrameState.Used) := by
  have hno := noOrphan_reachable p hp
  have hpos := reachable_nframes_pos p hp
  refine ⟨?_, ?_, used_has_head p hno⟩
  · intro hu
    exact absurd (hno 0 (by omega) hu).1 (by omega)
  · intro i _ hi hu
    have h2 := (hno i hi hu).2
    cases hs : p.get_state (i - 1) with
    | Free => exact absurd hs h2
    | HoS => exact Or.inl rfl
    | Used => exact Or.inr rfl

/-- C30, witness: the two-frame pool after `get_frames(2)` is reachable; its
frame 1 is `Used` and follows the `HoS` frame 0. -/
theorem no_orphan_used_frame_witness :
    Reachable (stalePool.get_frames 2).2 ∧
      (stalePool.get_frames 2).2.get_state 1 = FrameState.Used ∧
      (stalePool.get_frames 2).2.get_state 0 ≠ FrameState.Used ∧
      ((stalePool.get_frames 2).2.get_state (1 - 1) = FrameState.HoS ∨
        (stalePool.get_frames 2).2.get_state (1 - 1) = FrameState.Used) :=
  ⟨Reachable.get_frames _ 2 (Reachable.construct 4 2 1 staleMem (by decide)), by decide,
    (no_orphan_used_frame (stalePool.get_frames 2).2
      (Reachable.get_frames _ 2 (Reachable.construct 4 2 1 staleMem (by decide)))).1,
    (no_orphan_used_frame (stalePool.get_frames 2).2
      (Reachable.get_frames _ 2 (Reachable.construct 4 2 1 staleMem (by decide)))).2.1 1
      (by decide) (by decide) (by decide)⟩

end ContFramePool

/-! ## Self-map addresses and the index split -/

namespace System

/-- C29: self-map addressing agrees with the index split of the fault
handler (`pde_offset = a >> 22`, `pte_offset = (a >> 12) & 1023`): for every
directory slot `d < 1024` the address `0xFFC00000 | (d << 12)` splits into
directory index 1023 and table index `d` with page offset 0; the address
`0xFFFFF000` splits into (1023, 1023) with page offset 0; and for every
32-bit address `a` both indices are below 1024 and
`a = (a >> 22) * 2^22 + ((a >> 12) & 1023) * 2^12 + a mod 4096`. -/
theorem self_map_index_split (d a : Nat) (hd : d < 1024) (ha : a < 4294967296) :
    pde_offset (logical_page_table d) = 1023 ∧
    pte_offset (logical_page_table d) = d ∧
    logical_page_table d % 4096 = 0 ∧
    pde_offset logical_page_directory = 1023 ∧
    pte_offset logical_page_directory = 1023 ∧
    logical_page_directory % 4096 = 0 ∧
    pde_offset a < 1024 ∧ pte_offset a < 1024 ∧
    a = pde_offset a * 2 ^ 22 + pte_offset a * 2 ^ 12 + a % 4096 := by
  unfold pde_offset pte_offset logical_page_table logical_page_directory
  simp only [pde_offset_eq, pte_offset_eq, table_pointer d hd]
  refine ⟨by omega, by omega, by omega, by decide, by decide, by decide, by omega, by omega,
    by omega⟩

/-- C29, witness: directory slot 5 and the address `0x00C03004`, which
splits into directory index 3, table index 3 and page offset 4. -/
theorem self_map_index_split_witness :
    (5 : Nat) < 1024 ∧ (12595204 : Nat) < 4294967296 ∧
      pde_offset (logical_page_table 5) = 1023 ∧
      pte_offset (logical_page_table 5) = 5 ∧
      pde_offset 12595204 = 3 ∧ pte_offset 12595204 = 3 ∧
      12595204 = pde_offset 12595204 * 2 ^ 22 + pte_offset 12595204 * 2 ^ 12 +
        12595204 % 4096 :=
  ⟨by decide, by decide,
    (self_map_index_split 5 12595204 (by decide) (by decide)).1,
    (self_map_index_split 5 12595204 (by decide) (by decide)).2.1,
    by decide, by decide,
    (self_map_index_split 5 12595204 (by decide) (by decide)).2.2.2.2.2.2.2.2⟩

end System

/-! ## Evaluations of `allocate` -/

namespace VMPool

/-- C21, the failing input evaluated: the pool of three regions left by
allocations of one, two, one and one page and the release of the second
region.  `allocate(4096)` succeeds and returns the start `0x20002000` of the
new region in slot 1, the count becomes 4, but the region
`{0x20005000, 4096}` that was in slot 2 is in none of the four slots, and
the region that was in slot 1 is in slot 2 and in slot 3. -/
theorem allocate_into_gap_loses_region :
    gapPool.num_of_region = 3 ∧
      gapPool.region_array 1 = { start_address := 536887296, size := 4096 } ∧
      gapPool.region_array 2 = { start_address := 536891392, size := 4096 } ∧
      (gapPool.allocate 4096).1 = 536879104 ∧
      (gapPool.allocate 4096).2.num_of_region = 4 ∧
      (gapPool.allocate 4096).2.region_array 1 =
        { start_address := 536879104, size := 4096 } ∧
      (∀ i, i < 4 → (gapPool.allocate 4096).2.region_array i ≠ gapPool.region_array 2) ∧
      (gapPool.allocate 4096).2.region_array 2 = gapPool.region_array 1 ∧
      (gapPool.allocate 4096).2.region_array 3 = gapPool.region_array 1 := by
  decide

/-- C27, the failing input evaluated: in the same pool the gap between the
end `0x20002000` of region 0 and the start `0x20004000` of region 1 is
exactly two pages.  `allocate(8192)` does not use it: it returns
`0x20006000`, the end of the last region, and appends there.  A request of
one page goes into the gap, and a request that ends exactly at the end of a
three-page pool is accepted. -/
theorem exact_gap_not_used :
    gapPool.num_of_region = 3 ∧
      (gapPool.region_array 0).start_address + (gapPool.region_array 0).size = 536879104 ∧
      (gapPool.region_array 1).start_address = 536879104 + 8192 ∧
      (gapPool.allocate 8192).1 = 536895488 ∧
      (gapPool.allocate 8192).2.region_array 3 =
        { start_address := 536895488, size := 8192 } ∧
      (gapPool.allocate 8192).2.region_array 1 = gapPool.region_array 1 ∧
      (gapPool.allocate 4096).1 = 536879104 ∧
      (((construct 536870912 12288 { page_directory := 0 } zeroRegions).allocate 4096).2.allocate
        4096).1 + 4096 = 536870912 + 12288 := by
  decide

/-- C22, counterexample: the pool whose only region starts two pages behind
`base_address` has room for one page between the reserved first page and
region 0, but `allocate(4096)` returns the end of region 0 and leaves region
0 where it was. -/
theorem first_gap_not_considered :
    lowGapPool.num_of_region = 1 ∧
      lowGapPool.base_address + 4096 + 4096 ≤ (lowGapPool.region_array 0).start_address ∧
      (lowGapPool.allocate 4096).1 = lowGapPool.base_address + 12288 ∧
      (lowGapPool.allocate 4096).2.region_array 0 = lowGapPool.region_array 0 ∧
      ¬ FirstGapContract lowGapPool 4096 4096 := by
  refine ⟨by decide, by decide, by decide, by decide, ?_⟩
  rintro ⟨h, _⟩
  revert h
  decide

/-- C23, counterexample: on the three-page pool at `0xFFFFC000` the third
`allocate(4096)` returns `0xFFFFF000`, not 0, and adds a third region; on
the three-page pool at `0xFFFFD000`, which ends at `2 ^ 32`, the first
`allocate(4096)` returns 0. -/
theorem three_page_scenario_fails_at_top :
    ¬ ThreePageScenario 4294950912 { page_directory := 0 } zeroRegions ∧
      ((((construct 4294950912 12288 { page_directory := 0 } zeroRegions).allocate 4096).2.allocate
        4096).2.allocate 4096).1 = 4294963200 ∧
      ((((construct 4294950912 12288 { page_directory := 0 } zeroRegions).allocate 4096).2.allocate
        4096).2.allocate 4096).2.num_of_region = 3 ∧
      ¬ ThreePageScenario 4294955008 { page_directory := 0 } zeroRegions ∧
      ((construct 4294955008 12288 { page_directory := 0 } zeroRegions).allocate 4096).1 = 0 := by
  refine ⟨?_, by decide, by decide, ?_, by decide⟩
  · rintro ⟨_, _, h⟩
    have h1 := congrArg Prod.fst h
    revert h1
    decide
  · rintro ⟨h, _⟩
    revert h
    decide

end VMPool

/-! ## The loops of `allocate` and `release` -/

namespace VMPool

theorem gap_scan_some (vm : VMPool) (frames : Nat) :
    ∀ fuel i k, gap_scan vm frames fuel i = some k → i ≤ k ∧ k < i + fuel := by
  intro fuel
  induction fuel with
  | zero =>
    intro i k h
    simp [gap_scan] at h
  | succ m ih =>
    intro i k h
    unfold gap_scan at h
    split at h
    · cases h
      omega
    · have := ih (i + 1) k h
      omega

theorem shift_right_spec (ra : Nat → Region) (curr num : Nat) (hle : curr ≤ num) :
    (∀ j, j ≤ curr → forLoop curr num (fun i ra => set_region ra (i + 1) (ra i)) ra j = ra j) ∧
    (∀ j, curr < j → j ≤ num →
      forLoop curr num (fun i ra => set_region ra (i + 1) (ra i)) ra j = ra curr) ∧
    (∀ j, num < j → forLoop curr num (fun i ra => set_region ra (i + 1) (ra i)) ra j = ra j) := by
  have h := forLoop_inv curr num (fun i ra => set_region ra (i + 1) (ra i))
    (fun i t => (∀ j, j ≤ curr → t j = ra j) ∧ (∀ j, curr < j → j ≤ i → t j = ra curr) ∧
      (∀ j, i < j → t j = ra j)) ra hle
    ⟨fun _ _ => rfl, fun j h1 h2 => by omega, fun _ _ => rfl⟩
    (by
      intro i t hi1 hi2 ⟨h1, h2, h3⟩
      have hti : t i = ra curr := by
        by_cases e : i = curr
        · rw [e]
          exact h1 curr (le_refl _)
        · exact h2 i (by omega) (le_refl _)
      refine ⟨?_, ?_, ?_⟩
      · intro j hj
        show set_region t (i + 1) (t i) j = ra j
        unfold set_region
        have e : j ≠ i + 1 := by omega
        simp only [e, if_false]
        exact h1 j hj
      · intro j hj1 hj2
        show set_region t (i + 1) (t i) j = ra curr
        unfold set_region
        by_cases e : j = i + 1
        · simp only [e, if_true]
          exact hti
        · simp only [e, if_false]
          exact h2 j hj1 (by omega)
      · intro j hj
        show set_region t (i + 1) (t i) j = ra j
        unfold set_region
        have e : j ≠ i + 1 := by omega
        simp only [e, if_false]
        exact h3 j (by omega))
  exact h

/-- The branch of `allocate` for a pool with regions, with the rounded frame
count and the insertion index named. -/
theorem allocate_eq (vm : VMPool) (s frames curr : Nat) (h : vm.num_of_region ≠ 0)
    (hf : (if s % PAGE_SIZE ≠ 0 then add32 (s / PAGE_SIZE) 1 else s / PAGE_SIZE) = frames)
    (hc : (match gap_scan vm frames (vm.num_of_region - 1) 1 with
      | some i => i
      | none => vm.num_of_region) = curr) :
    vm.allocate s =
      if curr = vm.num_of_region ∧
          add32 (add32 (vm.region_array (vm.num_of_region - 1)).start_address
            (vm.region_array (vm.num_of_region - 1)).size) (mul32 frames PAGE_SIZE) >
          add32 vm.base_address vm.size then (0, vm)
      else
        let ra0 := forLoop curr vm.num_of_region
          (fun i ra => set_region ra (i + 1) (ra i)) vm.region_array
        let ra1 := set_region ra0 curr
          { ra0 curr with
            start_address := add32 (ra0 (curr - 1)).start_address (ra0 (curr - 1)).size }
        let ra2 := set_region ra1 curr { ra1 curr with size := mul32 frames PAGE_SIZE }
        ((ra2 curr).start_address,
          { vm with region_array := ra2, num_of_region := vm.num_of_region + 1 }) := by
  subst hf
  subst hc
  unfold allocate
  simp only [h, if_false]

theorem allocate_nonempty (vm : VMPool) (s : Nat) (h : vm.num_of_region ≠ 0) :
    vm.allocate s = (0, vm) ∨
    ∃ curr, 1 ≤ curr ∧ curr ≤ vm.num_of_region ∧
      (vm.allocate s).1 =
        add32 (vm.region_array (curr - 1)).start_address (vm.region_array (curr - 1)).size ∧
      (vm.allocate s).2.num_of_region = vm.num_of_region + 1 ∧
      ((vm.allocate s).2.region_array curr).start_address = (vm.allocate s).1 ∧
      ((vm.allocate s).2.region_array curr).size =
        mul32 (if s % PAGE_SIZE ≠ 0 then add32 (s / PAGE_SIZE) 1 else s / PAGE_SIZE) PAGE_SIZE ∧
      (∀ j, j < curr → (vm.allocate s).2.region_array j = vm.region_array j) ∧
      (∀ j, curr < j → j ≤ vm.num_of_region →
        (vm.allocate s).2.region_array j = vm.region_array curr) ∧
      (∀ j, vm.num_of_region < j → (vm.allocate s).2.region_array j = vm.region_array j) := by
  generalize hf : (if s % PAGE_SIZE ≠ 0 then add32 (s / PAGE_SIZE) 1 else s / PAGE_SIZE) = frames
  generalize hc : (match gap_scan vm frames (vm.num_of_region - 1) 1 with
      | some i => i
      | none => vm.num_of_region) = curr
  have hb : 1 ≤ curr ∧ curr ≤ vm.num_of_region := by
    cases hg : gap_scan vm frames (vm.num_of_region - 1) 1 with
    | none =>
      rw [hg] at hc
      simp only at hc
      omega
    | some k =>
      rw [hg] at hc
      simp only at hc
      have := gap_scan_some vm frames _ _ _ hg
      omega
  rw [allocate_eq vm s frames curr h hf hc]
  by_cases hfail : curr = vm.num_of_region ∧
      add32 (add32 (vm.region_array (vm.num_of_region - 1)).start_address
        (vm.region_array (vm.num_of_region - 1)).size) (mul32 frames PAGE_SIZE) >
      add32 vm.base_address vm.size
  · left
    rw [if_pos hfail]
  · right
    rw [if_neg hfail]
    obtain ⟨h1, h2, h3⟩ := shift_right_spec vm.region_array curr vm.num_of_region hb.2
    have hprev := h1 (curr - 1) (by omega)
    refine ⟨curr, hb.1, hb.2, ?_, rfl, ?_, ?_, ?_, ?_, ?_⟩
    · simp only [set_region, if_true, hprev]
    · simp only [set_region, if_true]
    · simp only [set_region, if_true]
    · intro j hj
      have e : j ≠ curr := by omega
      simp only [set_region, e, if_false]
      exact h1 j (by omega)
    · intro j hj1 hj2
      have e : j ≠ curr := by omega
      simp only [set_region, e, if_false]
      exact h2 j hj1 hj2
    · intro j hj
      have e : j ≠ curr := by omega
      simp only [set_region, e, if_false]
      exact h3 j hj

/-- The branch of `allocate` for a pool without regions, with the rounded
frame count named. -/
theorem allocate_empty_eq (vm : VMPool) (s frames : Nat) (h : vm.num_of_region = 0)
    (hf : (if s % PAGE_SIZE ≠ 0 then add32 (s / PAGE_SIZE) 1 else s / PAGE_SIZE) = frames) :
    vm.allocate s =
      if add32 (add32 vm.base_address PAGE_SIZE) (mul32 frames PAGE_SIZE) >
          add32 vm.base_address vm.size then (0, vm)
      else
        let ra1 := set_region vm.region_array 0
          { vm.region_array 0 with start_address := add32 vm.base_address PAGE_SIZE }
        let ra2 := set_region ra1 0 { ra1 0 with size := mul32 frames PAGE_SIZE }
        ((ra2 0).start_address, { vm with region_array := ra2, num_of_region := 0 + 1 }) := by
  subst hf
  unfold allocate
  simp only [h, if_true]

theorem allocate_empty (vm : VMPool) (s : Nat) (h : vm.num_of_region = 0) :
    vm.allocate s = (0, vm) ∨
    ((vm.allocate s).1 = add32 vm.base_address PAGE_SIZE ∧
      (vm.allocate s).2.num_of_region = 1 ∧
      (vm.allocate s).2.region_array 0 =
        { start_address := add32 vm.base_address PAGE_SIZE
          size := mul32 (if s % PAGE_SIZE ≠ 0 then add32 (s / PAGE_SIZE) 1 else s / PAGE_SIZE)
            PAGE_SIZE }) := by
  generalize hf : (if s % PAGE_SIZE ≠ 0 then add32 (s / PAGE_SIZE) 1 else s / PAGE_SIZE) = frames
  rw [allocate_empty_eq vm s frames h hf]
  by_cases hc : add32 (add32 vm.base_address PAGE_SIZE) (mul32 frames PAGE_SIZE) >
      add32 vm.base_address vm.size
  · rw [if_pos hc]
    exact Or.inl rfl
  · rw [if_neg hc]
    right
    simp only [set_region, if_true]
    exact ⟨trivial, trivial, trivial⟩

/-- One page allocated in a pool without regions that has room for it. -/
theorem allocate_page_empty (vm : VMPool) (h : vm.num_of_region = 0)
    (hno : vm.base_address + vm.size < 4294967296) (hfit : 8192 ≤ vm.size) :
    (vm.allocate 4096).1 = vm.base_address + 4096 ∧
    (vm.allocate 4096).2.num_of_region = 1 ∧
    (vm.allocate 4096).2.region_array 0 =
      { start_address := vm.base_address + 4096, size := 4096 } := by
  have e1 : add32 vm.base_address PAGE_SIZE = vm.base_address + 4096 :=
    add32_of_lt _ _ (by unfold PAGE_SIZE; omega)
  have e2 : add32 (vm.base_address + 4096) 4096 = vm.base_address + 4096 + 4096 :=
    add32_of_lt _ _ (by omega)
  have e3 : add32 vm.base_address vm.size = vm.base_address + vm.size := add32_of_lt _ _ hno
  have e4 : mul32 1 PAGE_SIZE = 4096 := by decide
  have hcond : ¬ (add32 (add32 vm.base_address PAGE_SIZE) (mul32 1 PAGE_SIZE) >
      add32 vm.base_address vm.size) := by
    rw [e4, e1, e2, e3]
    omega
  rw [allocate_empty_eq vm 4096 1 h (by decide), if_neg hcond]
  simp only [set_region, if_true, e1, e4]
  exact ⟨trivial, trivial, trivial⟩

/-- One page appended behind the last region of a pool, the gap search
having found nothing. -/
theorem allocate_page_append (vm : VMPool) (h : vm.num_of_region ≠ 0)
    (hscan : gap_scan vm 1 (vm.num_of_region - 1) 1 = none)
    (hno : vm.base_address + vm.size < 4294967296)
    (hfit : (vm.region_array (vm.num_of_region - 1)).start_address +
      (vm.region_array (vm.num_of_region - 1)).size + 4096 ≤ vm.base_address + vm.size) :
    (vm.allocate 4096).1 = (vm.region_array (vm.num_of_region - 1)).start_address +
      (vm.region_array (vm.num_of_region - 1)).size ∧
    (vm.allocate 4096).2.num_of_region = vm.num_of_region + 1 ∧
    (vm.allocate 4096).2.region_array vm.num_of_region =
      { start_address := (vm.region_array (vm.num_of_region - 1)).start_address +
          (vm.region_array (vm.num_of_region - 1)).size
        size := 4096 } ∧
    (∀ j, j < vm.num_of_region → (vm.allocate 4096).2.region_array j = vm.region_array j) := by
  have hc : (match gap_scan vm 1 (vm.num_of_region - 1) 1 with
      | some i => i
      | none => vm.num_of_region) = vm.num_of_region := by
    rw [hscan]
  rw [allocate_eq vm 4096 1 vm.num_of_region h (by decide) hc]
  have e1 : add32 (vm.region_array (vm.num_of_region - 1)).start_address
      (vm.region_array (vm.num_of_region - 1)).size =
      (vm.region_array (vm.num_of_region - 1)).start_address +
        (vm.region_array (vm.num_of_region - 1)).size := add32_of_lt _ _ (by omega)
  have e3 : add32 vm.base_address vm.size = vm.base_address + vm.size := add32_of_lt _ _ hno
  have e4 : mul32 1 PAGE_SIZE = 4096 := by decide
  have hcond : ¬ (vm.num_of_region = vm.num_of_region ∧
      add32 (add32 (vm.region_array (vm.num_of_region - 1)).start_address
        (vm.region_array (vm.num_of_region - 1)).size) (mul32 1 PAGE_SIZE) >
      add32 vm.base_address vm.size) := by
    rw [e4, e1, e3, add32_of_lt _ _ (by omega)]
    omega
  rw [if_neg hcond, forLoop_empty _ _ _ _ (le_refl _)]
  simp only [set_region, if_true, e1, e4]
  refine ⟨trivial, trivial, trivial, ?_⟩
  intro j hj
  have e : j ≠ vm.num_of_region := by omega
  simp only [e, if_false]

/-- One page refused by a pool whose last region ends at the end of the pool,
the gap search having found nothing. -/
theorem allocate_page_full (vm : VMPool) (h : vm.num_of_region ≠ 0)
    (hscan : gap_scan vm 1 (vm.num_of_region - 1) 1 = none)
    (hno : vm.base_address + vm.size + 4096 < 4294967296)
    (hfull : (vm.region_array (vm.num_of_region - 1)).start_address +
      (vm.region_array (vm.num_of_region - 1)).size = vm.base_address + vm.size) :
    vm.allocate 4096 = (0, vm) := by
  have hc : (match gap_scan vm 1 (vm.num_of_region - 1) 1 with
      | some i => i
      | none => vm.num_of_region) = vm.num_of_region := by
    rw [hscan]
  rw [allocate_eq vm 4096 1 vm.num_of_region h (by decide) hc]
  have e1 : add32 (vm.region_array (vm.num_of_region - 1)).start_address
      (vm.region_array (vm.num_of_region - 1)).size =
      (vm.region_array (vm.num_of_region - 1)).start_address +
        (vm.region_array (vm.num_of_region - 1)).size := add32_of_lt _ _ (by omega)
  have e3 : add32 vm.base_address vm.size = vm.base_address + vm.size :=
    add32_of_lt _ _ (by omega)
  have e4 : mul32 1 PAGE_SIZE = 4096 := by decide
  have hcond : vm.num_of_region = vm.num_of_region ∧
      add32 (add32 (vm.region_array (vm.num_of_region - 1)).start_address
        (vm.region_array (vm.num_of_region - 1)).size) (mul32 1 PAGE_SIZE) >
      add32 vm.base_address vm.size := by
    rw [e4, e1, e3, add32_of_lt _ _ (by omega)]
    exact ⟨rfl, by omega⟩
  rw [if_pos hcond]

theorem find_region_spec (vm : VMPool) (a : Nat) :
    ∀ fuel i,
      match find_region vm a fuel i with
      | some k => i ≤ k ∧ k < i + fuel ∧ (vm.region_array k).start_address = a ∧
          ∀ j, i ≤ j → j < k → (vm.region_array j).start_address ≠ a
      | none => ∀ j, i ≤ j → j < i + fuel → (vm.region_array j).start_address ≠ a := by
  intro fuel
  induction fuel with
  | zero =>
    intro i
    show ∀ j, i ≤ j → j < i + 0 → (vm.region_array j).start_address ≠ a
    intro j h1 h2
    omega
  | succ m ih =>
    intro i
    unfold find_region
    by_cases hc : (vm.region_array i).start_address = a
    · simp only [hc, if_true]
      exact ⟨le_refl _, by omega, trivial, fun j h1 h2 => by omega⟩
    · simp only [hc, if_false]
      have h := ih (i + 1)
      cases hf : find_region vm a m (i + 1) with
      | none =>
        rw [hf] at h
        show ∀ j, i ≤ j → j < i + (m + 1) → (vm.region_array j).start_address ≠ a
        intro j h1 h2
        by_cases e : j = i
        · rw [e]
          exact hc
        · exact h j (by omega) (by omega)
      | some k =>
        rw [hf] at h
        obtain ⟨h1, h2, h3, h4⟩ := h
        refine ⟨by omega, by omega, h3, ?_⟩
        intro j hj1 hj2
        by_cases e : j = i
        · rw [e]
          exact hc
        · exact h4 j (by omega) hj2

theorem find_region_some (vm : VMPool) (a k : Nat)
    (h : find_region vm a vm.num_of_region 0 = some k) :
    k < vm.num_of_region ∧ (vm.region_array k).start_address = a ∧
      ∀ j, j < k → (vm.region_array j).start_address ≠ a := by
  have hs := find_region_spec vm a vm.num_of_region 0
  rw [h] at hs
  obtain ⟨_, h2, h3, h4⟩ := hs
  exact ⟨by omega, h3, fun j hj => h4 j (Nat.zero_le j) hj⟩

theorem find_region_none (vm : VMPool) (a : Nat)
    (h : ∀ i, i < vm.num_of_region → (vm.region_array i).start_address ≠ a) :
    find_region vm a vm.num_of_region 0 = none := by
  cases hf : find_region vm a vm.num_of_region 0 with
  | none => rfl
  | some k =>
    obtain ⟨h1, h2, _⟩ := find_region_some vm a k hf
    exact absurd h2 (h k h1)

end VMPool

/-! ## Claims on `allocate` and `release` of the virtual memory pool -/

namespace VMPool

/-- The three-page scenario on a pool that ends at least a page below the top
of the address space. -/
theorem threePageScenario_holds (base : Nat) (pt : PageTable) (mem : Nat → Region)
    (hb : base + 16384 < 4294967296) : ThreePageScenario base pt mem := by
  unfold ThreePageScenario
  obtain ⟨a1, n1, r1⟩ := allocate_page_empty (construct base 12288 pt mem) rfl
    (by show base + 12288 < 4294967296; omega) (by show 8192 ≤ 12288; decide)
  obtain ⟨hb1, hs1⟩ := allocate_base_size (construct base 12288 pt mem) 4096
  generalize ((construct base 12288 pt mem).allocate 4096).2 = p1 at *
  generalize ((construct base 12288 pt mem).allocate 4096).1 = x1 at *
  have hb1 : p1.base_address = base := hb1
  have hs1 : p1.size = 12288 := hs1
  have r1 : p1.region_array 0 = { start_address := base + 4096, size := 4096 } := r1
  have hl1 : p1.num_of_region - 1 = 0 := by rw [n1]
  obtain ⟨a2, n2, r2, k2⟩ := allocate_page_append p1 (by rw [n1]; decide)
    (by rw [n1]; rfl) (by rw [hb1, hs1]; omega)
    (by rw [hl1, r1, hb1, hs1]; show base + 4096 + 4096 + 4096 ≤ base + 12288; omega)
  obtain ⟨hb2, hs2⟩ := allocate_base_size p1 4096
  rw [hl1, r1] at a2 r2
  rw [n1] at n2 r2
  have k2 := k2 0 (by rw [n1]; decide)
  rw [r1] at k2
  generalize (p1.allocate 4096).2 = p2 at *
  generalize (p1.allocate 4096).1 = x2 at *
  rw [hb1] at hb2
  rw [hs1] at hs2
  have a2 : x2 = base + 4096 + 4096 := a2
  have r2 : p2.region_array 1 = { start_address := base + 4096 + 4096, size := 4096 } := r2
  have hl2 : p2.num_of_region - 1 = 1 := by rw [n2]
  have hscan : gap_scan p2 1 (p2.num_of_region - 1) 1 = none := by
    rw [hl2]
    show (if sub32 (p2.region_array 1).start_address
        (add32 (p2.region_array (1 - 1)).start_address (p2.region_array (1 - 1)).size) >
        mul32 1 PAGE_SIZE then some 1 else gap_scan p2 1 0 (1 + 1)) = none
    have e0 : (1 : Nat) - 1 = 0 := rfl
    rw [e0, r2, k2]
    show (if sub32 (base + 4096 + 4096) (add32 (base + 4096) 4096) > mul32 1 PAGE_SIZE
      then some 1 else gap_scan p2 1 0 (1 + 1)) = none
    rw [add32_of_lt _ _ (by omega), ContFramePool.sub32_of_le _ _ (le_refl _)]
    have e4 : mul32 1 PAGE_SIZE = 4096 := by decide
    rw [e4]
    have hn : ¬ (base + 4096 + 4096 - (base + 4096 + 4096) > 4096) := by omega
    rw [if_neg hn]
    rfl
  have h3 := allocate_page_full p2 (by rw [n2]; decide) hscan (by rw [hb2, hs2]; omega)
    (by rw [hl2, r2, hb2, hs2]; show base + 4096 + 4096 + 4096 = base + 12288; omega)
  exact ⟨a1, by rw [a2], h3⟩

/-- C22 (as amended): the gap search of `allocate` starts at region 1 and
does not consider the space between the pool's reserved first page and region
0.  For every pool with at least one region, `allocate(s)` either fails,
returning 0 and leaving the pool as it was, or it returns the end address of
an existing region `curr - 1` with `1 ≤ curr ≤ num_of_region`, writes the new
region to slot `curr` and increments the region count; region 0 stays what it
was.  So when every region ends behind `base_address + 4096`, below `2 ^ 32`,
`allocate` never returns `base_address + 4096`. -/
theorem allocate_skips_first_gap (vm : VMPool) (s : Nat) (hnum : 1 ≤ vm.num_of_region) :
    (vm.allocate s = (0, vm) ∨
      ∃ curr, 1 ≤ curr ∧ curr ≤ vm.num_of_region ∧
        (vm.allocate s).1 = add32 (vm.region_array (curr - 1)).start_address
          (vm.region_array (curr - 1)).size ∧
        ((vm.allocate s).2.region_array curr).start_address = (vm.allocate s).1 ∧
        (vm.allocate s).2.num_of_region = vm.num_of_region + 1) ∧
    (vm.allocate s).2.region_array 0 = vm.region_array 0 ∧
    ((∀ i, i < vm.num_of_region →
        vm.base_address + 4096 <
          (vm.region_array i).start_address + (vm.region_array i).size ∧
        (vm.region_array i).start_address + (vm.region_array i).size < 4294967296) →
      (vm.allocate s).1 ≠ vm.base_address + 4096) := by
  rcases allocate_nonempty vm s (by omega) with h | ⟨curr, h1, h2, h3, h4, h5, _, h7, _⟩
  · rw [h]
    refine ⟨Or.inl rfl, rfl, ?_⟩
    intro _
    show 0 ≠ vm.base_address + 4096
    omega
  · refine ⟨Or.inr ⟨curr, h1, h2, h3, h5, h4⟩, h7 0 (by omega), ?_⟩
    intro hreg
    obtain ⟨hr1, hr2⟩ := hreg (curr - 1) (by omega)
    rw [h3, add32_of_lt _ _ hr2]
    omega

/-- C22 (as amended), witness: the pool whose only region starts two pages
behind `base_address`. -/
theorem allocate_skips_first_gap_witness :
    1 ≤ lowGapPool.num_of_region ∧
      (∀ i, i < lowGapPool.num_of_region →
        lowGapPool.base_address + 4096 <
          (lowGapPool.region_array i).start_address + (lowGapPool.region_array i).size ∧
        (lowGapPool.region_array i).start_address + (lowGapPool.region_array i).size <
          4294967296) ∧
      (lowGapPool.allocate 4096).2.region_array 0 = lowGapPool.region_array 0 ∧
      (lowGapPool.allocate 4096).1 ≠ lowGapPool.base_address + 4096 :=
  ⟨by decide, by decide, (allocate_skips_first_gap lowGapPool 4096 (by decide)).2.1,
    (allocate_skips_first_gap lowGapPool 4096 (by decide)).2.2 (by decide)⟩

/-- C23 (as amended): for every pool whose `base_address + size` does not
overflow, that holds its reserved page and whose regions lie inside the pool
behind that page, `allocate` returns 0 only when it fails, and then the
region array and the region count are unchanged.  For a pool of three pages
without regions whose end lies at least a page below `2 ^ 32`,
`allocate(4096)` returns `base_address + 4096`, then `base_address + 8192`,
and a third `allocate(4096)` returns 0 and leaves the pool as it was. -/
theorem allocate_failure_keeps_state (vm : VMPool) (s base : Nat) (pt : PageTable)
    (mem : Nat → Region) (hno : vm.base_address + vm.size < 4294967296)
    (hsz : 4096 ≤ vm.size)
    (hreg : ∀ i, i < vm.num_of_region →
      vm.base_address + 4096 ≤ (vm.region_array i).start_address ∧
      (vm.region_array i).start_address + (vm.region_array i).size ≤
        vm.base_address + vm.size)
    (hb : base + 16384 < 4294967296) :
    ((vm.allocate s).1 = 0 → vm.allocate s = (0, vm)) ∧ ThreePageScenario base pt mem := by
  refine ⟨?_, threePageScenario_holds base pt mem hb⟩
  by_cases h0 : vm.num_of_region = 0
  · rcases allocate_empty vm s h0 with h | ⟨h1, _⟩
    · exact fun _ => h
    · intro hz
      rw [h1, add32_of_lt _ _ (by unfold PAGE_SIZE; omega)] at hz
      unfold PAGE_SIZE at hz
      omega
  · rcases allocate_nonempty vm s h0 with h | ⟨curr, h1, h2, h3, _⟩
    · exact fun _ => h
    · intro hz
      obtain ⟨hr1, hr2⟩ := hreg (curr - 1) (by omega)
      rw [h3, add32_of_lt _ _ (by omega)] at hz
      omega

/-- C23 (as amended), witness: the three-page pool at `0x20000000` after two
allocations of one page is full; a third `allocate(4096)` returns 0 and
leaves it as it was. -/
theorem allocate_failure_keeps_state_witness :
    (((construct 536870912 12288 { page_directory := 0 } zeroRegions).allocate 4096).2.allocate
        4096).2.num_of_region = 2 ∧
      ((((construct 536870912 12288 { page_directory := 0 } zeroRegions).allocate 4096).2.allocate
        4096).2.allocate 4096).1 = 0 ∧
      ((((construct 536870912 12288 { page_directory := 0 } zeroRegions).allocate 4096).2.allocate
        4096).2.allocate 4096) =
        (0, (((construct 536870912 12288 { page_directory := 0 } zeroRegions).allocate
          4096).2.allocate 4096).2) ∧
      ThreePageScenario 536870912 { page_directory := 0 } zeroRegions :=
  ⟨by decide, by decide,
    (allocate_failure_keeps_state
      (((construct 536870912 12288 { page_directory := 0 } zeroRegions).allocate 4096).2.allocate
        4096).2 4096 536870912 { page_directory := 0 } zeroRegions (by decide) (by decide)
      (by decide) (by decide)).1 (by decide),
    (allocate_failure_keeps_state
      (((construct 536870912 12288 { page_directory := 0 } zeroRegions).allocate 4096).2.allocate
        4096).2 4096 536870912 { page_directory := 0 } zeroRegions (by decide) (by decide)
      (by decide) (by decide)).2⟩

end VMPool

namespace VMPool

/-! ## `release` and its `free_page` calls -/

/-- The `free_page` loop of `release` makes the calls for the addresses
`start_address + j * PAGE_SIZE`, `i ≤ j < i + fuel`, in ascending order. -/
theorem free_region_pages_eq (vm : VMPool) (k : Nat) :
    ∀ fuel i s, free_region_pages vm k fuel i s =
      free_page_calls vm.page_table
        ((List.range' i fuel).map
          (fun j => add32 (vm.region_array k).start_address (mul32 j PAGE_SIZE))) s := by
  intro fuel
  induction fuel with
  | zero =>
    intro i s
    rfl
  | succ m ih =>
    intro i s
    rw [List.range'_succ, List.map_cons]
    unfold free_region_pages free_page_calls
    cases hfp : s.free_page vm.page_table
        (add32 (vm.region_array k).start_address (mul32 i PAGE_SIZE)) with
    | error e => rfl
    | ok s1 => exact ih (i + 1) s1

/-- The whole of `release`: the `free_page` calls for the pages named by
`release_pages`, and, when all of them return, the pool `release_regions`. -/
theorem release_eq (vm : VMPool) (s : System) (a : Nat) :
    vm.release s a =
      match free_page_calls vm.page_table (vm.release_pages a) s with
      | Except.error e => Except.error e
      | Except.ok s1 => Except.ok (s1, vm.release_regions a) := by
  unfold release release_pages release_regions
  cases hf : find_region vm a vm.num_of_region 0 with
  | none => rfl
  | some k =>
    simp only
    rw [free_region_pages_eq vm k, ← List.range_eq_range']

theorem release_ok (vm : VMPool) (s s1 : System) (a : Nat)
    (h : free_page_calls vm.page_table (vm.release_pages a) s = Except.ok s1) :
    vm.release s a = Except.ok (s1, vm.release_regions a) := by
  rw [release_eq, h]

/-- A `release` call that returns leaves the pool `release_regions`. -/
theorem release_returned (vm vm1 : VMPool) (s s1 : System) (a : Nat)
    (h : vm.release s a = Except.ok (s1, vm1)) : vm1 = vm.release_regions a := by
  rw [release_eq] at h
  cases hc : free_page_calls vm.page_table (vm.release_pages a) s with
  | error e =>
    rw [hc] at h
    cases h
  | ok s2 =>
    rw [hc] at h
    cases h
    rfl

/-- With paging off and no entry present `free_page` returns at once. -/
theorem free_page_idle (pt : PageTable) (a : Nat) :
    System.idleSystem.free_page pt a = Except.ok System.idleSystem := by
  have ht : ∀ la, System.idleSystem.translate la = Except.ok la := by
    intro la
    unfold System.translate
    have h0 : System.idleSystem.cr0.testBit 31 = false := by decide
    simp only [h0, if_true]
  unfold System.free_page
  simp only [System.load_word_of_translate _ _ _ (ht _)]
  have hm : ∀ x, System.idleSystem.mem x = 0 := fun _ => rfl
  have hne : ¬ ((0 : Nat) &&& 1 = 1) := by decide
  simp only [hm, hne, if_false]

theorem free_page_calls_idle (pt : PageTable) (l : List Nat) :
    free_page_calls pt l System.idleSystem = Except.ok System.idleSystem := by
  induction l with
  | nil => rfl
  | cons a rest ih =>
    unfold free_page_calls
    rw [free_page_idle pt a]
    exact ih

/-- Every pool `release_regions` is the pool some returning `release` call
leaves. -/
theorem release_regions_returned (vm : VMPool) (a : Nat) :
    ∃ s s1, vm.release s a = Except.ok (s1, vm.release_regions a) :=
  ⟨System.idleSystem, System.idleSystem,
    release_ok vm _ _ a (free_page_calls_idle vm.page_table _)⟩

end VMPool

namespace VMPool

/-- C25: for every pool state and every address `a` that is not the start
address of any region currently in the array, `release(a)` performs no
mutation: in every system state it returns with the system and the pool,
with its region array and region count, what they were, and
`PageTable::free_page` is not called. -/
theorem release_unknown_address (vm : VMPool) (a : Nat)
    (h : ∀ i, i < vm.num_of_region → (vm.region_array i).start_address ≠ a) :
    vm.release_regions a = vm ∧ vm.release_pages a = [] ∧
      ∀ s, vm.release s a = Except.ok (s, vm) := by
  have hf := find_region_none vm a h
  unfold release release_regions release_pages
  rw [hf]
  exact ⟨rfl, rfl, fun _ => rfl⟩

/-- C25, witness: the address `0x20002000` after its region was released, and
the address `0x20001800` in the middle of the first region. -/
theorem release_unknown_address_witness :
    (∀ i, i < gapPool.num_of_region → (gapPool.region_array i).start_address ≠ 536879104) ∧
      (∀ i, i < gapPool.num_of_region → (gapPool.region_array i).start_address ≠ 536877056) ∧
      gapPool.release_regions 536879104 = gapPool ∧ gapPool.release_pages 536879104 = [] ∧
      gapPool.release_regions 536877056 = gapPool ∧ gapPool.release_pages 536877056 = [] ∧
      gapPool.release (System.bootWith System.twoFramePool [System.wholePool]) 536879104 =
        Except.ok (System.bootWith System.twoFramePool [System.wholePool], gapPool) :=
  ⟨by decide, by decide, (release_unknown_address gapPool 536879104 (by decide)).1,
    (release_unknown_address gapPool 536879104 (by decide)).2.1,
    (release_unknown_address gapPool 536877056 (by decide)).1,
    (release_unknown_address gapPool 536877056 (by decide)).2.1,
    (release_unknown_address gapPool 536879104 (by decide)).2.2 _⟩

end VMPool
